import Mathlib

/-!
# paq8px `Lstm` : a shallow embedding of `src/lstm/Lstm.hpp`

The class `Lstm<simd, T>` is embedded as a record of its data members together
with one Lean function per member function.  Conventions:

* `std::valarray<float>` / `std::vector` are `List`s; `v[i]` is `List.getD v i 0`
  and `v[i] = x` is `List.set v i x`.  On every state that satisfies the size
  invariant established by the constructor all accesses are in bounds.
* `float` arithmetic is modelled exactly in an arbitrary linearly ordered field
  `α` (instantiated with `ℚ` when definitions are evaluated).
* The symbol type `T` (an integral type) is `Int`; `i == input` with an unsigned
  index `i` is `(i : Int) = input`.
* `std::size_t` and the `int` loop counters are `Nat`: the casts
  `static_cast<int>(horizon)` and `static_cast<int>(layers.size())` are value
  preserving for every size that fits an `int`.
* The collaborators that live in other headers (`LstmLayer`, `Posit`,
  the vector kernels, `expa`) are the fields of `Collab`.
* A weight file is the sequence of units written to it (`FileItem`): 4-byte blocks in
  raw mode, bit fields in quantized mode.  A template instantiation that the
  `static_assert` rejects is `none`.
* The fields `sweeps` and `bp_calls` of `Lstm` are ghost state: they record that
  the body of `if (epoch == 0)` in `Perceive` was entered and the arguments of
  each `BackwardPass` call; no code reads them.
-/

set_option linter.unusedSectionVars false
set_option linter.unusedVariables false

namespace PAQ8PX

/-! ## Data model -/

/-- The `SIMD` selector, first template argument of `Lstm`.  The enumeration is declared
in another header; `Lstm.hpp` only tests `simd == SIMD_AVX2`, so every other value is
represented by `SIMD_NONE`. -/
inductive SIMD where
  | SIMD_NONE
  | SIMD_AVX2
deriving DecidableEq, Repr

/-- The part of `LstmLayer<simd, T>` the core touches: the tensors handed out by
`Weights()` (tensor, row, element), the public counter `update_steps`, and the rest
of the cell state, which is left abstract. -/
structure LstmLayer (α S : Type) where
  weights : List (List (List α))
  update_steps : Nat
  cell : S

/-- Collaborators declared in headers other than `Lstm.hpp`.
`ForwardPass l input sym hidden offset` and
`BackwardPass l input epoch layer sym hidden_error` return the updated layer and
the updated buffer they receive by pointer.  `newLayer` is the `LstmLayer`
constructor; `Encode bits exp` and `Decode bits exp` are `Posit<bits, exp>`;
`x86` tells whether the body of `SoftMaxSimdAVX2` is compiled in. -/
structure Collab (α S : Type) where
  expa : α → α
  ForwardPass : LstmLayer α S → List α → Int → List α → Nat → LstmLayer α S × List α
  BackwardPass : LstmLayer α S → List α → Nat → Nat → Int → List α → LstmLayer α S × List α
  newLayer : Nat → Nat → Nat → Nat → Nat → α → α → LstmLayer α S
  dot256_ps_fma3 : List α → List α → Nat → α → α
  exp256_ps_fma3 : List α → List α
  hsum256_ps_avx : List α → α
  Encode : Int → Int → α → Nat
  Decode : Int → Int → Nat → α
  x86 : Bool

/-- Ghost record of one `layers[layer]->BackwardPass(...)` call: its arguments. -/
structure BackwardCall (α : Type) where
  epoch : Nat
  layer : Nat
  input : List α
  input_symbol : Int
  hidden_error : List α

/-- The data members of `Lstm<simd, T>` (plus the ghost fields `sweeps`, `bp_calls`). -/
structure Lstm (α S : Type) where
  simd : SIMD
  layers : List (LstmLayer α S)
  layer_input : List (List (List α))
  output_layer : List (List (List α))
  output : List (List α)
  hidden : List α
  hidden_error : List α
  input_history : List Int
  saved_timestep : Nat
  learning_rate : α
  num_cells : Nat
  horizon : Nat
  input_size : Nat
  output_size : Nat
  epoch : Nat
  sweeps : Nat
  bp_calls : List (BackwardCall α)

section Embedding

variable {α S : Type} [LinearOrderedField α]

/-! ## Array access helpers -/

/-- Read `m[e][i]` of a two-level array. -/
def get2 (m : List (List α)) (e i : Nat) : α :=
  (m.getD e []).getD i 0

/-- Write `m[e][i] = v` of a two-level array. -/
def set2 (m : List (List α)) (e i : Nat) (v : α) : List (List α) :=
  m.set e ((m.getD e []).set i v)

/-- Read `m[e][i][j]` of a three-level array. -/
def get3 (m : List (List (List α))) (e i j : Nat) : α :=
  ((m.getD e []).getD i []).getD j 0

/-- Write `m[e][i][j] = v` of a three-level array. -/
def set3 (m : List (List (List α))) (e i j : Nat) (v : α) : List (List (List α)) :=
  m.set e ((m.getD e []).set i (((m.getD e []).getD i []).set j v))

/-- The call `memcpy(&dst[dstOff], &src[srcOff], n * sizeof(float))`. -/
def memcpy (dst : List α) (dstOff : Nat) (src : List α) (srcOff n : Nat) : List α :=
  (List.range n).foldl (fun d k => d.set (dstOff + k) (src.getD (srcOff + k) 0)) dst

/-- Modelled from the spec: `SumOfProducts` is declared in a header that is not part of
the source at hand; the spec describes it as "a dot product of the hidden vector against
that index's weight row", here over the first `n` entries, accumulated left to right. -/
def SumOfProducts (a b : List α) (n : Nat) : α :=
  (List.range n).foldl (fun acc j => acc + a.getD j 0 * b.getD j 0) 0

/-! ## Constructor -/

/-- The value of `layer_input` after the constructor body: `horizon` slots of
`num_layers` records of size `input_size + 1 + num_cells * 2`, record 0 resized to
`1 + num_cells + input_size`, and the last element of every record set to `1`. -/
def initLayerInput (input_size num_cells num_layers horizon : Nat) : List (List (List α)) :=
  let li0 : List (List (List α)) :=
    List.replicate horizon (List.replicate num_layers (List.replicate (input_size + 1 + num_cells * 2) 0))
  (List.range horizon).foldl
    (fun li epoch =>
      let li1 := li.set epoch ((li.getD epoch []).set 0 (List.replicate (1 + num_cells + input_size) 0))
      (List.range num_layers).foldl
        (fun li2 i => set3 li2 epoch i (((li2.getD epoch []).getD i []).length - 1) 1) li1)
    li0

/-- The constructor `Lstm::Lstm`. -/
def Lstm.new (c : Collab α S) (simd : SIMD)
    (input_size output_size num_cells num_layers horizon : Nat)
    (learning_rate gradient_clip : α) : Lstm α S :=
  let layer_input : List (List (List α)) := initLayerInput input_size num_cells num_layers horizon
  let hidden0 : List α := List.replicate (num_cells * num_layers + 1) 0
  { simd := simd
    layers := (List.range num_layers).map (fun i =>
      c.newLayer (((layer_input.getD 0 []).getD i []).length + output_size)
        input_size output_size num_cells horizon gradient_clip learning_rate)
    layer_input := layer_input
    output_layer :=
      List.replicate horizon (List.replicate output_size (List.replicate (num_cells * num_layers + 1) 0))
    output := List.replicate horizon (List.replicate output_size (1 / (output_size : α)))
    hidden := hidden0.set (hidden0.length - 1) 1
    hidden_error := List.replicate num_cells 0
    input_history := List.replicate horizon 0
    saved_timestep := 0
    learning_rate := learning_rate
    num_cells := num_cells
    horizon := horizon
    input_size := input_size
    output_size := output_size
    epoch := 0
    sweeps := 0
    bp_calls := [] }

/-! ## `SetInput` and `Predict` -/

/-- The member `SetInput`: copy `input_size` features into every layer record of the
current slot. -/
def SetInput (s : Lstm α S) (input : List α) : Lstm α S :=
  (List.range s.layers.length).foldl
    (fun s i =>
      let rec_i := memcpy ((s.layer_input.getD s.epoch []).getD i []) 0 input 0 s.input_size
      let li1 := s.layer_input.set s.epoch ((s.layer_input.getD s.epoch []).set i rec_i)
      { s with layer_input := li1 })
    s

/-- One iteration `i` of the layer loop of `Predict`. -/
def forwardLayer (c : Collab α S) (input : Int) (s : Lstm α S) (i : Nat) : Lstm α S :=
  let li1 := s.layer_input.set s.epoch
    ((s.layer_input.getD s.epoch []).set i
      (memcpy ((s.layer_input.getD s.epoch []).getD i []) s.input_size s.hidden (i * s.num_cells) s.num_cells))
  match s.layers[i]? with
  | none => { s with layer_input := li1 }
  | some l =>
    let r := c.ForwardPass l ((li1.getD s.epoch []).getD i []) input s.hidden (i * s.num_cells)
    let layers1 := s.layers.set i r.1
    let hidden1 := r.2
    let li2 :=
      if i < layers1.length - 1 then
        li1.set s.epoch
          ((li1.getD s.epoch []).set (i + 1)
            (memcpy ((li1.getD s.epoch []).getD (i + 1) []) (s.num_cells + s.input_size)
              hidden1 (i * s.num_cells) s.num_cells))
      else li1
    { s with layers := layers1, hidden := hidden1, layer_input := li2 }

/-- The layer loop of `Predict` (all forward steps, bottom to top). -/
def forwardAll (c : Collab α S) (input : Int) (s : Lstm α S) : Lstm α S :=
  (List.range s.layers.length).foldl (forwardLayer c input) s

/-- First loop of `SoftMaxSimdNone`:
`output[epoch][i] = expa(SumOfProducts(&hidden[0], &output_layer[epoch][i][0], hidden.size()))`. -/
def softMaxExp (c : Collab α S) (s : Lstm α S) : List (List α) :=
  (List.range s.output_size).foldl
    (fun out i =>
      set2 out s.epoch i
        (c.expa (SumOfProducts s.hidden ((s.output_layer.getD s.epoch []).getD i []) s.hidden.length)))
    s.output

/-- Second loop of `SoftMaxSimdNone`: `s += output[epoch][i]`, starting from `0.0f`. -/
def softMaxSum (out : List (List α)) (epoch : Nat) : α :=
  (List.range (out.getD epoch []).length).foldl (fun acc i => acc + get2 out epoch i) 0

/-- Third loop of `SoftMaxSimdNone`: `output[epoch][i] /= s`. -/
def softMaxDiv (out : List (List α)) (epoch : Nat) (sum : α) : List (List α) :=
  (List.range (out.getD epoch []).length).foldl
    (fun o i => set2 o epoch i (get2 o epoch i / sum)) out

/-- The member `SoftMaxSimdNone`. -/
def SoftMaxSimdNone (c : Collab α S) (s : Lstm α S) : Lstm α S :=
  let out1 := softMaxExp c s
  { s with output := softMaxDiv out1 s.epoch (softMaxSum out1 s.epoch) }

/-- The member `SoftMaxSimdAVX2`; a `__m256` is a list of eight lanes. -/
def SoftMaxSimdAVX2 (c : Collab α S) (s : Lstm α S) : Lstm α S :=
  if c.x86 = false then s else
  let SIMDW := 8
  let limit := s.output_size - s.output_size % SIMDW
  let len := s.hidden.length
  let remainder := s.output_size % SIMDW
  let v_sum0 : List α := List.replicate SIMDW 0
  let out1 := (List.range limit).foldl
    (fun out i =>
      set2 out s.epoch i
        (c.dot256_ps_fma3 s.hidden ((s.output_layer.getD s.epoch []).getD i []) len 0))
    s.output
  let r2 := (List.range (limit / SIMDW)).foldl
    (fun (p : List (List α) × List α) b =>
      let i := b * SIMDW
      let v_exp := c.exp256_ps_fma3 ((List.range SIMDW).map (fun k => get2 p.1 s.epoch (i + k)))
      let out := (List.range SIMDW).foldl (fun o k => set2 o s.epoch (i + k) (v_exp.getD k 0)) p.1
      (out, List.zipWith (fun x y => x + y) p.2 v_exp))
    (out1, v_sum0)
  let sum0 := c.hsum256_ps_avx r2.2
  let r3 := (List.range remainder).foldl
    (fun (p : List (List α) × α) t =>
      let i := s.output_size - (remainder - t)
      let out := set2 p.1 s.epoch i
        (c.expa (c.dot256_ps_fma3 s.hidden ((s.output_layer.getD s.epoch []).getD i []) len 0))
      (out, p.2 + get2 out s.epoch i))
    (r2.1, sum0)
  { s with output := r3.1.set s.epoch ((r3.1.getD s.epoch []).map (fun x => x / r3.2)) }

/-- The member `Predict`: the new state and the returned reference `output[epoch_]`. -/
def Predict (c : Collab α S) (s : Lstm α S) (input : Int) : Lstm α S × List α :=
  let s1 := forwardAll c input s
  let s2 := if s1.simd = SIMD.SIMD_AVX2 then SoftMaxSimdAVX2 c s1 else SoftMaxSimdNone c s1
  let epoch_ := s2.epoch
  let epoch1 := s2.epoch + 1
  let s3 := { s2 with epoch := if epoch1 = s2.horizon then 0 else epoch1 }
  (s3, s3.output.getD epoch_ [])

/-! ## `Perceive` -/

/-- The expression `((epoch > 0) ? epoch : horizon) - 1` computed at the top of
`Perceive`, `LoadFromDisk` and `SaveToDisk`. -/
def lastEpoch (s : Lstm α S) : Nat :=
  (if s.epoch > 0 then s.epoch else s.horizon) - 1

/-- The `i`/`j` loops of the sweep for one `(epoch_, layer)` pair: the value of
`hidden_error` right before `BackwardPass` is called. -/
def accumulateError (s : Lstm α S) (epoch_ layer : Nat) : List α :=
  let offset := layer * s.num_cells
  (List.range s.output_size).foldl
    (fun he i =>
      let error :=
        if Int.ofNat i = s.input_history.getD epoch_ 0 then get2 s.output epoch_ i - 1
        else get2 s.output epoch_ i
      (List.range he.length).foldl
        (fun he1 j => he1.set j (he1.getD j 0 + get3 s.output_layer epoch_ i (j + offset) * error))
        he)
    s.hidden_error

/-- The body of the `layer` loop of the sweep, for slot `epoch_`. -/
def sweepLayer (c : Collab α S) (old_input : Int) (epoch_ : Nat) (s : Lstm α S) (layer : Nat) :
    Lstm α S :=
  let he := accumulateError s epoch_ layer
  let prev_epoch := (if epoch_ > 0 then epoch_ else s.horizon) - 1
  let input_symbol := if epoch_ > 0 then s.input_history.getD prev_epoch 0 else old_input
  let inp := (s.layer_input.getD epoch_ []).getD layer []
  match s.layers[layer]? with
  | none => { s with hidden_error := he }
  | some l =>
    let r := c.BackwardPass l inp epoch_ layer input_symbol he
    { s with
      layers := s.layers.set layer r.1
      hidden_error := r.2
      bp_calls := s.bp_calls ++ [BackwardCall.mk epoch_ layer inp input_symbol he] }

/-- The body of the `epoch_` loop of the sweep: layers from the topmost down to 0. -/
def sweepEpoch (c : Collab α S) (old_input : Int) (s : Lstm α S) (epoch_ : Nat) : Lstm α S :=
  (List.range s.layers.length).reverse.foldl (sweepLayer c old_input epoch_) s

/-- The body of `if (epoch == 0)` in `Perceive`: slots from `horizon - 1` down to 0. -/
def sweep (c : Collab α S) (old_input : Int) (s : Lstm α S) : Lstm α S :=
  (List.range s.horizon).reverse.foldl (sweepEpoch c old_input) { s with sweeps := s.sweeps + 1 }

/-- The final `i`/`j` loops of `Perceive`: the gradient step on the output projection,
executed in place on `output_layer`. -/
def gradStep (s : Lstm α S) (last_epoch : Nat) (input : Int) : Lstm α S :=
  let ol := (List.range s.output_size).foldl
    (fun ol i =>
      let error :=
        if Int.ofNat i = input then get2 s.output last_epoch i - 1 else get2 s.output last_epoch i
      (List.range s.hidden.length).foldl
        (fun ol1 j =>
          set3 ol1 s.epoch i j (get3 ol1 last_epoch i j - s.learning_rate * error * s.hidden.getD j 0))
        ol)
    s.output_layer
  { s with output_layer := ol }

/-- The statements of `Perceive` that precede `return Predict(input)`. -/
def perceiveUpdate (c : Collab α S) (s : Lstm α S) (input : Int) : Lstm α S :=
  let last_epoch := lastEpoch s
  let old_input := s.input_history.getD last_epoch 0
  let s1 := { s with input_history := s.input_history.set last_epoch input }
  let s2 := if s1.epoch = 0 then sweep c old_input s1 else s1
  gradStep s2 last_epoch input

/-- The member `Perceive`. -/
def Perceive (c : Collab α S) (s : Lstm α S) (input : Int) : Lstm α S × List α :=
  Predict c (perceiveUpdate c s input) input

/-! ## `SaveTimeStep` and `RestoreTimeStep` -/

/-- The member `SaveTimeStep`. -/
def SaveTimeStep (s : Lstm α S) : Lstm α S :=
  match s.layers[0]? with
  | none => s
  | some l => { s with saved_timestep := l.update_steps }

/-- The member `RestoreTimeStep`. -/
def RestoreTimeStep (s : Lstm α S) : Lstm α S :=
  let layers1 := (List.range s.layers.length).foldl
    (fun ls i =>
      match ls[i]? with
      | none => ls
      | some l => ls.set i { l with update_steps := s.saved_timestep })
    s.layers
  { s with layers := layers1 }

/-! ## Weight persistence -/

/-- Modelled from the spec: the class `BitFileDisk` is declared in a header that is not
part of the source at hand.  The spec describes it as "the bit-addressable file I/O
primitive used for reading/writing arbitrary-width fields and raw byte blocks".  A file
is the sequence of units written to it: a 4-byte block holding one `float`, or a bit
field of a given width. -/
inductive FileItem (α : Type) where
  | block (v : α)
  | bits (width : Nat) (value : Nat)

/-- Modelled from the spec: `blockWrite(&v, sizeof(float))` of the absent `BitFileDisk`
appends one 4-byte block. -/
def blockWrite (file : List (FileItem α)) (v : α) : List (FileItem α) :=
  file ++ [FileItem.block v]

/-- Modelled from the spec: `putBits(code, width)` of the absent `BitFileDisk` appends one
field of `width` bits. -/
def putBits (file : List (FileItem α)) (code width : Nat) : List (FileItem α) :=
  file ++ [FileItem.bits width code]

/-- Modelled from the spec: `blockRead(&v, sizeof(float))` of the absent `BitFileDisk`
consumes the next 4-byte block; `none` stands for a return value different from
`sizeof(float)` (a short read), which consumes nothing. -/
def blockRead (file : List (FileItem α)) : Option α × List (FileItem α) :=
  match file with
  | FileItem.block v :: rest => (some v, rest)
  | _ => (none, file)

/-- Modelled from the spec: `getBits(width)` of the absent `BitFileDisk` consumes the next
bit field.  Reading past the end, or a field of another width, lies outside the
model and yields `0`. -/
def getBits (file : List (FileItem α)) (width : Nat) : Nat × List (FileItem α) :=
  match file with
  | FileItem.bits w v :: rest => (if w = width then v else 0, rest)
  | _ => (0, file)

/-- The loop nest `for i < output_size, for j < output_layer[0][i].size()` of `SaveToDisk`
(it occurs three times), running `body` on `output_layer[last_epoch][i][j]`. -/
def forEachOutputWeight {σ : Type} (s : Lstm α S) (body : σ → α → σ) (init : σ) : σ :=
  let last_epoch := lastEpoch s
  (List.range s.output_size).foldl
    (fun acc i =>
      (List.range ((s.output_layer.getD 0 []).getD i []).length).foldl
        (fun acc1 j => body acc1 (get3 s.output_layer last_epoch i j)) acc)
    init

/-- The loop nest `i, j, k, l` over `layers[i]->Weights()` of `SaveToDisk` (it occurs three
times), running `body` on `(*weights[j])[k][l]`. -/
def forEachLayerWeight {σ : Type} (layers : List (LstmLayer α S)) (body : σ → α → σ) (init : σ) : σ :=
  (List.range layers.length).foldl
    (fun acc i =>
      match layers[i]? with
      | none => acc
      | some ly =>
        let weights := ly.weights
        (List.range weights.length).foldl
          (fun acc1 j =>
            (List.range (weights.getD j []).length).foldl
              (fun acc2 k =>
                (List.range ((weights.getD j []).getD k []).length).foldl
                  (fun acc3 l => body acc3 (get3 weights j k l)) acc2)
              acc1)
          acc)
    init

/-- The body `if ((w = std::fabs(x)) > max_w) max_w = w;` of the scan for the largest
magnitude. -/
def maxStep (max_w x : α) : α :=
  if |x| > max_w then |x| else max_w

/-- The value of `max_w` after the two scans of `SaveToDisk`. -/
def maxAbsWeight (s : Lstm α S) : α :=
  forEachLayerWeight s.layers maxStep (forEachOutputWeight s maxStep (0 : α))

/-- The value of `scale` in `SaveToDisk`:
`Posit<9, 1>::Decode(Posit<9, 1>::Encode(std::max<float>(1.f, max_w / s)))` with
`s = std::pow(2.f, (1 << exp) * (bits - 2))`. -/
def saveScale (c : Collab α S) (bits exp : Int) (s : Lstm α S) : α :=
  let sc : α := (2 : α) ^ ((2 : Int) ^ exp.toNat * (bits - 2))
  let max_w := maxAbsWeight s
  c.Decode 9 1 (c.Encode 9 1 (if 1 < max_w / sc then max_w / sc else 1))

/-- The first branch of `SaveToDisk` (`(bits > 0) && (bits <= 16)`).  The closing
`file.flush()` completes the last byte and adds no field. -/
def saveQuantized (c : Collab α S) (bits exp : Int) (s : Lstm α S) (file : List (FileItem α)) :
    List (FileItem α) :=
  let scale := saveScale c bits exp s
  let f1 := putBits file (c.Encode 9 1 scale) 8
  let f2 := forEachOutputWeight s (fun f w => putBits f (c.Encode bits exp (w / scale)) bits.toNat) f1
  forEachLayerWeight s.layers (fun f w => putBits f (c.Encode bits exp (w / scale)) bits.toNat) f2

/-- The `else` branch of `SaveToDisk`. -/
def saveRaw (s : Lstm α S) (file : List (FileItem α)) : List (FileItem α) :=
  let f1 := forEachOutputWeight s blockWrite file
  forEachLayerWeight s.layers blockWrite f1

/-- The member template `SaveToDisk<bits, exp>`: the content of the created file, or
`none` when the `static_assert` rejects the instantiation. -/
def SaveToDisk (c : Collab α S) (bits exp : Int) (s : Lstm α S) : Option (List (FileItem α)) :=
  if ¬ (bits ≥ 0 ∧ bits ≤ 16) then none
  else if bits > 0 ∧ bits ≤ 16 then some (saveQuantized c bits exp s [])
  else some (saveRaw s [])

/-- An innermost loop of `LoadFromDisk`, `for (l = 0; l < n; l++) row[l] = read()`, where in
raw mode a short read (`none`) leaves the loop through `break`.  The first component of
the loop state tells whether the loop was left. -/
def loadRow (read : List (FileItem α) → Option α × List (FileItem α)) (n : Nat)
    (file : List (FileItem α)) (row : List α) : List (FileItem α) × List α :=
  let r := (List.range n).foldl
    (fun (st : Bool × List (FileItem α) × List α) l =>
      if st.1 then st
      else
        match read st.2.1 with
        | (none, f1) => (true, f1, st.2.2)
        | (some v, f1) => (false, f1, st.2.2.set l v))
    (false, file, row)
  r.2

/-- The body of the `i` loop of `LoadFromDisk` over the rows of `output_layer[last_epoch]`:
the `j` loop, bounded by `output_layer[0][i].size()`. -/
def loadOutputRow (read : List (FileItem α) → Option α × List (FileItem α)) (last_epoch : Nat)
    (st : List (FileItem α) × List (List (List α))) (i : Nat) :
    List (FileItem α) × List (List (List α)) :=
  let n := ((st.2.getD 0 []).getD i []).length
  let r := loadRow read n st.1 ((st.2.getD last_epoch []).getD i [])
  (r.1, st.2.set last_epoch ((st.2.getD last_epoch []).set i r.2))

/-- The loop nest of `LoadFromDisk` that fills `output_layer[last_epoch]`. -/
def loadOutputLayer (read : List (FileItem α) → Option α × List (FileItem α)) (s : Lstm α S)
    (file : List (FileItem α)) : List (FileItem α) × List (List (List α)) :=
  (List.range s.output_size).foldl (loadOutputRow read (lastEpoch s)) (file, s.output_layer)

/-- The body of the `j` loop of `LoadFromDisk` over the tensors of one layer: the loops
`k, l` over the rows and elements of `*weights[j]`. -/
def loadTensor (read : List (FileItem α) → Option α × List (FileItem α))
    (st : List (FileItem α) × List (List (List α))) (j : Nat) :
    List (FileItem α) × List (List (List α)) :=
  (List.range (st.2.getD j []).length).foldl
    (fun (st1 : List (FileItem α) × List (List (List α))) k =>
      let row := (st1.2.getD j []).getD k []
      let r := loadRow read row.length st1.1 row
      (r.1, st1.2.set j ((st1.2.getD j []).set k r.2)))
    st

/-- The loops `j, k, l` of `LoadFromDisk` over the tensors of one layer. -/
def loadTensors (read : List (FileItem α) → Option α × List (FileItem α))
    (file : List (FileItem α)) (weights : List (List (List α))) :
    List (FileItem α) × List (List (List α)) :=
  (List.range weights.length).foldl (loadTensor read) (file, weights)

/-- The body of the `i` loop of `LoadFromDisk` over `layers`; the writes go through the
pointers returned by `Weights()` and so change the layer. -/
def loadLayer (read : List (FileItem α) → Option α × List (FileItem α))
    (st : List (FileItem α) × List (LstmLayer α S)) (i : Nat) :
    List (FileItem α) × List (LstmLayer α S) :=
  match st.2[i]? with
  | none => st
  | some ly =>
    let r := loadTensors read st.1 ly.weights
    (r.1, st.2.set i { ly with weights := r.2 })

/-- The loop of `LoadFromDisk` over `layers`. -/
def loadLayers (read : List (FileItem α) → Option α × List (FileItem α))
    (file : List (FileItem α)) (layers : List (LstmLayer α S)) :
    List (FileItem α) × List (LstmLayer α S) :=
  (List.range layers.length).foldl (loadLayer read) (file, layers)

/-- Both loop nests of a branch of `LoadFromDisk`, given how one weight is read: the
unread rest of the file and the new state. -/
def loadWith (read : List (FileItem α) → Option α × List (FileItem α)) (s : Lstm α S)
    (file : List (FileItem α)) : List (FileItem α) × Lstm α S :=
  let r1 := loadOutputLayer read s file
  let r2 := loadLayers read r1.1 s.layers
  (r2.1, { s with output_layer := r1.2, layers := r2.2 })

/-- Reading one weight in quantized mode: `Posit<bits, exp>::Decode(file.getBits(bits)) * scale`;
there is no `break`. -/
def readQuantized (c : Collab α S) (bits exp : Int) (scale : α) (file : List (FileItem α)) :
    Option α × List (FileItem α) :=
  let g := getBits file bits.toNat
  (some (c.Decode bits exp g.1 * scale), g.2)

/-- The first branch of `LoadFromDisk` (`(bits > 0) && (bits <= 16)`). -/
def loadQuantized (c : Collab α S) (bits exp : Int) (s : Lstm α S) (file : List (FileItem α)) :
    List (FileItem α) × Lstm α S :=
  let g := getBits file 8
  let scale := c.Decode 9 1 g.1
  loadWith (readQuantized c bits exp scale) s g.2

/-- The `else` branch of `LoadFromDisk`. -/
def loadRaw (s : Lstm α S) (file : List (FileItem α)) : List (FileItem α) × Lstm α S :=
  loadWith blockRead s file

/-- The member template `LoadFromDisk<bits, exp>` applied to a file with the given
content: the new state, or `none` when the `static_assert` rejects the instantiation. -/
def LoadFromDisk (c : Collab α S) (bits exp : Int) (s : Lstm α S) (file : List (FileItem α)) :
    Option (Lstm α S) :=
  if ¬ (bits ≥ 0 ∧ bits ≤ 16) then none
  else if bits > 0 ∧ bits ≤ 16 then some (loadQuantized c bits exp s file).2
  else some (loadRaw s file).2

/-! ## Sequences of calls -/

/-- One call of the public interface that the epoch counter can observe. -/
inductive Call (α : Type) where
  | setInput (input : List α)
  | predict (input : Int)
  | perceive (input : Int)

/-- The state after one call. -/
def Call.run (c : Collab α S) (s : Lstm α S) : Call α → Lstm α S
  | Call.setInput v => SetInput s v
  | Call.predict x => (Predict c s x).1
  | Call.perceive x => (Perceive c s x).1

/-- The state after a sequence of calls, executed left to right. -/
def runCalls (c : Collab α S) (s : Lstm α S) (calls : List (Call α)) : Lstm α S :=
  calls.foldl (Call.run c) s

/-- The state after consecutive `Perceive` calls with the given observed symbols. -/
def perceiveMany (c : Collab α S) (s : Lstm α S) (xs : List Int) : Lstm α S :=
  xs.foldl (fun t x => (Perceive c t x).1) s

/-! ## The size invariant -/

/-- The sizes the constructor gives to the ring buffers `output` and `output_layer`,
together with `epoch < horizon`. -/
structure WellSized (s : Lstm α S) : Prop where
  epoch_lt : s.epoch < s.horizon
  output_len : s.output.length = s.horizon
  output_row : ∀ e, e < s.horizon → (s.output.getD e []).length = s.output_size
  ol_len : s.output_layer.length = s.horizon
  ol_rows : ∀ e, e < s.horizon → (s.output_layer.getD e []).length = s.output_size
  ol_cols : ∀ e i, e < s.horizon → i < s.output_size →
    ((s.output_layer.getD e []).getD i []).length = s.num_cells * s.layers.length + 1

/-- What the specification says of a `BackwardPass` call: slot, layer, the layer input
record and the input symbol. -/
def BackwardCall.args (b : BackwardCall α) : Nat × Nat × List α × Int :=
  (b.epoch, b.layer, b.input, b.input_symbol)

/-- The symbol `sym(e)` of the specification: the input at step `e`, recovered from the
history ring `hist` as it was before the call. -/
def inputSymbolAt (hist : List Int) (horizon e : Nat) : Int :=
  if e > 0 then hist.getD (e - 1) 0 else hist.getD (horizon - 1) 0

/-- The `BackwardPass` calls of one sweep in the order the specification gives: slots
from `horizon - 1` down to 0 and, within a slot, layers from the topmost down to 0. -/
def expectedBackwardCalls (s : Lstm α S) : List (Nat × Nat × List α × Int) :=
  (List.range s.horizon).reverse.flatMap (fun e =>
    (List.range s.layers.length).reverse.map (fun l =>
      (e, l, (s.layer_input.getD e []).getD l [], inputSymbolAt s.input_history s.horizon e)))

/-! ## The visiting order of the specification -/

/-- All weights of the layers in the order the specification gives: each layer in stack
order, each tensor returned by `Weights()` in order, each row in order, each element in
order. -/
def layerWeightSeq (layers : List (LstmLayer α S)) : List α :=
  layers.flatMap (fun ly => ly.weights.flatten.flatten)

/-- All persisted weights in the visiting order of the specification: the output
projection at the last completed slot in row-major order, then the layers. -/
def weightSeq (s : Lstm α S) : List α :=
  (s.output_layer.getD (lastEpoch s) []).flatten ++ layerWeightSeq s.layers

/-- The dimensions of the weight tensors of the layers. -/
def layerShapes (layers : List (LstmLayer α S)) : List (List (List Nat)) :=
  layers.map (fun ly => ly.weights.map (fun t => t.map List.length))

/-! ## The softmax formula of the specification -/

/-- The exponential of the dot product of `hidden` with weight row `i` of slot `e`:
`exp(dot(hidden, output_layer[e][i]))`. -/
def expDot (c : Collab α S) (hidden : List α) (ol : List (List (List α))) (e i : Nat) : α :=
  c.expa (SumOfProducts hidden ((ol.getD e []).getD i []) hidden.length)

/-- The softmax distribution the specification describes: entry `i` is
`exp(dot(hidden, W[e][i]))` divided by the sum over `k < n` of `exp(dot(hidden, W[e][k]))`. -/
def softmaxOf (c : Collab α S) (hidden : List α) (ol : List (List (List α))) (e n : Nat) : List α :=
  (List.range n).map (fun i =>
    expDot c hidden ol e i / Finset.sum (Finset.range n) (fun k => expDot c hidden ol e k))

/-! ## A concrete instance over `ℚ` -/

/-- Concrete collaborators over `ℚ`, used to evaluate the definitions: a positive
stand-in for the exponential, a layer whose forward step writes its slice of `hidden`
and whose backward step counts updates, and a toy codec. -/
def sampleCollab : Collab ℚ Unit where
  expa := fun x => 1 + x * x
  ForwardPass := fun l inp _ hidden offset =>
    (l, (List.range 2).foldl (fun h k => h.set (offset + k) (inp.getD k 0 / 2 + 1 / 3)) hidden)
  BackwardPass := fun l _ _ _ _ he =>
    ({ l with update_steps := l.update_steps + 1 }, he.map (fun v => v / 2))
  newLayer := fun _ _ _ num_cells _ _ _ =>
    { weights := [[List.replicate num_cells (1 / 4), List.replicate num_cells (-3)], [[5]]]
      update_steps := 0
      cell := () }
  dot256_ps_fma3 := fun a b n init => SumOfProducts a b n + init
  exp256_ps_fma3 := fun v => v.map (fun x => 1 + x * x)
  hsum256_ps_avx := fun v => v.sum
  Encode := fun _ _ x => (Int.toNat (Rat.floor (x * 8)))
  Decode := fun _ _ n => (n : ℚ) / 8
  x86 := true

/-- A freshly constructed instance: `Lstm<SIMD_NONE, T>(1, 2, 2, 1, 3, 1/10, 1)`. -/
def sampleLstm : Lstm ℚ Unit :=
  Lstm.new sampleCollab SIMD.SIMD_NONE 1 2 2 1 3 (1 / 10) 1

/-- The sample instance after three `Perceive` calls (one full turn of the ring). -/
def sampleTrained : Lstm ℚ Unit :=
  perceiveMany sampleCollab sampleLstm [1, 0, 1]

/-- Two two-level arrays have the same dimensions. -/
def SameShape2 (a b : List (List α)) : Prop :=
  a.length = b.length ∧ ∀ e, (a.getD e []).length = (b.getD e []).length

/-- Two three-level arrays have the same dimensions. -/
def SameShape3 (a b : List (List (List α))) : Prop :=
  a.length = b.length ∧ (∀ e, (a.getD e []).length = (b.getD e []).length) ∧
    ∀ e i, ((a.getD e []).getD i []).length = ((b.getD e []).getD i []).length


/-! ## The sweep of `Perceive`, pair by pair -/

/-- The `(epoch_, layer)` pairs in the order in which the two nested loops of the sweep
visit them. -/
def sweepPairs (horizon num_layers : Nat) : List (Nat × Nat) :=
  (List.range horizon).reverse.flatMap (fun e =>
    (List.range num_layers).reverse.map (fun l => (e, l)))

/-- The sweep stopped after the loop body has run for the pairs `ps`. -/
def sweepSteps (c : Collab α S) (old_input : Int) (s : Lstm α S) (ps : List (Nat × Nat)) :
    Lstm α S :=
  ps.foldl (fun t p => sweepLayer c old_input p.1 t p.2) s

/-- The state of `Perceive(input)` at the point where the sweep loops are entered:
`input_history[last_epoch]` has been overwritten. -/
def sweepEntry (s : Lstm α S) (input : Int) : Lstm α S :=
  { s with
    input_history := s.input_history.set (lastEpoch s) input
    sweeps := s.sweeps + 1 }


/-! ## The sizes of `layer_input`, `hidden` and `input_history` -/

/-- The size the constructor gives to the record `layer_input[e][l]`:
`1 + num_cells + input_size` for layer 0 (after the `resize`) and
`input_size + 1 + num_cells * 2` for every other layer. -/
def recordSize (input_size num_cells l : Nat) : Nat :=
  if l = 0 then 1 + num_cells + input_size else input_size + 1 + num_cells * 2

/-- The sizes the constructor gives to `layer_input`, `hidden` and `input_history`. -/
structure Shaped (s : Lstm α S) : Prop where
  li_len : s.layer_input.length = s.horizon
  li_slot : ∀ e, e < s.horizon → (s.layer_input.getD e []).length = s.layers.length
  li_rec : ∀ e l, e < s.horizon → l < s.layers.length →
    ((s.layer_input.getD e []).getD l []).length = recordSize s.input_size s.num_cells l
  hidden_len : s.hidden.length = s.num_cells * s.layers.length + 1
  hist_len : s.input_history.length = s.horizon

/-- The bias positions of `t` hold what they hold in `s`: the last element of every
record `layer_input[e][l]` and the last element of `hidden`. -/
def SameBias (s t : Lstm α S) : Prop :=
  (∀ e l, e < s.horizon → l < s.layers.length →
    get3 t.layer_input e l (((t.layer_input.getD e []).getD l []).length - 1) =
      get3 s.layer_input e l (((s.layer_input.getD e []).getD l []).length - 1)) ∧
  t.hidden.getD (t.hidden.length - 1) 0 = s.hidden.getD (s.hidden.length - 1) 0


/-- The relation between a state `s` and a later state `t` that the members maintain:
same dimensions, and every position of a record `layer_input[e][l]` from its last index
on, and every position of `hidden` from `num_layers * num_cells` on, holds in `t` what it
holds in `s`. -/
def BiasKept (s t : Lstm α S) : Prop :=
  t.horizon = s.horizon ∧ t.num_cells = s.num_cells ∧ t.input_size = s.input_size ∧
  t.layers.length = s.layers.length ∧ SameShape3 t.layer_input s.layer_input ∧
  t.hidden.length = s.hidden.length ∧ t.input_history.length = s.input_history.length ∧
  (∀ e l j, recordSize s.input_size s.num_cells l - 1 ≤ j →
    get3 t.layer_input e l j = get3 s.layer_input e l j) ∧
  (∀ j, s.layers.length * s.num_cells ≤ j → t.hidden.getD j 0 = s.hidden.getD j 0)


/-- The values `vs` laid over the front of `old`: position `j` holds `vs[j]` where the
file has a value for it and `old[j]` otherwise; the size is that of `old`. -/
def overlay (vs old : List α) : List α :=
  vs.take old.length ++ old.drop vs.length

/-- The components of a list filled one after the other by `f`, each from what the one
before it left of the file. -/
def fillSeq {A : Type} (f : List (FileItem α) → A → List (FileItem α) × A) :
    List (FileItem α) → List A → List (FileItem α) × List A
  | file, [] => (file, [])
  | file, a :: as =>
    ((fillSeq f (f file a).1 as).1, (f file a).2 :: (fillSeq f (f file a).1 as).2)



/-! ## `Predict` and `Perceive` with every array access checked

The members above index with total operations.  Here every subscript of `Predict` and
`Perceive` is a checked access: a read or write whose index is not an index of the array
yields `none`.  The calls to the softmax members and to the layers are as above. -/

/-- A checked read `m[e][i]` of a two-level array. -/
def get2? (m : List (List α)) (e i : Nat) : Option α :=
  (m[e]?).bind (fun r => r[i]?)

/-- A checked read `m[e][i][j]` of a three-level array. -/
def get3? (m : List (List (List α))) (e i j : Nat) : Option α :=
  (m[e]?).bind (fun r => (r[i]?).bind (fun q => q[j]?))

/-- A checked write `m[e][i][j] = v` of a three-level array. -/
def set3? (m : List (List (List α))) (e i j : Nat) (v : α) : Option (List (List (List α))) :=
  (m[e]?).bind (fun r => (r[i]?).bind (fun q =>
    if j < q.length then some (set3 m e i j v) else none))

/-- The call `memcpy(&dst[dstOff], &src[srcOff], n * sizeof(float))` with the two element
references `dst[dstOff]`, `src[srcOff]` and every element read and written checked. -/
def memcpyChecked (dst : List α) (dstOff : Nat) (src : List α) (srcOff n : Nat) :
    Option (List α) :=
  if dstOff < dst.length ∧ srcOff < src.length then
    (List.range n).foldlM
      (fun d k => (src[srcOff + k]?).bind (fun v =>
        if dstOff + k < d.length then some (d.set (dstOff + k) v) else none))
      dst
  else none

/-- One iteration `i` of the layer loop of `Predict`, checked. -/
def forwardLayerChecked (c : Collab α S) (input : Int) (s : Lstm α S) (i : Nat) :
    Option (Lstm α S) :=
  (s.layer_input[s.epoch]?).bind (fun slot =>
  (slot[i]?).bind (fun rec_i =>
  (memcpyChecked rec_i s.input_size s.hidden (i * s.num_cells) s.num_cells).bind (fun rec1 =>
  let li1 := s.layer_input.set s.epoch (slot.set i rec1)
  (s.layers[i]?).bind (fun l =>
  let r := c.ForwardPass l rec1 input s.hidden (i * s.num_cells)
  let layers1 := s.layers.set i r.1
  let hidden1 := r.2
  if i < layers1.length - 1 then
    (li1[s.epoch]?).bind (fun slot1 =>
    (slot1[i + 1]?).bind (fun rec_n =>
    (memcpyChecked rec_n (s.num_cells + s.input_size) hidden1 (i * s.num_cells)
      s.num_cells).bind (fun rec2 =>
    some { s with layers := layers1, hidden := hidden1,
                  layer_input := li1.set s.epoch (slot1.set (i + 1) rec2) })))
  else some { s with layers := layers1, hidden := hidden1, layer_input := li1 }))))

/-- The layer loop of `Predict`, checked. -/
def forwardAllChecked (c : Collab α S) (input : Int) (s : Lstm α S) : Option (Lstm α S) :=
  (List.range s.layers.length).foldlM (forwardLayerChecked c input) s

/-- The member `Predict`, checked, including the returned reference `output[epoch_]`. -/
def PredictChecked (c : Collab α S) (s : Lstm α S) (input : Int) :
    Option (Lstm α S × List α) :=
  (forwardAllChecked c input s).bind (fun s1 =>
  let s2 := if s1.simd = SIMD.SIMD_AVX2 then SoftMaxSimdAVX2 c s1 else SoftMaxSimdNone c s1
  let epoch_ := s2.epoch
  let epoch1 := s2.epoch + 1
  let s3 := { s2 with epoch := if epoch1 = s2.horizon then 0 else epoch1 }
  (s3.output[epoch_]?).bind (fun out => some (s3, out)))

/-- The `i`/`j` loops of the sweep for one `(epoch_, layer)` pair, checked. -/
def accumulateErrorChecked (s : Lstm α S) (epoch_ layer : Nat) : Option (List α) :=
  let offset := layer * s.num_cells
  (List.range s.output_size).foldlM
    (fun he i =>
      (s.input_history[epoch_]?).bind (fun sym =>
      (get2? s.output epoch_ i).bind (fun o =>
      let error := if Int.ofNat i = sym then o - 1 else o
      (List.range he.length).foldlM
        (fun he1 j =>
          (he1[j]?).bind (fun h =>
          (get3? s.output_layer epoch_ i (j + offset)).bind (fun w =>
          some (he1.set j (h + w * error)))))
        he)))
    s.hidden_error

/-- The body of the `layer` loop of the sweep, checked. -/
def sweepLayerChecked (c : Collab α S) (old_input : Int) (epoch_ : Nat) (s : Lstm α S)
    (layer : Nat) : Option (Lstm α S) :=
  (accumulateErrorChecked s epoch_ layer).bind (fun he =>
  let prev_epoch := (if epoch_ > 0 then epoch_ else s.horizon) - 1
  (if epoch_ > 0 then s.input_history[prev_epoch]? else some old_input).bind (fun input_symbol =>
  (s.layer_input[epoch_]?).bind (fun slot =>
  (slot[layer]?).bind (fun inp =>
  (s.layers[layer]?).bind (fun l =>
  let r := c.BackwardPass l inp epoch_ layer input_symbol he
  some { s with
    layers := s.layers.set layer r.1
    hidden_error := r.2
    bp_calls := s.bp_calls ++ [BackwardCall.mk epoch_ layer inp input_symbol he] })))))

/-- The body of the `epoch_` loop of the sweep, checked. -/
def sweepEpochChecked (c : Collab α S) (old_input : Int) (s : Lstm α S) (epoch_ : Nat) :
    Option (Lstm α S) :=
  (List.range s.layers.length).reverse.foldlM (sweepLayerChecked c old_input epoch_) s

/-- The body of `if (epoch == 0)` in `Perceive`, checked. -/
def sweepChecked (c : Collab α S) (old_input : Int) (s : Lstm α S) : Option (Lstm α S) :=
  (List.range s.horizon).reverse.foldlM (sweepEpochChecked c old_input)
    { s with sweeps := s.sweeps + 1 }

/-- The final `i`/`j` loops of `Perceive`, checked. -/
def gradStepChecked (s : Lstm α S) (last_epoch : Nat) (input : Int) : Option (Lstm α S) :=
  ((List.range s.output_size).foldlM
    (fun ol i =>
      (get2? s.output last_epoch i).bind (fun o =>
      let error := if Int.ofNat i = input then o - 1 else o
      (List.range s.hidden.length).foldlM
        (fun ol1 j =>
          (get3? ol1 last_epoch i j).bind (fun w =>
          (s.hidden[j]?).bind (fun h =>
          set3? ol1 s.epoch i j (w - s.learning_rate * error * h))))
        ol))
    s.output_layer).bind (fun ol => some { s with output_layer := ol })

/-- The statements of `Perceive` that precede `return Predict(input)`, checked. -/
def perceiveUpdateChecked (c : Collab α S) (s : Lstm α S) (input : Int) : Option (Lstm α S) :=
  let last_epoch := lastEpoch s
  (s.input_history[last_epoch]?).bind (fun old_input =>
  let s1 := { s with input_history := s.input_history.set last_epoch input }
  (if s1.epoch = 0 then sweepChecked c old_input s1 else some s1).bind (fun s2 =>
  gradStepChecked s2 last_epoch input))

/-- The member `Perceive`, checked. -/
def PerceiveChecked (c : Collab α S) (s : Lstm α S) (input : Int) :
    Option (Lstm α S × List α) :=
  (perceiveUpdateChecked c s input).bind (fun s1 => PredictChecked c s1 input)

end Embedding

/-! ## Loop and array lemmas -/

section Loops

variable {β σ ι : Type}

theorem foldl_inv (P : σ → Prop) (f : σ → ι → σ) (l : List ι) (init : σ)
    (h0 : P init) (hstep : ∀ s i, P s → P (f s i)) : P (l.foldl f init) := by
  induction l generalizing init with
  | nil => exact h0
  | cons a l ih => exact ih _ (hstep _ _ h0)

/-- Loop invariant rule for `for (k = 0; k < n; k++)`. -/
theorem foldl_range_inv (P : Nat → σ → Prop) (f : σ → Nat → σ) (n : Nat) (init : σ)
    (h0 : P 0 init) (hstep : ∀ k s, k < n → P k s → P (k + 1) (f s k)) :
    P n ((List.range n).foldl f init) := by
  induction n with
  | zero => exact h0
  | succ m ih =>
    rw [List.range_succ, List.foldl_append]
    exact hstep m _ (Nat.lt_succ_self m) (ih (fun k s hk hp => hstep k s (Nat.lt_succ_of_lt hk) hp))

/-- Loop invariant rule for `for (k = n - 1; k >= 0; k--)`; the invariant is indexed by
the number of iterations still to run. -/
theorem foldl_range_rev_inv (P : Nat → σ → Prop) (f : σ → Nat → σ) (n : Nat) (init : σ)
    (h0 : P n init) (hstep : ∀ k s, k < n → P (k + 1) s → P k (f s k)) :
    P 0 ((List.range n).reverse.foldl f init) := by
  induction n generalizing init with
  | zero => exact h0
  | succ m ih =>
    rw [List.range_succ, List.reverse_append, List.reverse_singleton, List.singleton_append,
      List.foldl_cons]
    exact ih _ (hstep m _ (Nat.lt_succ_self m) h0)
      (fun k s hk hp => hstep k s (Nat.lt_succ_of_lt hk) hp)

theorem getD_set (l : List β) (i j : Nat) (v d : β) :
    (l.set i v).getD j d = if i = j ∧ i < l.length then v else l.getD j d := by
  simp only [List.getD_eq_getElem?_getD, List.getElem?_set]
  by_cases h : i = j
  · subst h
    by_cases h2 : i < l.length
    · simp [h2]
    · simp [h2, List.getElem?_eq_none (Nat.le_of_not_lt h2)]
  · simp [h]

theorem getD_set_self (l : List β) (i : Nat) (v d : β) (h : i < l.length) :
    (l.set i v).getD i d = v := by
  rw [getD_set]; simp [h]

theorem getD_set_ne (l : List β) (i j : Nat) (v d : β) (h : i ≠ j) :
    (l.set i v).getD j d = l.getD j d := by
  rw [getD_set]; simp [h]

theorem length_getD_set (m : List (List β)) (e e1 : Nat) (r : List β)
    (h : r.length = (m.getD e []).length) :
    ((m.set e r).getD e1 []).length = (m.getD e1 []).length := by
  rw [getD_set]
  split_ifs with h1
  · rw [h, h1.1]
  · rfl

end Loops

/-! ## Frame lemmas: which members each function leaves alone -/

section Frames

variable {α S : Type} [LinearOrderedField α]

theorem length_set2 (m : List (List α)) (e i : Nat) (v : α) :
    (set2 m e i v).length = m.length := by
  simp [set2]

theorem length_getD_set2 (m : List (List α)) (e i e1 : Nat) (v : α) :
    ((set2 m e i v).getD e1 []).length = (m.getD e1 []).length := by
  unfold set2
  exact length_getD_set m e e1 _ (by simp)

theorem get2_set2 (m : List (List α)) (e i e1 i1 : Nat) (v : α) :
    get2 (set2 m e i v) e1 i1 =
      if e = e1 ∧ i = i1 ∧ e < m.length ∧ i < (m.getD e []).length then v else get2 m e1 i1 := by
  unfold get2 set2
  rw [getD_set]
  by_cases h1 : e = e1 ∧ e < m.length
  · obtain ⟨rfl, h2⟩ := h1
    rw [if_pos ⟨rfl, h2⟩, getD_set]
    by_cases h3 : i = i1 ∧ i < (m.getD e []).length
    · rw [if_pos h3, if_pos ⟨rfl, h3.1, h2, h3.2⟩]
    · rw [if_neg h3, if_neg (fun h => h3 ⟨h.2.1, h.2.2.2⟩)]
  · rw [if_neg h1, if_neg (fun h => h1 ⟨h.1, h.2.2.1⟩)]

theorem length_set3 (m : List (List (List α))) (e i j : Nat) (v : α) :
    (set3 m e i j v).length = m.length := by
  simp [set3]

theorem length_getD_set3 (m : List (List (List α))) (e i j e1 : Nat) (v : α) :
    ((set3 m e i j v).getD e1 []).length = (m.getD e1 []).length := by
  unfold set3
  exact length_getD_set m e e1 _ (by simp)

theorem length_getD_getD_set3 (m : List (List (List α))) (e i j e1 i1 : Nat) (v : α) :
    (((set3 m e i j v).getD e1 []).getD i1 []).length = ((m.getD e1 []).getD i1 []).length := by
  unfold set3
  rw [getD_set]
  by_cases h1 : e = e1 ∧ e < m.length
  · obtain ⟨rfl, h2⟩ := h1
    rw [if_pos ⟨rfl, h2⟩]
    exact length_getD_set _ i i1 _ (by simp)
  · rw [if_neg h1]

theorem get3_set3 (m : List (List (List α))) (e i j e1 i1 j1 : Nat) (v : α) :
    get3 (set3 m e i j v) e1 i1 j1 =
      if e = e1 ∧ i = i1 ∧ j = j1 ∧ e < m.length ∧ i < (m.getD e []).length ∧
          j < ((m.getD e []).getD i []).length then v
      else get3 m e1 i1 j1 := by
  unfold get3 set3
  rw [getD_set]
  by_cases h1 : e = e1 ∧ e < m.length
  · obtain ⟨rfl, h2⟩ := h1
    rw [if_pos ⟨rfl, h2⟩, getD_set]
    by_cases h3 : i = i1 ∧ i < (m.getD e []).length
    · obtain ⟨rfl, h4⟩ := h3
      rw [if_pos ⟨rfl, h4⟩, getD_set]
      by_cases h5 : j = j1 ∧ j < ((m.getD e []).getD i []).length
      · rw [if_pos h5, if_pos ⟨rfl, rfl, h5.1, h2, h4, h5.2⟩]
      · rw [if_neg h5, if_neg (fun h => h5 ⟨h.2.2.1, h.2.2.2.2.2⟩)]
    · rw [if_neg h3, if_neg (fun h => h3 ⟨h.2.1, h.2.2.2.2.1⟩)]
  · rw [if_neg h1, if_neg (fun h => h1 ⟨h.1, h.2.2.2.1⟩)]

theorem SetInput_frame (s : Lstm α S) (v : List α) :
    ∃ li, SetInput s v = { s with layer_input := li } := by
  unfold SetInput
  refine foldl_inv (fun t => ∃ li, t = { s with layer_input := li }) _ _ _ ?_ ?_
  · exact ⟨s.layer_input, rfl⟩
  · rintro t i ⟨li, rfl⟩
    exact ⟨_, rfl⟩

theorem forwardLayer_frame (c : Collab α S) (x : Int) (s : Lstm α S) (i : Nat) :
    ∃ ls h li, forwardLayer c x s i = { s with layers := ls, hidden := h, layer_input := li } ∧
      ls.length = s.layers.length := by
  unfold forwardLayer
  split
  · exact ⟨s.layers, s.hidden, _, rfl, rfl⟩
  · exact ⟨_, _, _, rfl, by simp⟩

theorem forwardAll_frame (c : Collab α S) (x : Int) (s : Lstm α S) :
    ∃ ls h li, forwardAll c x s = { s with layers := ls, hidden := h, layer_input := li } ∧
      ls.length = s.layers.length := by
  unfold forwardAll
  refine foldl_inv (fun t => ∃ ls h li,
    t = { s with layers := ls, hidden := h, layer_input := li } ∧ ls.length = s.layers.length)
    _ _ _ ?_ ?_
  · exact ⟨s.layers, s.hidden, s.layer_input, rfl, rfl⟩
  · rintro t i ⟨ls, h, li, rfl, hl⟩
    obtain ⟨ls1, h1, li1, e1, hl1⟩ := forwardLayer_frame c x
      ({ s with layers := ls, hidden := h, layer_input := li } : Lstm α S) i
    exact ⟨ls1, h1, li1, e1, hl1.trans hl⟩

theorem sameShape2_refl (a : List (List α)) : SameShape2 a a :=
  ⟨rfl, fun _ => rfl⟩

theorem sameShape2_trans {a b d : List (List α)} (h1 : SameShape2 a b) (h2 : SameShape2 b d) :
    SameShape2 a d :=
  ⟨h1.1.trans h2.1, fun e => (h1.2 e).trans (h2.2 e)⟩

theorem sameShape2_set2 (m : List (List α)) (e i : Nat) (v : α) : SameShape2 (set2 m e i v) m :=
  ⟨length_set2 m e i v, fun e1 => length_getD_set2 m e i e1 v⟩

theorem sameShape3_refl (a : List (List (List α))) : SameShape3 a a :=
  ⟨rfl, fun _ => rfl, fun _ _ => rfl⟩

theorem sameShape3_trans {a b d : List (List (List α))} (h1 : SameShape3 a b)
    (h2 : SameShape3 b d) : SameShape3 a d :=
  ⟨h1.1.trans h2.1, fun e => (h1.2.1 e).trans (h2.2.1 e),
    fun e i => (h1.2.2 e i).trans (h2.2.2 e i)⟩

theorem sameShape3_set3 (m : List (List (List α))) (e i j : Nat) (v : α) :
    SameShape3 (set3 m e i j v) m :=
  ⟨length_set3 m e i j v, fun e1 => length_getD_set3 m e i j e1 v,
    fun e1 i1 => length_getD_getD_set3 m e i j e1 i1 v⟩

theorem foldl_set2_spec (g : Nat → α → α) (m : List (List α)) (e n : Nat)
    (he : e < m.length) (hn : n ≤ (m.getD e []).length) :
    SameShape2 ((List.range n).foldl (fun out i => set2 out e i (g i (get2 out e i))) m) m ∧
    ∀ e1 i1, get2 ((List.range n).foldl (fun out i => set2 out e i (g i (get2 out e i))) m) e1 i1 =
      if e1 = e ∧ i1 < n then g i1 (get2 m e1 i1) else get2 m e1 i1 := by
  refine foldl_range_inv (fun k r => SameShape2 r m ∧ ∀ e1 i1, get2 r e1 i1 =
      if e1 = e ∧ i1 < k then g i1 (get2 m e1 i1) else get2 m e1 i1) _ n m ?_ ?_
  · exact ⟨sameShape2_refl m, fun e1 i1 => by simp⟩
  · rintro k r hk ⟨hsh, hg⟩
    refine ⟨sameShape2_trans (sameShape2_set2 r _ _ _) hsh, fun e1 i1 => ?_⟩
    have hb1 : e < r.length := hsh.1 ▸ he
    have hb2 : k < (r.getD e []).length := by rw [hsh.2]; omega
    have hk0 : get2 r e k = get2 m e k := by rw [hg]; simp
    rw [get2_set2, hk0, hg]
    by_cases h1 : e1 = e
    · subst h1
      by_cases h2 : i1 = k
      · subst h2
        rw [if_pos ⟨rfl, rfl, hb1, hb2⟩, if_pos ⟨rfl, Nat.lt_succ_self _⟩]
      · rw [if_neg (fun h => h2 h.2.1.symm)]
        by_cases h4 : i1 < k
        · rw [if_pos ⟨rfl, h4⟩, if_pos ⟨rfl, Nat.lt_succ_of_lt h4⟩]
        · rw [if_neg (fun h => h4 h.2), if_neg (fun h => h4 (by omega))]
    · rw [if_neg (fun h => h1 h.1.symm), if_neg (fun h => h1 h.1), if_neg (fun h => h1 h.1)]

theorem SoftMaxSimdNone_frame (c : Collab α S) (s : Lstm α S) :
    ∃ out, SoftMaxSimdNone c s = { s with output := out } ∧ SameShape2 out s.output := by
  refine ⟨_, rfl, ?_⟩
  unfold softMaxDiv
  refine foldl_inv (fun o => SameShape2 o s.output) _ _ _ ?_ ?_
  · unfold softMaxExp
    refine foldl_inv (fun o => SameShape2 o s.output) _ _ _ (sameShape2_refl _) ?_
    intro o i ho
    exact sameShape2_trans (sameShape2_set2 o _ _ _) ho
  · intro o i ho
    exact sameShape2_trans (sameShape2_set2 o _ _ _) ho

theorem SoftMaxSimdAVX2_frame (c : Collab α S) (s : Lstm α S) :
    ∃ out, SoftMaxSimdAVX2 c s = { s with output := out } := by
  unfold SoftMaxSimdAVX2
  split
  · exact ⟨s.output, rfl⟩
  · exact ⟨_, rfl⟩

theorem Predict_frame (c : Collab α S) (s : Lstm α S) (x : Int) :
    ∃ ls h li out, (Predict c s x).1 =
        { s with layers := ls, hidden := h, layer_input := li, output := out,
                 epoch := if s.epoch + 1 = s.horizon then 0 else s.epoch + 1 } ∧
      ls.length = s.layers.length ∧ (s.simd = SIMD.SIMD_NONE → SameShape2 out s.output) := by
  obtain ⟨ls, h, li, e1, hl⟩ := forwardAll_frame c x s
  unfold Predict
  simp only [e1]
  split
  · obtain ⟨out, e2⟩ := SoftMaxSimdAVX2_frame c
      ({ s with layers := ls, hidden := h, layer_input := li } : Lstm α S)
    rw [e2]
    rename_i hs
    exact ⟨ls, h, li, out, rfl, hl, fun h0 => by rw [h0] at hs; cases hs⟩
  · obtain ⟨out, e2, hsh⟩ := SoftMaxSimdNone_frame c
      ({ s with layers := ls, hidden := h, layer_input := li } : Lstm α S)
    rw [e2]
    exact ⟨ls, h, li, out, rfl, hl, fun _ => hsh⟩

theorem sweepLayer_frame (c : Collab α S) (old : Int) (e : Nat) (s : Lstm α S) (l : Nat) :
    ∃ ls he bp, sweepLayer c old e s l =
        { s with layers := ls, hidden_error := he, bp_calls := bp } ∧
      ls.length = s.layers.length := by
  unfold sweepLayer
  cases h : s.layers[l]? with
  | none => exact ⟨s.layers, _, s.bp_calls, rfl, rfl⟩
  | some ly => exact ⟨_, _, _, rfl, by simp⟩

theorem sweepEpoch_frame (c : Collab α S) (old : Int) (s : Lstm α S) (e : Nat) :
    ∃ ls he bp, sweepEpoch c old s e =
        { s with layers := ls, hidden_error := he, bp_calls := bp } ∧
      ls.length = s.layers.length := by
  unfold sweepEpoch
  refine foldl_inv (fun t => ∃ ls he bp,
    t = { s with layers := ls, hidden_error := he, bp_calls := bp } ∧
      ls.length = s.layers.length) _ _ _ ?_ ?_
  · exact ⟨s.layers, s.hidden_error, s.bp_calls, rfl, rfl⟩
  · rintro t i ⟨ls, he, bp, rfl, hl⟩
    obtain ⟨ls1, he1, bp1, e1, hl1⟩ := sweepLayer_frame c old e
      ({ s with layers := ls, hidden_error := he, bp_calls := bp } : Lstm α S) i
    exact ⟨ls1, he1, bp1, e1, hl1.trans hl⟩

theorem sweep_frame (c : Collab α S) (old : Int) (s : Lstm α S) :
    ∃ ls he bp, sweep c old s =
        { s with layers := ls, hidden_error := he, bp_calls := bp, sweeps := s.sweeps + 1 } ∧
      ls.length = s.layers.length := by
  unfold sweep
  refine foldl_inv (fun t => ∃ ls he bp,
    t = { s with layers := ls, hidden_error := he, bp_calls := bp, sweeps := s.sweeps + 1 } ∧
      ls.length = s.layers.length) _ _ _ ?_ ?_
  · exact ⟨s.layers, s.hidden_error, s.bp_calls, rfl, rfl⟩
  · rintro t i ⟨ls, he, bp, rfl, hl⟩
    obtain ⟨ls1, he1, bp1, e1, hl1⟩ := sweepEpoch_frame c old
      ({ s with layers := ls, hidden_error := he, bp_calls := bp,
                sweeps := s.sweeps + 1 } : Lstm α S) i
    exact ⟨ls1, he1, bp1, e1, hl1.trans hl⟩

theorem foldl_set3_row_spec (g : Nat → α → α) (m : List (List (List α))) (e e' i n : Nat)
    (he : e < m.length) (hi : i < (m.getD e []).length)
    (hn : n ≤ ((m.getD e []).getD i []).length) :
    SameShape3 ((List.range n).foldl (fun o j => set3 o e i j (g j (get3 o e' i j))) m) m ∧
    ∀ e1 i1 j1,
      get3 ((List.range n).foldl (fun o j => set3 o e i j (g j (get3 o e' i j))) m) e1 i1 j1 =
        if e1 = e ∧ i1 = i ∧ j1 < n then g j1 (get3 m e' i j1) else get3 m e1 i1 j1 := by
  refine foldl_range_inv (fun k r => SameShape3 r m ∧ ∀ e1 i1 j1, get3 r e1 i1 j1 =
      if e1 = e ∧ i1 = i ∧ j1 < k then g j1 (get3 m e' i j1) else get3 m e1 i1 j1) _ n m ?_ ?_
  · exact ⟨sameShape3_refl m, fun e1 i1 j1 => by simp⟩
  · rintro k r hk ⟨hsh, hg⟩
    refine ⟨sameShape3_trans (sameShape3_set3 r _ _ _ _) hsh, fun e1 i1 j1 => ?_⟩
    have hb1 : e < r.length := hsh.1 ▸ he
    have hb2 : i < (r.getD e []).length := by rw [hsh.2.1]; exact hi
    have hb3 : k < ((r.getD e []).getD i []).length := by rw [hsh.2.2]; omega
    have hk0 : get3 r e' i k = get3 m e' i k := by
      rw [hg, if_neg (fun h => Nat.lt_irrefl _ h.2.2)]
    rw [get3_set3, hk0, hg]
    by_cases h1 : e1 = e ∧ i1 = i
    · obtain ⟨h1a, h1b⟩ := h1
      subst h1a
      subst h1b
      by_cases h2 : j1 = k
      · subst h2
        rw [if_pos ⟨rfl, rfl, rfl, hb1, hb2, hb3⟩, if_pos ⟨rfl, rfl, Nat.lt_succ_self _⟩]
      · rw [if_neg (fun h => h2 h.2.2.1.symm)]
        by_cases h4 : j1 < k
        · rw [if_pos ⟨rfl, rfl, h4⟩, if_pos ⟨rfl, rfl, Nat.lt_succ_of_lt h4⟩]
        · rw [if_neg (fun h => h4 h.2.2), if_neg (fun h => h4 (by omega))]
    · rw [if_neg (fun h => h1 ⟨h.1.symm, h.2.1.symm⟩), if_neg (fun h => h1 ⟨h.1, h.2.1⟩),
        if_neg (fun h => h1 ⟨h.1, h.2.1⟩)]

/-- Two nested loops writing `m[e][i][j] = g i j (m[e'][i][j])` in place act as one
simultaneous assignment on the block `i < rows`, `j < cols` of slot `e`, also when
`e' = e`. -/
theorem foldl_set3_spec (g : Nat → Nat → α → α) (m : List (List (List α))) (e e' rows cols : Nat)
    (he : e < m.length) (hrows : rows ≤ (m.getD e []).length)
    (hcols : ∀ i, i < rows → cols ≤ ((m.getD e []).getD i []).length) :
    SameShape3 ((List.range rows).foldl (fun o i =>
        (List.range cols).foldl (fun o1 j => set3 o1 e i j (g i j (get3 o1 e' i j))) o) m) m ∧
    ∀ e1 i1 j1,
      get3 ((List.range rows).foldl (fun o i =>
        (List.range cols).foldl (fun o1 j => set3 o1 e i j (g i j (get3 o1 e' i j))) o) m)
          e1 i1 j1 =
        if e1 = e ∧ i1 < rows ∧ j1 < cols then g i1 j1 (get3 m e' i1 j1)
        else get3 m e1 i1 j1 := by
  refine foldl_range_inv (fun k r => SameShape3 r m ∧ ∀ e1 i1 j1, get3 r e1 i1 j1 =
      if e1 = e ∧ i1 < k ∧ j1 < cols then g i1 j1 (get3 m e' i1 j1) else get3 m e1 i1 j1)
    _ rows m ?_ ?_
  · exact ⟨sameShape3_refl m, fun e1 i1 j1 => by simp⟩
  · rintro k r hk ⟨hsh, hg⟩
    have hb1 : e < r.length := hsh.1 ▸ he
    have hb2 : k < (r.getD e []).length := by rw [hsh.2.1]; omega
    have hb3 : cols ≤ ((r.getD e []).getD k []).length := by rw [hsh.2.2]; exact hcols k hk
    obtain ⟨rsh, rg⟩ := foldl_set3_row_spec (g k) r e e' k cols hb1 hb2 hb3
    refine ⟨sameShape3_trans rsh hsh, fun e1 i1 j1 => ?_⟩
    rw [rg]
    by_cases h1 : e1 = e ∧ i1 = k ∧ j1 < cols
    · obtain ⟨h1a, h1b, h3⟩ := h1
      subst h1a
      subst h1b
      rw [if_pos ⟨rfl, rfl, h3⟩, if_pos ⟨rfl, Nat.lt_succ_self _, h3⟩, hg,
        if_neg (fun h => Nat.lt_irrefl _ h.2.1)]
    · rw [if_neg h1, hg]
      by_cases h2 : e1 = e ∧ i1 < k ∧ j1 < cols
      · rw [if_pos h2, if_pos ⟨h2.1, Nat.lt_succ_of_lt h2.2.1, h2.2.2⟩]
      · rw [if_neg h2, if_neg]
        intro h
        rcases Nat.lt_succ_iff_lt_or_eq.mp h.2.1 with h5 | h5
        · exact h2 ⟨h.1, h5, h.2.2⟩
        · exact h1 ⟨h.1, h5, h.2.2⟩

theorem gradStep_frame (s : Lstm α S) (last : Nat) (x : Int) :
    ∃ ol, gradStep s last x = { s with output_layer := ol } ∧ SameShape3 ol s.output_layer := by
  refine ⟨_, rfl, ?_⟩
  refine foldl_inv (fun o => SameShape3 o s.output_layer) _ _ _ (sameShape3_refl _) ?_
  intro o i ho
  refine foldl_inv (fun o => SameShape3 o s.output_layer) _ _ _ ho ?_
  intro o1 j ho1
  exact sameShape3_trans (sameShape3_set3 o1 _ _ _ _) ho1

theorem perceiveUpdate_frame (c : Collab α S) (s : Lstm α S) (x : Int) :
    ∃ ls he bp ol, perceiveUpdate c s x =
        { s with layers := ls, hidden_error := he, bp_calls := bp, output_layer := ol,
                 input_history := s.input_history.set (lastEpoch s) x,
                 sweeps := s.sweeps + (if s.epoch = 0 then 1 else 0) } ∧
      ls.length = s.layers.length ∧ SameShape3 ol s.output_layer := by
  have key : perceiveUpdate c s x =
      gradStep (if s.epoch = 0 then
          sweep c (s.input_history.getD (lastEpoch s) 0)
            ({ s with input_history := s.input_history.set (lastEpoch s) x } : Lstm α S)
        else ({ s with input_history := s.input_history.set (lastEpoch s) x } : Lstm α S))
        (lastEpoch s) x := rfl
  rw [key]
  by_cases h0 : s.epoch = 0
  · rw [if_pos h0]
    obtain ⟨ls, he, bp, e1, hl⟩ := sweep_frame c (s.input_history.getD (lastEpoch s) 0)
      ({ s with input_history := s.input_history.set (lastEpoch s) x } : Lstm α S)
    obtain ⟨ol, e2, hs⟩ := gradStep_frame
      (sweep c (s.input_history.getD (lastEpoch s) 0)
        ({ s with input_history := s.input_history.set (lastEpoch s) x } : Lstm α S))
      (lastEpoch s) x
    rw [e2]
    rw [e1] at hs ⊢
    exact ⟨ls, he, bp, ol, by simp [h0], hl, hs⟩
  · rw [if_neg h0]
    obtain ⟨ol, e2, hs⟩ := gradStep_frame
      ({ s with input_history := s.input_history.set (lastEpoch s) x } : Lstm α S)
      (lastEpoch s) x
    rw [e2]
    exact ⟨s.layers, s.hidden_error, s.bp_calls, ol, by simp [h0], rfl, hs⟩

theorem Predict_epoch (c : Collab α S) (s : Lstm α S) (x : Int) :
    (Predict c s x).1.epoch = (if s.epoch + 1 = s.horizon then 0 else s.epoch + 1) ∧
      (Predict c s x).1.horizon = s.horizon := by
  obtain ⟨ls, h, li, out, e, -, -⟩ := Predict_frame c s x
  rw [e]
  exact ⟨rfl, rfl⟩

theorem Perceive_epoch (c : Collab α S) (s : Lstm α S) (x : Int) :
    (Perceive c s x).1.epoch = (if s.epoch + 1 = s.horizon then 0 else s.epoch + 1) ∧
      (Perceive c s x).1.horizon = s.horizon := by
  obtain ⟨ls, he, bp, ol, e, -, -⟩ := perceiveUpdate_frame c s x
  have h := Predict_epoch c (perceiveUpdate c s x) x
  unfold Perceive
  rw [h.1, h.2, e]
  exact ⟨rfl, rfl⟩

theorem Call.run_epoch (c : Collab α S) (s : Lstm α S) (k : Call α) (h : s.epoch < s.horizon) :
    (Call.run c s k).epoch < (Call.run c s k).horizon ∧ (Call.run c s k).horizon = s.horizon := by
  cases k with
  | setInput v =>
    obtain ⟨li, e⟩ := SetInput_frame s v
    simp only [Call.run, e]
    exact ⟨h, trivial⟩
  | predict x =>
    obtain ⟨h1, h2⟩ := Predict_epoch c s x
    simp only [Call.run, h1, h2]
    refine ⟨?_, trivial⟩
    split_ifs with h3
    · omega
    · omega
  | perceive x =>
    obtain ⟨h1, h2⟩ := Perceive_epoch c s x
    simp only [Call.run, h1, h2]
    refine ⟨?_, trivial⟩
    split_ifs with h3
    · omega
    · omega

theorem runCalls_epoch (c : Collab α S) (s : Lstm α S) (calls : List (Call α))
    (h : s.epoch < s.horizon) :
    (runCalls c s calls).epoch < (runCalls c s calls).horizon ∧
      (runCalls c s calls).horizon = s.horizon := by
  unfold runCalls
  refine foldl_inv (fun (t : Lstm α S) => t.epoch < t.horizon ∧ t.horizon = s.horizon) _ _ _
    ⟨h, rfl⟩ ?_
  intro t k ht
  obtain ⟨h1, h2⟩ := Call.run_epoch c t k ht.1
  exact ⟨h1, h2.trans ht.2⟩

theorem foldl_add_range (f : Nat → α) (n : Nat) :
    (List.range n).foldl (fun acc i => acc + f i) 0 = Finset.sum (Finset.range n) f := by
  induction n with
  | zero => simp
  | succ m ih => rw [List.range_succ, List.foldl_append, ih, Finset.sum_range_succ]; rfl

theorem sum_map_range (f : Nat → α) (n : Nat) :
    ((List.range n).map f).sum = Finset.sum (Finset.range n) f := by
  induction n with
  | zero => simp
  | succ m ih => rw [List.sum_range_succ, ih, Finset.sum_range_succ]

theorem eq_map_range {β : Type} (l : List β) (d : β) (n : Nat) (h : Nat → β)
    (hl : l.length = n) (hg : ∀ i, i < n → l.getD i d = h i) : l = (List.range n).map h := by
  apply List.ext_getElem?
  intro i
  by_cases hi : i < n
  · have h1 := hg i hi
    have hi1 : i < l.length := hl ▸ hi
    rw [List.getD_eq_getElem l d hi1] at h1
    rw [List.getElem?_eq_getElem hi1, h1, List.getElem?_map, List.getElem?_range hi]
    rfl
  · rw [List.getElem?_eq_none (by omega), List.getElem?_eq_none (by simp; omega)]

theorem softMaxExp_spec (c : Collab α S) (s : Lstm α S) (he : s.epoch < s.output.length)
    (hn : (s.output.getD s.epoch []).length = s.output_size) :
    SameShape2 (softMaxExp c s) s.output ∧
      ∀ i, i < s.output_size →
        get2 (softMaxExp c s) s.epoch i = expDot c s.hidden s.output_layer s.epoch i := by
  have h := foldl_set2_spec (fun i _ => expDot c s.hidden s.output_layer s.epoch i)
    s.output s.epoch s.output_size he (le_of_eq hn.symm)
  refine ⟨h.1, fun i hi => ?_⟩
  have h2 := h.2 s.epoch i
  rw [if_pos ⟨rfl, hi⟩] at h2
  exact h2

theorem softMaxDiv_spec (out : List (List α)) (e : Nat) (sum : α) (he : e < out.length) :
    SameShape2 (softMaxDiv out e sum) out ∧
      ∀ i, i < (out.getD e []).length → get2 (softMaxDiv out e sum) e i = get2 out e i / sum := by
  have h := foldl_set2_spec (fun _ v => v / sum) out e (out.getD e []).length he (le_refl _)
  refine ⟨h.1, fun i hi => ?_⟩
  have h2 := h.2 e i
  rw [if_pos ⟨rfl, hi⟩] at h2
  exact h2

theorem SoftMaxSimdNone_spec (c : Collab α S) (s : Lstm α S) (he : s.epoch < s.output.length)
    (hn : (s.output.getD s.epoch []).length = s.output_size) :
    (SoftMaxSimdNone c s).output.getD s.epoch [] =
      softmaxOf c s.hidden s.output_layer s.epoch s.output_size := by
  obtain ⟨sh1, g1⟩ := softMaxExp_spec c s he hn
  have he1 : s.epoch < (softMaxExp c s).length := sh1.1 ▸ he
  have hn1 : ((softMaxExp c s).getD s.epoch []).length = s.output_size := (sh1.2 _).trans hn
  obtain ⟨sh2, g2⟩ := softMaxDiv_spec (softMaxExp c s) s.epoch
    (softMaxSum (softMaxExp c s) s.epoch) he1
  have hsum : softMaxSum (softMaxExp c s) s.epoch =
      Finset.sum (Finset.range s.output_size) (fun k => expDot c s.hidden s.output_layer s.epoch k) := by
    unfold softMaxSum
    rw [foldl_add_range, hn1]
    exact Finset.sum_congr rfl (fun k hk => g1 k (Finset.mem_range.mp hk))
  unfold softmaxOf
  refine eq_map_range _ 0 _ _ ?_ ?_
  · exact ((sh2.2 _).trans hn1)
  · intro i hi
    have h3 := g2 i (hn1.symm ▸ hi)
    rw [g1 i hi] at h3
    rw [← hsum]
    exact h3

theorem softmaxOf_simplex (c : Collab α S) (hexp : ∀ x, 0 < c.expa x) (hidden : List α)
    (ol : List (List (List α))) (e n : Nat) (hn : 1 ≤ n) :
    (softmaxOf c hidden ol e n).length = n ∧
      (∀ v, v ∈ softmaxOf c hidden ol e n → 0 < v ∧ v ≤ 1) ∧
      (softmaxOf c hidden ol e n).sum = 1 := by
  have hpos : ∀ k, 0 < expDot c hidden ol e k := fun k => hexp _
  have hZ : 0 < Finset.sum (Finset.range n) (fun k => expDot c hidden ol e k) :=
    Finset.sum_pos (fun k _ => hpos k) ⟨0, Finset.mem_range.mpr hn⟩
  refine ⟨by simp [softmaxOf], ?_, ?_⟩
  · intro v hv
    unfold softmaxOf at hv
    obtain ⟨i, hi, rfl⟩ := List.mem_map.mp hv
    refine ⟨div_pos (hpos i) hZ, (div_le_one hZ).mpr ?_⟩
    exact Finset.single_le_sum (f := fun k => expDot c hidden ol e k)
      (fun k _ => le_of_lt (hpos k)) (Finset.mem_range.mpr (List.mem_range.mp hi))
  · unfold softmaxOf
    rw [sum_map_range, ← Finset.sum_div, div_self (ne_of_gt hZ)]

theorem forwardAll_same (c : Collab α S) (x : Int) (s : Lstm α S) :
    (forwardAll c x s).simd = s.simd ∧ (forwardAll c x s).epoch = s.epoch ∧
      (forwardAll c x s).horizon = s.horizon ∧ (forwardAll c x s).output = s.output ∧
      (forwardAll c x s).output_layer = s.output_layer ∧
      (forwardAll c x s).output_size = s.output_size := by
  obtain ⟨ls, h, li, e1, -⟩ := forwardAll_frame c x s
  rw [e1]
  exact ⟨rfl, rfl, rfl, rfl, rfl, rfl⟩

theorem Predict_none (c : Collab α S) (s : Lstm α S) (x : Int) (hs : s.simd = SIMD.SIMD_NONE)
    (he : s.epoch < s.output.length)
    (hn : (s.output.getD s.epoch []).length = s.output_size) :
    (Predict c s x).2 = (Predict c s x).1.output.getD s.epoch [] ∧
      (Predict c s x).2 =
        softmaxOf c (forwardAll c x s).hidden s.output_layer s.epoch s.output_size := by
  obtain ⟨f1, f2, f3, f4, f5, f6⟩ := forwardAll_same c x s
  have hne : ¬ (forwardAll c x s).simd = SIMD.SIMD_AVX2 := by
    rw [f1, hs]; decide
  have key : Predict c s x =
      ({ SoftMaxSimdNone c (forwardAll c x s) with
          epoch := if (forwardAll c x s).epoch + 1 = (forwardAll c x s).horizon then 0
                   else (forwardAll c x s).epoch + 1 },
        (SoftMaxSimdNone c (forwardAll c x s)).output.getD (forwardAll c x s).epoch []) := by
    unfold Predict
    simp only [if_neg hne]
    rfl
  have hspec := SoftMaxSimdNone_spec c (forwardAll c x s) (by rw [f2, f4]; exact he)
    (by rw [f2, f4, f6]; exact hn)
  rw [f2, f5, f6] at hspec
  rw [key]
  refine ⟨?_, ?_⟩
  · show _ = (SoftMaxSimdNone c (forwardAll c x s)).output.getD s.epoch []
    rw [f2]
  · show (SoftMaxSimdNone c (forwardAll c x s)).output.getD (forwardAll c x s).epoch [] = _
    rw [f2]
    exact hspec

theorem getD_map_range {β : Type} (f : Nat → β) (n i : Nat) (d : β) (hi : i < n) :
    ((List.range n).map f).getD i d = f i := by
  rw [List.getD_eq_getElem?_getD, List.getElem?_map, List.getElem?_range hi]
  rfl

theorem WellSized.transfer {s t : Lstm α S} (h : WellSized s) (he : t.epoch < t.horizon)
    (hh : t.horizon = s.horizon) (ho : SameShape2 t.output s.output)
    (hol : SameShape3 t.output_layer s.output_layer) (hos : t.output_size = s.output_size)
    (hnc : t.num_cells = s.num_cells) (hl : t.layers.length = s.layers.length) :
    WellSized t where
  epoch_lt := he
  output_len := by rw [ho.1, hh]; exact h.output_len
  output_row := fun e he1 => by rw [ho.2, hos]; exact h.output_row e (hh ▸ he1)
  ol_len := by rw [hol.1, hh]; exact h.ol_len
  ol_rows := fun e he1 => by rw [hol.2.1, hos]; exact h.ol_rows e (hh ▸ he1)
  ol_cols := fun e i he1 hi => by
    rw [hol.2.2, hnc, hl]; exact h.ol_cols e i (hh ▸ he1) (hos ▸ hi)

theorem getD_replicate_lt {β : Type} (n i : Nat) (v d : β) (h : i < n) :
    (List.replicate n v).getD i d = v := by
  simp [List.getD_eq_getElem?_getD, List.getElem?_replicate, h]

theorem wellSized_new (c : Collab α S) (simd : SIMD)
    (input_size output_size num_cells num_layers horizon : Nat)
    (learning_rate gradient_clip : α) (hh : 1 ≤ horizon) :
    WellSized (Lstm.new c simd input_size output_size num_cells num_layers horizon
      learning_rate gradient_clip) where
  epoch_lt := hh
  output_len := by simp [Lstm.new]
  output_row := fun e he => by
    have he1 : e < horizon := he
    show ((List.replicate horizon
      (List.replicate output_size (1 / (output_size : α)))).getD e []).length = output_size
    rw [getD_replicate_lt _ _ _ _ he1, List.length_replicate]
  ol_len := by simp [Lstm.new]
  ol_rows := fun e he => by
    have he1 : e < horizon := he
    show ((List.replicate horizon (List.replicate output_size
      (List.replicate (num_cells * num_layers + 1) (0 : α)))).getD e []).length = output_size
    rw [getD_replicate_lt _ _ _ _ he1, List.length_replicate]
  ol_cols := fun e i he hi => by
    have he1 : e < horizon := he
    have hi1 : i < output_size := hi
    show (((List.replicate horizon (List.replicate output_size
      (List.replicate (num_cells * num_layers + 1) (0 : α)))).getD e []).getD i []).length =
        num_cells * ((List.range num_layers).map _).length + 1
    rw [getD_replicate_lt _ _ _ _ he1, getD_replicate_lt _ _ _ _ hi1, List.length_replicate,
      List.length_map, List.length_range]

theorem wellSized_SetInput (s : Lstm α S) (v : List α) (h : WellSized s) :
    WellSized (SetInput s v) := by
  obtain ⟨li, e⟩ := SetInput_frame s v
  rw [e]
  exact h.transfer h.epoch_lt rfl (sameShape2_refl _) (sameShape3_refl _) rfl rfl rfl

theorem wellSized_Predict (c : Collab α S) (s : Lstm α S) (x : Int) (h : WellSized s)
    (hs : s.simd = SIMD.SIMD_NONE) :
    WellSized (Predict c s x).1 ∧ (Predict c s x).1.simd = SIMD.SIMD_NONE := by
  obtain ⟨ls, hd, li, out, e, hl, hsh⟩ := Predict_frame c s x
  rw [e]
  refine ⟨h.transfer ?_ rfl (hsh hs) (sameShape3_refl _) rfl rfl hl, hs⟩
  have := h.epoch_lt
  show (if s.epoch + 1 = s.horizon then 0 else s.epoch + 1) < s.horizon
  split_ifs <;> omega

theorem wellSized_perceiveUpdate (c : Collab α S) (s : Lstm α S) (x : Int) (h : WellSized s) :
    WellSized (perceiveUpdate c s x) ∧ (perceiveUpdate c s x).simd = s.simd := by
  obtain ⟨ls, he, bp, ol, e, hl, hsh⟩ := perceiveUpdate_frame c s x
  rw [e]
  exact ⟨h.transfer h.epoch_lt rfl (sameShape2_refl _) hsh rfl rfl hl, rfl⟩

theorem wellSized_runCalls (c : Collab α S) (s : Lstm α S) (calls : List (Call α))
    (h : WellSized s) (hs : s.simd = SIMD.SIMD_NONE) :
    WellSized (runCalls c s calls) ∧ (runCalls c s calls).simd = SIMD.SIMD_NONE ∧
      (runCalls c s calls).output_size = s.output_size := by
  unfold runCalls
  refine foldl_inv (fun (t : Lstm α S) => WellSized t ∧ t.simd = SIMD.SIMD_NONE ∧
    t.output_size = s.output_size) _ _ _ ⟨h, hs, rfl⟩ ?_
  rintro t k ⟨ht, hts, hto⟩
  cases k with
  | setInput v =>
    obtain ⟨li, e⟩ := SetInput_frame t v
    refine ⟨wellSized_SetInput t v ht, ?_, ?_⟩
    · show (SetInput t v).simd = _
      rw [e]; exact hts
    · show (SetInput t v).output_size = _
      rw [e]; exact hto
  | predict x =>
    obtain ⟨h1, h2⟩ := wellSized_Predict c t x ht hts
    obtain ⟨ls, hd, li, out, e, -, -⟩ := Predict_frame c t x
    refine ⟨h1, h2, ?_⟩
    show (Predict c t x).1.output_size = _
    rw [e]; exact hto
  | perceive x =>
    obtain ⟨h1, h2⟩ := wellSized_perceiveUpdate c t x ht
    obtain ⟨h3, h4⟩ := wellSized_Predict c (perceiveUpdate c t x) x h1 (h2.trans hts)
    obtain ⟨ls, hd, li, out, e, -, -⟩ := Predict_frame c (perceiveUpdate c t x) x
    obtain ⟨ls1, he1, bp1, ol1, e1, -, -⟩ := perceiveUpdate_frame c t x
    refine ⟨h3, h4, ?_⟩
    show (Predict c (perceiveUpdate c t x) x).1.output_size = _
    rw [e, e1]; exact hto

end Frames

/-! ## C1: the epoch counter -/

section Claims

variable {α S : Type} [LinearOrderedField α]

/-- C1: for every state with `horizon >= 1` and `epoch < horizon`, `Predict` leaves
`epoch` equal to `(old epoch + 1) mod horizon`; and starting from a freshly constructed
instance with `horizon >= 1` (where `epoch = 0`), `epoch < horizon` holds after every
sequence of `SetInput`, `Predict` and `Perceive` calls (and `horizon` never changes). -/
theorem C1_epoch_cycles (c : Collab α S) (s : Lstm α S) (x : Int) (simd : SIMD)
    (input_size output_size num_cells num_layers horizon : Nat)
    (learning_rate gradient_clip : α) (calls : List (Call α))
    (h1 : 1 ≤ s.horizon) (h2 : s.epoch < s.horizon) (h3 : 1 ≤ horizon) :
    (Predict c s x).1.epoch = (s.epoch + 1) % s.horizon ∧
    (Lstm.new c simd input_size output_size num_cells num_layers horizon
        learning_rate gradient_clip).epoch = 0 ∧
    (runCalls c (Lstm.new c simd input_size output_size num_cells num_layers horizon
        learning_rate gradient_clip) calls).epoch <
      (runCalls c (Lstm.new c simd input_size output_size num_cells num_layers horizon
        learning_rate gradient_clip) calls).horizon ∧
    (runCalls c (Lstm.new c simd input_size output_size num_cells num_layers horizon
        learning_rate gradient_clip) calls).horizon = horizon := by
  refine ⟨?_, rfl, ?_⟩
  · rw [(Predict_epoch c s x).1]
    split_ifs with h
    · rw [h, Nat.mod_self]
    · rw [Nat.mod_eq_of_lt (by omega)]
  · exact runCalls_epoch c _ calls (show 0 < horizon from h3)

theorem C1_epoch_cycles_witness :
    (1 ≤ sampleLstm.horizon ∧ sampleLstm.epoch < sampleLstm.horizon ∧ 1 ≤ 3) ∧
    ((Predict sampleCollab sampleLstm 1).1.epoch = (sampleLstm.epoch + 1) % sampleLstm.horizon ∧
    (Lstm.new sampleCollab SIMD.SIMD_AVX2 1 2 2 1 3 (1 / 10) 1).epoch = 0 ∧
    (runCalls sampleCollab (Lstm.new sampleCollab SIMD.SIMD_AVX2 1 2 2 1 3 (1 / 10) 1)
        [Call.setInput [1], Call.predict 0, Call.perceive 1, Call.perceive 0]).epoch <
      (runCalls sampleCollab (Lstm.new sampleCollab SIMD.SIMD_AVX2 1 2 2 1 3 (1 / 10) 1)
        [Call.setInput [1], Call.predict 0, Call.perceive 1, Call.perceive 0]).horizon ∧
    (runCalls sampleCollab (Lstm.new sampleCollab SIMD.SIMD_AVX2 1 2 2 1 3 (1 / 10) 1)
        [Call.setInput [1], Call.predict 0, Call.perceive 1, Call.perceive 0]).horizon = 3) :=
  ⟨⟨by decide, by decide, by decide⟩,
    C1_epoch_cycles sampleCollab sampleLstm 1 SIMD.SIMD_AVX2 1 2 2 1 3 (1 / 10) 1
      [Call.setInput [1], Call.predict 0, Call.perceive 1, Call.perceive 0]
      (by decide) (by decide) (by decide)⟩

/-! ## C2 and C3: the distribution returned by `Predict` -/

theorem Predict_simplex (c : Collab α S) (s : Lstm α S) (x : Int)
    (hexp : ∀ v, 0 < c.expa v) (hw : WellSized s) (hs : s.simd = SIMD.SIMD_NONE)
    (hos : 1 ≤ s.output_size) :
    (Predict c s x).2 = (Predict c s x).1.output.getD s.epoch [] ∧
      (Predict c s x).2.length = s.output_size ∧
      (∀ v, v ∈ (Predict c s x).2 → 0 < v ∧ v ≤ 1) ∧ (Predict c s x).2.sum = 1 := by
  have he : s.epoch < s.output.length := hw.output_len ▸ hw.epoch_lt
  obtain ⟨h1, h2⟩ := Predict_none c s x hs he (hw.output_row _ hw.epoch_lt)
  refine ⟨h1, ?_⟩
  rw [h2]
  exact softmaxOf_simplex c hexp _ _ _ _ hos

/-- C2: on the scalar path (`simd = SIMD_NONE`), over exact arithmetic with a strictly
positive exponential, for every instance constructed with `output_size >= 1` (and
`horizon >= 1`, without which no slot exists) and every sequence of calls `calls`, the
distribution returned by the next `Predict`, and likewise by the next `Perceive`, is the
content of the slot `output[e]` it wrote, has `output_size` entries each in `(0, 1]`,
and sums to exactly `1`. -/
theorem C2_softmax_sums_to_one (c : Collab α S)
    (input_size output_size num_cells num_layers horizon : Nat)
    (learning_rate gradient_clip : α) (calls : List (Call α)) (x : Int) (s : Lstm α S)
    (hs : s = runCalls c (Lstm.new c SIMD.SIMD_NONE input_size output_size num_cells num_layers
      horizon learning_rate gradient_clip) calls)
    (hexp : ∀ v, 0 < c.expa v) (hos : 1 ≤ output_size) (hh : 1 ≤ horizon) :
    ((Predict c s x).2 = (Predict c s x).1.output.getD s.epoch [] ∧
      (Predict c s x).2.length = output_size ∧
      (∀ v, v ∈ (Predict c s x).2 → 0 < v ∧ v ≤ 1) ∧ (Predict c s x).2.sum = 1) ∧
    ((Perceive c s x).2 = (Perceive c s x).1.output.getD s.epoch [] ∧
      (Perceive c s x).2.length = output_size ∧
      (∀ v, v ∈ (Perceive c s x).2 → 0 < v ∧ v ≤ 1) ∧ (Perceive c s x).2.sum = 1) := by
  obtain ⟨hw, hsimd, hsz⟩ := wellSized_runCalls c _ calls
    (wellSized_new c SIMD.SIMD_NONE input_size output_size num_cells num_layers horizon
      learning_rate gradient_clip hh) rfl
  rw [← hs] at hw hsimd hsz
  have hsz1 : s.output_size = output_size := hsz
  constructor
  · have h := Predict_simplex c s x hexp hw hsimd (hsz1 ▸ hos)
    rw [hsz1] at h
    exact h
  · obtain ⟨hw2, hsimd2⟩ := wellSized_perceiveUpdate c s x hw
    obtain ⟨ls, he, bp, ol, e, -, -⟩ := perceiveUpdate_frame c s x
    have hsz2 : (perceiveUpdate c s x).output_size = output_size := by rw [e]; exact hsz1
    have hep : (perceiveUpdate c s x).epoch = s.epoch := by rw [e]
    have h := Predict_simplex c (perceiveUpdate c s x) x hexp hw2 (hsimd2.trans hsimd)
      (hsz2 ▸ hos)
    rw [hsz2, hep] at h
    exact h

theorem C2_softmax_sums_to_one_witness :
    ((∀ v, 0 < sampleCollab.expa v) ∧ 1 ≤ 2 ∧ 1 ≤ 3) ∧
    (((Predict sampleCollab (runCalls sampleCollab sampleLstm
          [Call.predict 0, Call.perceive 1]) 1).2 =
        (Predict sampleCollab (runCalls sampleCollab sampleLstm
          [Call.predict 0, Call.perceive 1]) 1).1.output.getD
          (runCalls sampleCollab sampleLstm [Call.predict 0, Call.perceive 1]).epoch [] ∧
      (Predict sampleCollab (runCalls sampleCollab sampleLstm
          [Call.predict 0, Call.perceive 1]) 1).2.length = 2 ∧
      (∀ v, v ∈ (Predict sampleCollab (runCalls sampleCollab sampleLstm
          [Call.predict 0, Call.perceive 1]) 1).2 → 0 < v ∧ v ≤ 1) ∧
      (Predict sampleCollab (runCalls sampleCollab sampleLstm
          [Call.predict 0, Call.perceive 1]) 1).2.sum = 1) ∧
    ((Perceive sampleCollab (runCalls sampleCollab sampleLstm
          [Call.predict 0, Call.perceive 1]) 1).2 =
        (Perceive sampleCollab (runCalls sampleCollab sampleLstm
          [Call.predict 0, Call.perceive 1]) 1).1.output.getD
          (runCalls sampleCollab sampleLstm [Call.predict 0, Call.perceive 1]).epoch [] ∧
      (Perceive sampleCollab (runCalls sampleCollab sampleLstm
          [Call.predict 0, Call.perceive 1]) 1).2.length = 2 ∧
      (∀ v, v ∈ (Perceive sampleCollab (runCalls sampleCollab sampleLstm
          [Call.predict 0, Call.perceive 1]) 1).2 → 0 < v ∧ v ≤ 1) ∧
      (Perceive sampleCollab (runCalls sampleCollab sampleLstm
          [Call.predict 0, Call.perceive 1]) 1).2.sum = 1)) :=
  ⟨⟨fun v => add_pos_of_pos_of_nonneg one_pos (mul_self_nonneg v), by decide, by decide⟩,
    C2_softmax_sums_to_one sampleCollab 1 2 2 1 3 (1 / 10) 1 [Call.predict 0, Call.perceive 1] 1
      (runCalls sampleCollab sampleLstm [Call.predict 0, Call.perceive 1]) rfl
      (fun v => add_pos_of_pos_of_nonneg one_pos (mul_self_nonneg v)) (by decide) (by decide)⟩

/-- C3: on the scalar path, `Predict` returns the distribution stored in the slot indexed
by the epoch value held before the call (which differs from the advanced value whenever
`horizon >= 2`), and for every output index `i` the returned entry equals
`exp(dot(hidden, output_layer[e][i])) / sum over k of exp(dot(hidden, output_layer[e][k]))`,
where `e` is the pre-call epoch and `hidden` is the hidden vector after all layers'
forward steps; no max-subtraction offset appears in the formula. -/
theorem C3_predict_returns_softmax (c : Collab α S) (s : Lstm α S) (x : Int)
    (hs : s.simd = SIMD.SIMD_NONE) (hw : WellSized s) :
    (Predict c s x).2 = (Predict c s x).1.output.getD s.epoch [] ∧
    (2 ≤ s.horizon → (Predict c s x).1.epoch ≠ s.epoch) ∧
    (Predict c s x).2.length = s.output_size ∧
    ∀ i, i < s.output_size →
      (Predict c s x).2.getD i 0 =
        c.expa (SumOfProducts (forwardAll c x s).hidden
            ((s.output_layer.getD s.epoch []).getD i []) (forwardAll c x s).hidden.length) /
          Finset.sum (Finset.range s.output_size) (fun k =>
            c.expa (SumOfProducts (forwardAll c x s).hidden
              ((s.output_layer.getD s.epoch []).getD k []) (forwardAll c x s).hidden.length)) := by
  have he : s.epoch < s.output.length := hw.output_len ▸ hw.epoch_lt
  obtain ⟨h1, h2⟩ := Predict_none c s x hs he (hw.output_row _ hw.epoch_lt)
  refine ⟨h1, ?_, ?_, ?_⟩
  · intro h2h
    rw [(Predict_epoch c s x).1]
    have := hw.epoch_lt
    split_ifs <;> omega
  · rw [h2]; simp [softmaxOf]
  · intro i hi
    rw [h2]
    unfold softmaxOf
    rw [getD_map_range _ _ _ _ hi]
    rfl

theorem C3_predict_returns_softmax_witness :
    (sampleLstm.simd = SIMD.SIMD_NONE ∧ WellSized sampleLstm) ∧
    ((Predict sampleCollab sampleLstm 1).2 =
      (Predict sampleCollab sampleLstm 1).1.output.getD sampleLstm.epoch [] ∧
    (2 ≤ sampleLstm.horizon → (Predict sampleCollab sampleLstm 1).1.epoch ≠ sampleLstm.epoch) ∧
    (Predict sampleCollab sampleLstm 1).2.length = sampleLstm.output_size ∧
    ∀ i, i < sampleLstm.output_size →
      (Predict sampleCollab sampleLstm 1).2.getD i 0 =
        sampleCollab.expa (SumOfProducts (forwardAll sampleCollab 1 sampleLstm).hidden
            ((sampleLstm.output_layer.getD sampleLstm.epoch []).getD i [])
            (forwardAll sampleCollab 1 sampleLstm).hidden.length) /
          Finset.sum (Finset.range sampleLstm.output_size) (fun k =>
            sampleCollab.expa (SumOfProducts (forwardAll sampleCollab 1 sampleLstm).hidden
              ((sampleLstm.output_layer.getD sampleLstm.epoch []).getD k [])
              (forwardAll sampleCollab 1 sampleLstm).hidden.length))) :=
  ⟨⟨rfl, wellSized_new sampleCollab SIMD.SIMD_NONE 1 2 2 1 3 (1 / 10) 1 (by decide)⟩,
    C3_predict_returns_softmax sampleCollab sampleLstm 1 rfl
      (wellSized_new sampleCollab SIMD.SIMD_NONE 1 2 2 1 3 (1 / 10) 1 (by decide))⟩

/-! ## C4: when the sweep runs -/

theorem Perceive_sweeps (c : Collab α S) (s : Lstm α S) (x : Int) :
    (Perceive c s x).1.sweeps = s.sweeps + (if s.epoch = 0 then 1 else 0) := by
  obtain ⟨ls, he, bp, ol, e, -, -⟩ := perceiveUpdate_frame c s x
  obtain ⟨ls1, h1, li1, out1, e1, -, -⟩ := Predict_frame c (perceiveUpdate c s x) x
  unfold Perceive
  rw [e1, e]

theorem perceiveMany_cons (c : Collab α S) (s : Lstm α S) (x : Int) (xs : List Int) :
    perceiveMany c s (x :: xs) = perceiveMany c (Perceive c s x).1 xs := rfl

theorem perceiveMany_append (c : Collab α S) (s : Lstm α S) (xs ys : List Int) :
    perceiveMany c s (xs ++ ys) = perceiveMany c (perceiveMany c s xs) ys := by
  unfold perceiveMany
  rw [List.foldl_append]

theorem perceiveMany_inv (c : Collab α S) (s : Lstm α S) (xs : List Int)
    (h : s.epoch < s.horizon) :
    (perceiveMany c s xs).epoch < (perceiveMany c s xs).horizon ∧
      (perceiveMany c s xs).horizon = s.horizon := by
  unfold perceiveMany
  refine foldl_inv (fun (t : Lstm α S) => t.epoch < t.horizon ∧ t.horizon = s.horizon) _ _ _
    ⟨h, rfl⟩ ?_
  intro t x ht
  obtain ⟨h1, h2⟩ := Perceive_epoch c t x
  refine ⟨?_, h2.trans ht.2⟩
  rw [h1, h2]
  have := ht.1
  split_ifs <;> omega

/-- Consecutive `Perceive` calls that start at `epoch >= 1` and do not pass the end of the
ring run no sweep. -/
theorem perceiveMany_no_wrap (c : Collab α S) (xs : List Int) :
    ∀ s : Lstm α S, 1 ≤ s.epoch → s.epoch < s.horizon → s.epoch + xs.length ≤ s.horizon →
      (perceiveMany c s xs).sweeps = s.sweeps ∧
      (perceiveMany c s xs).horizon = s.horizon ∧
      (perceiveMany c s xs).epoch =
        (if s.epoch + xs.length = s.horizon then 0 else s.epoch + xs.length) := by
  induction xs with
  | nil =>
    intro s h1 h2 h3
    refine ⟨rfl, rfl, ?_⟩
    show s.epoch = _
    rw [if_neg (by simp; omega)]
    rfl
  | cons x xs ih =>
    intro s h1 h2 h3
    rw [perceiveMany_cons]
    obtain ⟨e1, e2⟩ := Perceive_epoch c s x
    have e3 := Perceive_sweeps c s x
    rw [if_neg (by omega)] at e3
    simp only [List.length_cons] at h3 ⊢
    by_cases hlast : s.epoch + 1 = s.horizon
    · have hxs : xs = [] := List.length_eq_zero.mp (by omega)
      subst hxs
      rw [if_pos hlast] at e1
      refine ⟨e3, e2, ?_⟩
      show (Perceive c s x).1.epoch = _
      rw [e1, if_pos (by simp; omega)]
    · rw [if_neg hlast] at e1
      obtain ⟨i1, i2, i3⟩ := ih (Perceive c s x).1 (by omega) (by omega) (by omega)
      refine ⟨i1.trans e3, i2.trans e2, ?_⟩
      rw [i3, e1, e2]
      have : s.epoch + 1 + xs.length = s.epoch + (xs.length + 1) := by omega
      rw [this]

/-- Up to `horizon` consecutive `Perceive` calls that start at `epoch = 0` run exactly one
sweep. -/
theorem perceiveMany_from_zero (c : Collab α S) (xs : List Int) (s : Lstm α S)
    (h0 : s.epoch = 0) (h1 : 1 ≤ xs.length) (h2 : xs.length ≤ s.horizon) :
    (perceiveMany c s xs).sweeps = s.sweeps + 1 ∧
      (perceiveMany c s xs).epoch = (if xs.length = s.horizon then 0 else xs.length) := by
  cases xs with
  | nil => simp at h1
  | cons x xs =>
    rw [perceiveMany_cons]
    obtain ⟨e1, e2⟩ := Perceive_epoch c s x
    have e3 := Perceive_sweeps c s x
    rw [if_pos h0] at e3
    simp only [List.length_cons] at h2 ⊢
    rw [h0] at e1
    by_cases hlast : 0 + 1 = s.horizon
    · have hxs : xs = [] := List.length_eq_zero.mp (by omega)
      subst hxs
      rw [if_pos hlast] at e1
      refine ⟨e3, ?_⟩
      show (Perceive c s x).1.epoch = _
      rw [e1, if_pos (by simp; omega)]
    · rw [if_neg hlast] at e1
      obtain ⟨i1, i2, i3⟩ := perceiveMany_no_wrap c xs (Perceive c s x).1 (by omega) (by omega)
        (by omega)
      refine ⟨i1.trans e3, ?_⟩
      rw [i3, e1, e2]
      have : 0 + 1 + xs.length = xs.length + 1 := by omega
      rw [this]

/-- Exactly `horizon` consecutive `Perceive` calls run exactly one sweep and bring the
epoch counter back to where it was. -/
theorem perceiveMany_window (c : Collab α S) (w : List Int) (s : Lstm α S)
    (h : s.epoch < s.horizon) (hw : w.length = s.horizon) :
    (perceiveMany c s w).sweeps = s.sweeps + 1 ∧ (perceiveMany c s w).epoch = s.epoch := by
  by_cases h0 : s.epoch = 0
  · obtain ⟨a, b⟩ := perceiveMany_from_zero c w s h0 (by omega) (by omega)
    refine ⟨a, ?_⟩
    rw [b, if_pos hw, h0]
  · have hsplit : w = w.take (s.horizon - s.epoch) ++ w.drop (s.horizon - s.epoch) :=
      (List.take_append_drop _ _).symm
    have hlt : (w.take (s.horizon - s.epoch)).length = s.horizon - s.epoch := by
      rw [List.length_take]; omega
    have hld : (w.drop (s.horizon - s.epoch)).length = s.epoch := by
      rw [List.length_drop]; omega
    obtain ⟨a1, a2, a3⟩ := perceiveMany_no_wrap c (w.take (s.horizon - s.epoch)) s
      (by omega) h (by omega)
    rw [if_pos (by omega)] at a3
    obtain ⟨b1, b2⟩ := perceiveMany_from_zero c (w.drop (s.horizon - s.epoch))
      (perceiveMany c s (w.take (s.horizon - s.epoch))) a3 (by omega) (by omega)
    rw [hsplit, perceiveMany_append]
    refine ⟨b1.trans (by rw [a1]), ?_⟩
    rw [b2, if_neg (by omega), hld]

/-- C4: for `horizon >= 1`, `Perceive` runs the sweep (the ghost counter `sweeps` grows by
one) if and only if `epoch == 0` on entry, and otherwise leaves the counter alone; in any
run `pre ++ w` of consecutive `Perceive` calls, every window `w` of exactly `horizon`
calls contains exactly one call that runs the sweep; and with `horizon == 1` every
`Perceive` call runs it. -/
theorem C4_sweep_once_per_horizon (c : Collab α S) (s : Lstm α S) (x : Int) (pre w : List Int)
    (h1 : 1 ≤ s.horizon) (h2 : s.epoch < s.horizon) (hw : w.length = s.horizon) :
    ((Perceive c s x).1.sweeps = s.sweeps + 1 ↔ s.epoch = 0) ∧
    (s.epoch ≠ 0 → (Perceive c s x).1.sweeps = s.sweeps) ∧
    (perceiveMany c s (pre ++ w)).sweeps = (perceiveMany c s pre).sweeps + 1 ∧
    (s.horizon = 1 → (Perceive c s x).1.sweeps = s.sweeps + 1) := by
  have e3 := Perceive_sweeps c s x
  refine ⟨?_, ?_, ?_, ?_⟩
  · rw [e3]
    split_ifs with h0
    · simp [h0]
    · simp [h0]
  · intro h0
    rw [e3, if_neg h0]
    rfl
  · obtain ⟨i1, i2⟩ := perceiveMany_inv c s pre h2
    rw [perceiveMany_append]
    exact (perceiveMany_window c w _ i1 (hw.trans i2.symm)).1
  · intro hone
    rw [e3, if_pos (by omega)]

theorem C4_sweep_once_per_horizon_witness :
    (1 ≤ sampleLstm.horizon ∧ sampleLstm.epoch < sampleLstm.horizon ∧
      [1, 0, 1].length = sampleLstm.horizon) ∧
    (((Perceive sampleCollab sampleLstm 1).1.sweeps = sampleLstm.sweeps + 1 ↔
        sampleLstm.epoch = 0) ∧
    (sampleLstm.epoch ≠ 0 → (Perceive sampleCollab sampleLstm 1).1.sweeps = sampleLstm.sweeps) ∧
    (perceiveMany sampleCollab sampleLstm ([0, 1] ++ [1, 0, 1])).sweeps =
      (perceiveMany sampleCollab sampleLstm [0, 1]).sweeps + 1 ∧
    (sampleLstm.horizon = 1 →
      (Perceive sampleCollab sampleLstm 1).1.sweeps = sampleLstm.sweeps + 1)) :=
  ⟨⟨by decide, by decide, by decide⟩,
    C4_sweep_once_per_horizon sampleCollab sampleLstm 1 [0, 1] [1, 0, 1]
      (by decide) (by decide) (by decide)⟩

/-! ## C5: the gradient step on the output projection -/

theorem gradStep_spec (t : Lstm α S) (last : Nat) (x : Int)
    (he : t.epoch < t.output_layer.length)
    (hrows : t.output_size ≤ (t.output_layer.getD t.epoch []).length)
    (hcols : ∀ i, i < t.output_size →
      t.hidden.length ≤ ((t.output_layer.getD t.epoch []).getD i []).length) :
    ∀ e1 i j, get3 (gradStep t last x).output_layer e1 i j =
      if e1 = t.epoch ∧ i < t.output_size ∧ j < t.hidden.length then
        get3 t.output_layer last i j -
          t.learning_rate *
            (if Int.ofNat i = x then get2 t.output last i - 1 else get2 t.output last i) *
            t.hidden.getD j 0
      else get3 t.output_layer e1 i j :=
  (foldl_set3_spec
    (fun i j v => v - t.learning_rate *
      (if Int.ofNat i = x then get2 t.output last i - 1 else get2 t.output last i) *
      t.hidden.getD j 0)
    t.output_layer t.epoch last t.output_size t.hidden.length he hrows hcols).2

theorem perceiveUpdate_eq (c : Collab α S) (s : Lstm α S) (x : Int) :
    ∃ s2 : Lstm α S, perceiveUpdate c s x = gradStep s2 (lastEpoch s) x ∧
      s2.output_layer = s.output_layer ∧ s2.output = s.output ∧ s2.hidden = s.hidden ∧
      s2.learning_rate = s.learning_rate ∧ s2.epoch = s.epoch ∧
      s2.output_size = s.output_size := by
  refine ⟨if s.epoch = 0 then
      sweep c (s.input_history.getD (lastEpoch s) 0)
        ({ s with input_history := s.input_history.set (lastEpoch s) x } : Lstm α S)
    else ({ s with input_history := s.input_history.set (lastEpoch s) x } : Lstm α S), rfl, ?_⟩
  by_cases h0 : s.epoch = 0
  · rw [if_pos h0]
    obtain ⟨ls, he, bp, e1, -⟩ := sweep_frame c (s.input_history.getD (lastEpoch s) 0)
      ({ s with input_history := s.input_history.set (lastEpoch s) x } : Lstm α S)
    rw [e1]
    exact ⟨rfl, rfl, rfl, rfl, rfl, rfl⟩
  · rw [if_neg h0]
    exact ⟨rfl, rfl, rfl, rfl, rfl, rfl⟩

theorem perceiveUpdate_output_layer (c : Collab α S) (s : Lstm α S) (x : Int) (hw : WellSized s)
    (hh : s.hidden.length = s.num_cells * s.layers.length + 1) :
    ∀ e1 i j, get3 (perceiveUpdate c s x).output_layer e1 i j =
      if e1 = s.epoch ∧ i < s.output_size ∧ j < s.hidden.length then
        get3 s.output_layer (lastEpoch s) i j -
          s.learning_rate *
            (if Int.ofNat i = x then get2 s.output (lastEpoch s) i - 1
             else get2 s.output (lastEpoch s) i) *
            s.hidden.getD j 0
      else get3 s.output_layer e1 i j := by
  obtain ⟨s2, e, f1, f2, f3, f4, f5, f6⟩ := perceiveUpdate_eq c s x
  have h := gradStep_spec s2 (lastEpoch s) x
    (by rw [f5, f1, hw.ol_len]; exact hw.epoch_lt)
    (by rw [f5, f1, f6, hw.ol_rows _ hw.epoch_lt])
    (by
      intro i hi
      rw [f6] at hi
      rw [f5, f1, f3, hw.ol_cols _ _ hw.epoch_lt hi, hh])
  rw [e]
  rw [f1, f2, f3, f4, f5, f6] at h
  exact h

theorem Perceive_output_layer (c : Collab α S) (s : Lstm α S) (x : Int) :
    (Perceive c s x).1.output_layer = (perceiveUpdate c s x).output_layer := by
  obtain ⟨ls1, h1, li1, out1, e1, -, -⟩ := Predict_frame c (perceiveUpdate c s x) x
  unfold Perceive
  rw [e1]

/-- C5: for every `Perceive(x)` call entered with `epoch = e` and
`lastEpoch = (e == 0 ? horizon : e) - 1`, after the gradient step (and still when
`Perceive` returns) every entry satisfies
`output_layer[e][i][j] = old output_layer[lastEpoch][i][j] - learning_rate * error[i] * hidden[j]`
for all `i < output_size` and `j < num_cells * num_layers + 1`, where
`error[i] = output[lastEpoch][i] - 1` if `i == x` and `output[lastEpoch][i]` otherwise, and
`hidden` is the live hidden vector on entry; there is no condition on `epoch`, so the step
is applied whether or not the sweep ran. -/
theorem C5_gradient_step (c : Collab α S) (s : Lstm α S) (x : Int) (i j : Nat)
    (hw : WellSized s) (hh : s.hidden.length = s.num_cells * s.layers.length + 1)
    (hi : i < s.output_size) (hj : j < s.num_cells * s.layers.length + 1) :
    lastEpoch s = (if s.epoch = 0 then s.horizon else s.epoch) - 1 ∧
    get3 (perceiveUpdate c s x).output_layer s.epoch i j =
      get3 s.output_layer (lastEpoch s) i j -
        s.learning_rate *
          (if Int.ofNat i = x then get2 s.output (lastEpoch s) i - 1
           else get2 s.output (lastEpoch s) i) *
          s.hidden.getD j 0 ∧
    get3 (Perceive c s x).1.output_layer s.epoch i j =
      get3 s.output_layer (lastEpoch s) i j -
        s.learning_rate *
          (if Int.ofNat i = x then get2 s.output (lastEpoch s) i - 1
           else get2 s.output (lastEpoch s) i) *
          s.hidden.getD j 0 := by
  have h := perceiveUpdate_output_layer c s x hw hh s.epoch i j
  rw [if_pos ⟨rfl, hi, hh ▸ hj⟩] at h
  refine ⟨?_, h, ?_⟩
  · unfold lastEpoch
    by_cases h0 : s.epoch = 0
    · rw [if_pos h0, if_neg (by omega)]
    · rw [if_neg h0, if_pos (by omega)]
  · rw [Perceive_output_layer]
    exact h

theorem C5_gradient_step_witness :
    (WellSized sampleLstm ∧
      sampleLstm.hidden.length = sampleLstm.num_cells * sampleLstm.layers.length + 1 ∧
      1 < sampleLstm.output_size ∧ 2 < sampleLstm.num_cells * sampleLstm.layers.length + 1) ∧
    (lastEpoch sampleLstm = (if sampleLstm.epoch = 0 then sampleLstm.horizon
        else sampleLstm.epoch) - 1 ∧
    get3 (perceiveUpdate sampleCollab sampleLstm 1).output_layer sampleLstm.epoch 1 2 =
      get3 sampleLstm.output_layer (lastEpoch sampleLstm) 1 2 -
        sampleLstm.learning_rate *
          (if Int.ofNat 1 = 1 then get2 sampleLstm.output (lastEpoch sampleLstm) 1 - 1
           else get2 sampleLstm.output (lastEpoch sampleLstm) 1) *
          sampleLstm.hidden.getD 2 0 ∧
    get3 (Perceive sampleCollab sampleLstm 1).1.output_layer sampleLstm.epoch 1 2 =
      get3 sampleLstm.output_layer (lastEpoch sampleLstm) 1 2 -
        sampleLstm.learning_rate *
          (if Int.ofNat 1 = 1 then get2 sampleLstm.output (lastEpoch sampleLstm) 1 - 1
           else get2 sampleLstm.output (lastEpoch sampleLstm) 1) *
          sampleLstm.hidden.getD 2 0) :=
  ⟨⟨wellSized_new sampleCollab SIMD.SIMD_NONE 1 2 2 1 3 (1 / 10) 1 (by decide),
      by decide, by decide, by decide⟩,
    C5_gradient_step sampleCollab sampleLstm 1 1 2
      (wellSized_new sampleCollab SIMD.SIMD_NONE 1 2 2 1 3 (1 / 10) 1 (by decide))
      (by decide) (by decide) (by decide)⟩

/-! ## C6: the order of the `BackwardPass` calls -/

theorem sweepLayer_log (c : Collab α S) (old : Int) (e : Nat) (t : Lstm α S) (l : Nat)
    (hl : l < t.layers.length) :
    (sweepLayer c old e t l).bp_calls.map BackwardCall.args =
      t.bp_calls.map BackwardCall.args ++
        [(e, l, (t.layer_input.getD e []).getD l [],
          if e > 0 then t.input_history.getD (e - 1) 0 else old)] := by
  unfold sweepLayer
  have hsome : t.layers[l]? = some t.layers[l] := List.getElem?_eq_getElem hl
  simp only [hsome, List.map_append, List.map_cons, List.map_nil, BackwardCall.args]
  by_cases h0 : e > 0
  · simp only [if_pos h0]
  · simp only [if_neg h0]

theorem sweepLayers_log (c : Collab α S) (old : Int) (e : Nat) (ls : List Nat) :
    ∀ t : Lstm α S, (∀ l, l ∈ ls → l < t.layers.length) →
      (ls.foldl (sweepLayer c old e) t).bp_calls.map BackwardCall.args =
        t.bp_calls.map BackwardCall.args ++
          ls.map (fun l => (e, l, (t.layer_input.getD e []).getD l [],
            if e > 0 then t.input_history.getD (e - 1) 0 else old)) := by
  induction ls with
  | nil => intro t _; simp
  | cons l ls ih =>
    intro t hmem
    obtain ⟨ls1, he1, bp1, e1, hl1⟩ := sweepLayer_frame c old e t l
    have hstep := sweepLayer_log c old e t l (hmem l (List.mem_cons_self _ _))
    have hlen : (sweepLayer c old e t l).layers.length = t.layers.length := by rw [e1]; exact hl1
    have hli : (sweepLayer c old e t l).layer_input = t.layer_input := by rw [e1]
    have hih : (sweepLayer c old e t l).input_history = t.input_history := by rw [e1]
    rw [List.foldl_cons, ih _ (fun k hk => hlen ▸ hmem k (List.mem_cons_of_mem _ hk)), hstep,
      hli, hih, List.map_cons, List.append_assoc, List.singleton_append]

theorem sweepEpochs_log (c : Collab α S) (old : Int) (es : List Nat) :
    ∀ t : Lstm α S,
      (es.foldl (sweepEpoch c old) t).bp_calls.map BackwardCall.args =
        t.bp_calls.map BackwardCall.args ++
          es.flatMap (fun e => (List.range t.layers.length).reverse.map (fun l =>
            (e, l, (t.layer_input.getD e []).getD l [],
              if e > 0 then t.input_history.getD (e - 1) 0 else old))) := by
  induction es with
  | nil => intro t; simp
  | cons e es ih =>
    intro t
    obtain ⟨ls1, he1, bp1, e1, hl1⟩ := sweepEpoch_frame c old t e
    have hstep : (sweepEpoch c old t e).bp_calls.map BackwardCall.args = _ :=
      sweepLayers_log c old e (List.range t.layers.length).reverse t
        (fun l hl => List.mem_range.mp (List.mem_reverse.mp hl))
    have hlen : (sweepEpoch c old t e).layers.length = t.layers.length := by rw [e1]; exact hl1
    have hli : (sweepEpoch c old t e).layer_input = t.layer_input := by rw [e1]
    have hih : (sweepEpoch c old t e).input_history = t.input_history := by rw [e1]
    rw [List.foldl_cons, ih, hstep, hlen, hli, hih, List.flatMap_cons, List.append_assoc]

theorem perceiveUpdate_log (c : Collab α S) (s : Lstm α S) (x : Int) (h0 : s.epoch = 0) :
    (perceiveUpdate c s x).bp_calls.map BackwardCall.args =
      s.bp_calls.map BackwardCall.args ++ expectedBackwardCalls s := by
  have key : perceiveUpdate c s x =
      gradStep (sweep c (s.input_history.getD (lastEpoch s) 0)
        ({ s with input_history := s.input_history.set (lastEpoch s) x } : Lstm α S))
        (lastEpoch s) x := by
    unfold perceiveUpdate
    exact congrArg (fun t => gradStep t (lastEpoch s) x) (if_pos h0)
  obtain ⟨ol, e2, -⟩ := gradStep_frame
    (sweep c (s.input_history.getD (lastEpoch s) 0)
      ({ s with input_history := s.input_history.set (lastEpoch s) x } : Lstm α S))
    (lastEpoch s) x
  have hlast : lastEpoch s = s.horizon - 1 := by
    unfold lastEpoch
    rw [if_neg (by omega)]
  have hsw := sweepEpochs_log c (s.input_history.getD (lastEpoch s) 0)
    (List.range s.horizon).reverse
    ({ s with input_history := s.input_history.set (lastEpoch s) x,
              sweeps := s.sweeps + 1 } : Lstm α S)
  rw [key, e2]
  show (sweep c (s.input_history.getD (lastEpoch s) 0)
      ({ s with input_history := s.input_history.set (lastEpoch s) x } : Lstm α S)).bp_calls.map
        BackwardCall.args = _
  unfold sweep
  refine hsw.trans ?_
  unfold expectedBackwardCalls
  refine congrArg (fun r => List.map BackwardCall.args s.bp_calls ++ r) ?_
  refine List.flatMap_congr ?_
  intro e he
  have he1 : e < s.horizon := List.mem_range.mp (List.mem_reverse.mp he)
  refine List.map_congr_left ?_
  intro l _
  show (e, l, (s.layer_input.getD e []).getD l [],
      if e > 0 then (s.input_history.set (lastEpoch s) x).getD (e - 1) 0
      else s.input_history.getD (lastEpoch s) 0) = _
  unfold inputSymbolAt
  by_cases hpos : e > 0
  · rw [if_pos hpos, if_pos hpos, getD_set_ne _ _ _ _ _ (by rw [hlast]; omega)]
  · rw [if_neg hpos, if_neg hpos, hlast]

theorem length_expectedBackwardCalls (s : Lstm α S) :
    (expectedBackwardCalls s).length = s.horizon * s.layers.length := by
  unfold expectedBackwardCalls
  rw [List.length_flatMap]
  have hconst : List.map (List.length ∘ fun e => (List.range s.layers.length).reverse.map (fun l =>
      (e, l, (s.layer_input.getD e []).getD l [], inputSymbolAt s.input_history s.horizon e)))
      (List.range s.horizon).reverse =
      List.replicate s.horizon s.layers.length := by
    refine List.ext_getElem (by simp) ?_
    intro n h1 h2
    simp
  rw [hconst, List.sum_const_nat]

theorem sweepLayer_append (c : Collab α S) (old : Int) (e : Nat) (t : Lstm α S) (l : Nat) :
    ∃ calls, (sweepLayer c old e t l).bp_calls = t.bp_calls ++ calls := by
  unfold sweepLayer
  cases h : t.layers[l]? with
  | none => exact ⟨[], (List.append_nil _).symm⟩
  | some ly => exact ⟨_, rfl⟩

theorem sweep_append (c : Collab α S) (old : Int) (s : Lstm α S) :
    ∃ calls, (sweep c old s).bp_calls = s.bp_calls ++ calls := by
  unfold sweep
  refine foldl_inv (fun (t : Lstm α S) => ∃ calls, t.bp_calls = s.bp_calls ++ calls) _ _ _
    ⟨[], (List.append_nil _).symm⟩ ?_
  rintro t e ⟨calls, ht⟩
  unfold sweepEpoch
  refine foldl_inv (fun (u : Lstm α S) => ∃ calls, u.bp_calls = s.bp_calls ++ calls) _ _ _
    ⟨calls, ht⟩ ?_
  rintro u l ⟨calls1, hu⟩
  obtain ⟨calls2, h2⟩ := sweepLayer_append c old e u l
  exact ⟨calls1 ++ calls2, by rw [h2, hu, List.append_assoc]⟩

theorem perceiveUpdate_append (c : Collab α S) (s : Lstm α S) (x : Int) :
    ∃ calls, (perceiveUpdate c s x).bp_calls = s.bp_calls ++ calls := by
  have key : perceiveUpdate c s x =
      gradStep (if s.epoch = 0 then
          sweep c (s.input_history.getD (lastEpoch s) 0)
            ({ s with input_history := s.input_history.set (lastEpoch s) x } : Lstm α S)
        else ({ s with input_history := s.input_history.set (lastEpoch s) x } : Lstm α S))
        (lastEpoch s) x := rfl
  rw [key]
  by_cases h0 : s.epoch = 0
  · rw [if_pos h0]
    obtain ⟨calls, hc⟩ := sweep_append c (s.input_history.getD (lastEpoch s) 0)
      ({ s with input_history := s.input_history.set (lastEpoch s) x } : Lstm α S)
    exact ⟨calls, hc⟩
  · rw [if_neg h0]
    exact ⟨[], (List.append_nil _).symm⟩

theorem Perceive_same (c : Collab α S) (s : Lstm α S) (x : Int) :
    (Perceive c s x).1.bp_calls = (perceiveUpdate c s x).bp_calls ∧
      (Perceive c s x).1.input_history = s.input_history.set (lastEpoch s) x := by
  obtain ⟨ls1, h1, li1, out1, e1, -, -⟩ := Predict_frame c (perceiveUpdate c s x) x
  obtain ⟨ls, he, bp, ol, e, -, -⟩ := perceiveUpdate_frame c s x
  unfold Perceive
  rw [e1]
  refine ⟨rfl, ?_⟩
  rw [e]

/-- C6: when `Perceive(x)` runs the sweep (`epoch == 0` on entry, `horizon >= 1`, `L`
layers), the `BackwardPass` calls it makes are exactly, in order, `(epoch e, layer l)` for
`e = horizon - 1` down to `0` and, within each `e`, `l = L - 1` down to `0`, that is
`horizon * L` calls, each receiving `layer_input[e][l]` and the input symbol `sym(e)`,
where `sym(e) = input_history[e - 1]` for `e > 0` and `sym(0)` is the value
`input_history[horizon - 1]` held before this call overwrote it with `x`. -/
theorem C6_backward_pass_order (c : Collab α S) (s : Lstm α S) (x : Int)
    (h1 : 1 ≤ s.horizon) (h0 : s.epoch = 0) :
    ∃ calls : List (BackwardCall α),
      (Perceive c s x).1.bp_calls = s.bp_calls ++ calls ∧
      calls.length = s.horizon * s.layers.length ∧
      calls.map BackwardCall.args =
        (List.range s.horizon).reverse.flatMap (fun e =>
          (List.range s.layers.length).reverse.map (fun l =>
            (e, l, (s.layer_input.getD e []).getD l [],
              if e > 0 then s.input_history.getD (e - 1) 0
              else s.input_history.getD (s.horizon - 1) 0))) ∧
      (Perceive c s x).1.input_history = s.input_history.set (s.horizon - 1) x := by
  obtain ⟨calls, hc⟩ := perceiveUpdate_append c s x
  obtain ⟨p1, p2⟩ := Perceive_same c s x
  have hlog := perceiveUpdate_log c s x h0
  rw [hc, List.map_append] at hlog
  have hargs : calls.map BackwardCall.args = expectedBackwardCalls s :=
    List.append_cancel_left hlog
  have hlast : lastEpoch s = s.horizon - 1 := by
    unfold lastEpoch
    rw [if_neg (by omega)]
  refine ⟨calls, p1.trans hc, ?_, hargs, ?_⟩
  · rw [← length_expectedBackwardCalls, ← hargs, List.length_map]
  · rw [p2, hlast]

theorem C6_backward_pass_order_witness :
    (1 ≤ sampleTrained.horizon ∧ sampleTrained.epoch = 0) ∧
    ∃ calls : List (BackwardCall ℚ),
      (Perceive sampleCollab sampleTrained 1).1.bp_calls = sampleTrained.bp_calls ++ calls ∧
      calls.length = sampleTrained.horizon * sampleTrained.layers.length ∧
      calls.map BackwardCall.args =
        (List.range sampleTrained.horizon).reverse.flatMap (fun e =>
          (List.range sampleTrained.layers.length).reverse.map (fun l =>
            (e, l, (sampleTrained.layer_input.getD e []).getD l [],
              if e > 0 then sampleTrained.input_history.getD (e - 1) 0
              else sampleTrained.input_history.getD (sampleTrained.horizon - 1) 0))) ∧
      (Perceive sampleCollab sampleTrained 1).1.input_history =
        sampleTrained.input_history.set (sampleTrained.horizon - 1) 1 :=
  ⟨⟨by decide, by decide⟩,
    C6_backward_pass_order sampleCollab sampleTrained 1 (by decide) (by decide)⟩

/-! ## C8: the raw file layout -/

theorem foldl_range_getD {β σ : Type} (l : List β) (d : β) (step : σ → β → σ) (init : σ) :
    (List.range l.length).foldl (fun acc j => step acc (l.getD j d)) init = l.foldl step init := by
  induction l generalizing init with
  | nil => rfl
  | cons a l ih =>
    rw [List.length_cons, List.range_succ_eq_map, List.foldl_cons, List.foldl_map]
    simp only [List.getD_cons_zero, Nat.succ_eq_add_one, List.getD_cons_succ]
    exact ih _

theorem foldl_range_getElem? {β σ : Type} (l : List β) (step : σ → β → σ) (init : σ) :
    (List.range l.length).foldl
      (fun acc i => match l[i]? with
        | none => acc
        | some b => step acc b) init = l.foldl step init := by
  induction l generalizing init with
  | nil => rfl
  | cons a l ih =>
    rw [List.length_cons, List.range_succ_eq_map, List.foldl_cons, List.foldl_map]
    simp only [List.getElem?_cons_zero, Nat.succ_eq_add_one, List.getElem?_cons_succ]
    exact ih _

theorem foldl_snoc_map {β γ : Type} (h : β → γ) (ws : List β) (file : List γ) :
    ws.foldl (fun f w => f ++ [h w]) file = file ++ ws.map h := by
  induction ws generalizing file with
  | nil => simp
  | cons w ws ih => rw [List.foldl_cons, ih, List.map_cons, List.append_assoc, List.singleton_append]

theorem lastEpoch_lt (s : Lstm α S) (h : s.epoch < s.horizon) : lastEpoch s < s.horizon := by
  unfold lastEpoch
  split_ifs <;> omega

theorem forEachLayerWeight_eq {σ : Type} (layers : List (LstmLayer α S)) (body : σ → α → σ)
    (init : σ) :
    forEachLayerWeight layers body init = (layerWeightSeq layers).foldl body init := by
  have inner : ∀ (row : List α) (acc : σ),
      (List.range row.length).foldl (fun acc3 l => body acc3 (row.getD l 0)) acc =
        row.foldl body acc := fun row acc => foldl_range_getD row 0 body acc
  have middle : ∀ (t : List (List α)) (acc : σ),
      (List.range t.length).foldl (fun acc2 k => (t.getD k []).foldl body acc2) acc =
        t.foldl (fun a row => row.foldl body a) acc :=
    fun t acc => foldl_range_getD t [] (fun a row => row.foldl body a) acc
  have outer : ∀ (w : List (List (List α))) (acc : σ),
      (List.range w.length).foldl
          (fun acc1 j => (w.getD j []).foldl (fun a row => row.foldl body a) acc1) acc =
        w.foldl (fun a t => t.foldl (fun a1 row => row.foldl body a1) a) acc :=
    fun w acc => foldl_range_getD w [] (fun a t => t.foldl (fun a1 row => row.foldl body a1) a) acc
  unfold forEachLayerWeight layerWeightSeq
  simp only [get3, inner, middle, outer]
  have h := foldl_range_getElem? layers
    (fun acc ly => ly.weights.foldl (fun a t => t.foldl (fun a1 row => row.foldl body a1) a) acc)
    init
  refine Eq.trans ?_ (h.trans ?_)
  · congr 1
    funext acc i
    generalize layers[i]? = o
    cases o <;> rfl
  · simp only [List.flatMap_def, List.foldl_flatten, List.foldl_map]

theorem forEachOutputWeight_eq {σ : Type} (s : Lstm α S) (body : σ → α → σ) (init : σ)
    (hw : WellSized s) :
    forEachOutputWeight s body init =
      (s.output_layer.getD (lastEpoch s) []).flatten.foldl body init := by
  have hl := lastEpoch_lt s hw.epoch_lt
  have h0 : 0 < s.horizon := Nat.lt_of_le_of_lt (Nat.zero_le _) hw.epoch_lt
  unfold forEachOutputWeight
  have hstep : ∀ (acc : σ) (i : Nat), i ∈ List.range s.output_size →
      (List.range ((s.output_layer.getD 0 []).getD i []).length).foldl
          (fun acc1 j => body acc1 (get3 s.output_layer (lastEpoch s) i j)) acc =
        ((s.output_layer.getD (lastEpoch s) []).getD i []).foldl body acc := by
    intro acc i hi
    have hi1 : i < s.output_size := List.mem_range.mp hi
    rw [hw.ol_cols 0 i h0 hi1, ← hw.ol_cols (lastEpoch s) i hl hi1]
    exact foldl_range_getD ((s.output_layer.getD (lastEpoch s) []).getD i []) 0 body acc
  rw [List.foldl_ext _ _ _ hstep, ← hw.ol_rows (lastEpoch s) hl, List.foldl_flatten]
  exact foldl_range_getD (s.output_layer.getD (lastEpoch s) []) []
    (fun a row => row.foldl body a) init

theorem saveRaw_eq (s : Lstm α S) (file : List (FileItem α)) (hw : WellSized s) :
    saveRaw s file = file ++ (weightSeq s).map FileItem.block := by
  unfold saveRaw weightSeq
  rw [forEachLayerWeight_eq, forEachOutputWeight_eq s _ _ hw]
  show List.foldl (fun f w => f ++ [FileItem.block w])
    (List.foldl (fun f w => f ++ [FileItem.block w]) file _) _ = _
  rw [foldl_snoc_map, foldl_snoc_map, List.map_append, List.append_assoc]

theorem length_flatten_of_rows {β : Type} (l : List (List β)) (n w : Nat) (hl : l.length = n)
    (hr : ∀ i, i < n → (l.getD i []).length = w) : l.flatten.length = n * w := by
  have hrep : l.map List.length = List.replicate n w := by
    refine List.ext_getElem (by simp [hl]) ?_
    intro i h1 h2
    have hi : i < l.length := by simpa using h1
    have := hr i (hl ▸ hi)
    rw [List.getD_eq_getElem l [] hi] at this
    simp [this]
  rw [List.length_flatten, hrep, List.sum_const_nat]

/-- C8: in raw mode (`bits == 0`) the file produced by `SaveToDisk` is exactly the flat
sequence of weights, one 4-byte block each, with nothing before, between or after them:
first the `output_size * (num_cells * num_layers + 1)` entries of
`output_layer[lastEpoch]` in row-major order, then for each layer in stack order, each
tensor returned by `Weights()` in order, each row in order, each element in order; the
number of blocks written equals the total number of weights. -/
theorem C8_raw_file_layout (c : Collab α S) (exp : Int) (s : Lstm α S) (hw : WellSized s) :
    SaveToDisk c 0 exp s =
      some (((s.output_layer.getD (lastEpoch s) []).flatten ++
        s.layers.flatMap (fun ly => ly.weights.flatten.flatten)).map FileItem.block) ∧
    (s.output_layer.getD (lastEpoch s) []).flatten.length =
      s.output_size * (s.num_cells * s.layers.length + 1) ∧
    ∀ file, SaveToDisk c 0 exp s = some file →
      file.length = s.output_size * (s.num_cells * s.layers.length + 1) +
        (s.layers.map (fun ly =>
          (ly.weights.map (fun t => (t.map List.length).sum)).sum)).sum := by
  have hl := lastEpoch_lt s hw.epoch_lt
  have hsave : SaveToDisk c 0 exp s = some ((weightSeq s).map FileItem.block) := by
    unfold SaveToDisk
    rw [if_neg (by decide), if_neg (by decide), saveRaw_eq s [] hw, List.nil_append]
  have hcount : (s.output_layer.getD (lastEpoch s) []).flatten.length =
      s.output_size * (s.num_cells * s.layers.length + 1) :=
    length_flatten_of_rows _ _ _ (hw.ol_rows _ hl) (fun i hi => hw.ol_cols _ i hl hi)
  refine ⟨hsave, hcount, ?_⟩
  intro file hfile
  rw [hsave] at hfile
  cases hfile
  rw [List.length_map]
  unfold weightSeq layerWeightSeq
  rw [List.length_append, hcount, List.length_flatMap]
  congr 2
  refine List.map_congr_left ?_
  intro ly _
  simp only [Function.comp, List.length_flatten, List.map_flatten, List.sum_flatten, List.map_map]
  rfl

theorem C8_raw_file_layout_witness :
    WellSized sampleLstm ∧
    (SaveToDisk sampleCollab 0 0 sampleLstm =
      some (((sampleLstm.output_layer.getD (lastEpoch sampleLstm) []).flatten ++
        sampleLstm.layers.flatMap (fun ly => ly.weights.flatten.flatten)).map FileItem.block) ∧
    (sampleLstm.output_layer.getD (lastEpoch sampleLstm) []).flatten.length =
      sampleLstm.output_size * (sampleLstm.num_cells * sampleLstm.layers.length + 1) ∧
    ∀ file, SaveToDisk sampleCollab 0 0 sampleLstm = some file →
      file.length = sampleLstm.output_size *
          (sampleLstm.num_cells * sampleLstm.layers.length + 1) +
        (sampleLstm.layers.map (fun ly =>
          (ly.weights.map (fun t => (t.map List.length).sum)).sum)).sum) :=
  ⟨wellSized_new sampleCollab SIMD.SIMD_NONE 1 2 2 1 3 (1 / 10) 1 (by decide),
    C8_raw_file_layout sampleCollab 0 sampleLstm
      (wellSized_new sampleCollab SIMD.SIMD_NONE 1 2 2 1 3 (1 / 10) 1 (by decide))⟩

/-! ## Loading: filling the weights from the file -/

theorem ext_getD {β : Type} (l1 l2 : List β) (d : β) (hl : l1.length = l2.length)
    (h : ∀ j, j < l1.length → l1.getD j d = l2.getD j d) : l1 = l2 := by
  refine List.ext_getElem hl ?_
  intro j h1 h2
  have := h j h1
  rw [List.getD_eq_getElem l1 d h1, List.getD_eq_getElem l2 d h2] at this
  exact this

/-- An innermost loop of `LoadFromDisk` that finds all the values it needs reads them in
order into the whole row and never takes the `break`. -/
theorem loadRow_full (read : List (FileItem α) → Option α × List (FileItem α))
    (enc : α → FileItem α) (dec : α → α)
    (hread : ∀ w rest, read (enc w :: rest) = (some (dec w), rest))
    (ws row : List α) (n : Nat) (rest : List (FileItem α))
    (hws : ws.length = n) (hrow : row.length = n) :
    loadRow read n (ws.map enc ++ rest) row = (rest, ws.map dec) := by
  unfold loadRow
  have hinv := foldl_range_inv
    (fun k (st : Bool × List (FileItem α) × List α) =>
      st.1 = false ∧ st.2.1 = (ws.drop k).map enc ++ rest ∧ st.2.2.length = n ∧
        ∀ j, st.2.2.getD j 0 = if j < k then (ws.map dec).getD j 0 else row.getD j 0)
    (fun (st : Bool × List (FileItem α) × List α) l =>
      if st.1 then st
      else
        match read st.2.1 with
        | (none, f1) => (true, f1, st.2.2)
        | (some v, f1) => (false, f1, st.2.2.set l v))
    n (false, ws.map enc ++ rest, row)
    ⟨rfl, by simp, hrow, fun j => by simp⟩
    (by
      rintro k ⟨b, f, r⟩ hk ⟨h1, h2, h3, h4⟩
      simp only at h1 h2 h3 h4
      subst h1
      have hk1 : k < ws.length := hws ▸ hk
      rw [List.drop_eq_getElem_cons hk1, List.map_cons, List.cons_append] at h2
      subst h2
      simp only [Bool.false_eq_true, if_false, hread]
      refine ⟨trivial, trivial, by rw [List.length_set]; exact h3, fun j => ?_⟩
      rw [getD_set, h4]
      by_cases hj : j = k
      · subst hj
        rw [if_pos ⟨rfl, h3 ▸ hk⟩, if_pos (Nat.lt_succ_self _),
          List.getD_eq_getElem _ _ (by simpa using hk1), List.getElem_map]
      · rw [if_neg (fun h => hj h.1.symm)]
        by_cases hjk : j < k
        · rw [if_pos hjk, if_pos (Nat.lt_succ_of_lt hjk)]
        · rw [if_neg hjk, if_neg (by omega)])
  obtain ⟨-, h2, h3, h4⟩ := hinv
  refine Prod.ext ?_ ?_
  · rw [h2, List.drop_of_length_le (by omega)]
    rfl
  · refine ext_getD _ _ 0 (by rw [h3, List.length_map, hws]) ?_
    intro j hj
    rw [h4, if_pos (h3 ▸ hj)]

/-- Loop invariant rule for a loop that fills the components `0 .. as.length - 1` of its
state, one per iteration, from the front of the file. -/
theorem fill_inv {σ A B : Type} (file : σ → List (FileItem α)) (comp : σ → Nat → B)
    (I : σ → Prop) (body : σ → Nat → σ) (enc : α → FileItem α) (flat : A → List α)
    (res : A → B) (R : A → B → Prop) (as : List A) (dA : A) (st0 : σ)
    (rest : List (FileItem α))
    (h0 : file st0 = (as.flatMap flat).map enc ++ rest) (hI : I st0)
    (hR : ∀ k, k < as.length → R (as.getD k dA) (comp st0 k))
    (hbody : ∀ st k rest1, k < as.length → I st → R (as.getD k dA) (comp st k) →
      file st = (flat (as.getD k dA)).map enc ++ rest1 →
      I (body st k) ∧ file (body st k) = rest1 ∧ comp (body st k) k = res (as.getD k dA) ∧
        ∀ k1, k1 ≠ k → comp (body st k) k1 = comp st k1) :
    I ((List.range as.length).foldl body st0) ∧
    file ((List.range as.length).foldl body st0) = rest ∧
    (∀ k, k < as.length →
      comp ((List.range as.length).foldl body st0) k = res (as.getD k dA)) ∧
    (∀ k, as.length ≤ k → comp ((List.range as.length).foldl body st0) k = comp st0 k) := by
  have hinv := foldl_range_inv
    (fun k st => I st ∧ file st = ((as.drop k).flatMap flat).map enc ++ rest ∧
      (∀ k1, k1 < k → comp st k1 = res (as.getD k1 dA)) ∧
      (∀ k1, k ≤ k1 → comp st k1 = comp st0 k1))
    body as.length st0
    ⟨hI, by simpa using h0, fun k1 hk1 => absurd hk1 (Nat.not_lt_zero _), fun _ _ => rfl⟩
    (by
      rintro k st hk ⟨i1, i2, i3, i4⟩
      have hget : as.getD k dA = as[k] := List.getD_eq_getElem as dA hk
      rw [List.drop_eq_getElem_cons hk, List.flatMap_cons, List.map_append, List.append_assoc,
        ← hget] at i2
      obtain ⟨b1, b2, b3, b4⟩ := hbody st k _ hk i1 (by rw [i4 k (le_refl _)]; exact hR k hk) i2
      refine ⟨b1, b2, fun k1 hk1 => ?_, fun k1 hk1 => ?_⟩
      · by_cases hkk : k1 = k
        · rw [hkk]; exact b3
        · rw [b4 k1 hkk]; exact i3 k1 (by omega)
      · rw [b4 k1 (by omega)]; exact i4 k1 (by omega))
  obtain ⟨i1, i2, i3, i4⟩ := hinv
  refine ⟨i1, ?_, i3, i4⟩
  rw [i2, List.drop_of_length_le (le_refl _)]
  rfl

theorem getD_map_nil {β γ : Type} (l : List (List β)) (f : β → γ) (k : Nat) :
    (l.map (fun r => r.map f)).getD k [] = (l.getD k []).map f :=
  List.getD_map l [] (fun r => r.map f)

theorem loadTensor_spec (read : List (FileItem α) → Option α × List (FileItem α))
    (enc : α → FileItem α) (dec : α → α)
    (hread : ∀ w rest, read (enc w :: rest) = (some (dec w), rest))
    (j : Nat) (ta : List (List α)) (st0 : List (FileItem α) × List (List (List α)))
    (rest : List (FileItem α)) (hj : j < st0.2.length)
    (hlen : ta.length = (st0.2.getD j []).length)
    (hshape : ∀ k, (ta.getD k []).length = ((st0.2.getD j []).getD k []).length)
    (hfile : st0.1 = ta.flatten.map enc ++ rest) :
    (loadTensor read st0 j).1 = rest ∧ (loadTensor read st0 j).2.length = st0.2.length ∧
    (loadTensor read st0 j).2.getD j [] = ta.map (fun r => r.map dec) ∧
    ∀ j1, j1 ≠ j → (loadTensor read st0 j).2.getD j1 [] = st0.2.getD j1 [] := by
  unfold loadTensor
  rw [← hlen]
  obtain ⟨⟨i1, i2, i3⟩, f1, c1, -⟩ := fill_inv
    (fun (st : List (FileItem α) × List (List (List α))) => st.1)
    (fun (st : List (FileItem α) × List (List (List α))) k => (st.2.getD j []).getD k [])
    (fun (st : List (FileItem α) × List (List (List α))) =>
      st.2.length = st0.2.length ∧ (st.2.getD j []).length = ta.length ∧
        ∀ j1, j1 ≠ j → st.2.getD j1 [] = st0.2.getD j1 [])
    (fun (st1 : List (FileItem α) × List (List (List α))) k =>
      let row := (st1.2.getD j []).getD k []
      let r := loadRow read row.length st1.1 row
      (r.1, st1.2.set j ((st1.2.getD j []).set k r.2)))
    enc (fun r => r) (fun r => r.map dec) (fun a b => a.length = b.length) ta [] st0 rest
    (by
      have hid : ta.flatMap (fun r => r) = ta.flatten := by simp [List.flatMap_def]
      rw [hid]; exact hfile)
    ⟨rfl, hlen.symm, fun _ _ => rfl⟩ (fun k _ => hshape k)
    (by
      rintro ⟨f, w⟩ k rest1 hk ⟨a1, a2, a3⟩ hR hf
      have hf1 : f = (ta.getD k []).map enc ++ rest1 := hf
      have hR1 : (ta.getD k []).length = ((w.getD j []).getD k []).length := hR
      have a1' : w.length = st0.2.length := a1
      have a2' : (w.getD j []).length = ta.length := a2
      have hrow := loadRow_full read enc dec hread (ta.getD k []) ((w.getD j []).getD k [])
        ((w.getD j []).getD k []).length rest1 hR1 rfl
      rw [← hf1] at hrow
      have hjw : j < w.length := a1' ▸ hj
      have hkw : k < (w.getD j []).length := a2' ▸ hk
      refine ⟨⟨?_, ?_, ?_⟩, ?_, ?_, ?_⟩
      · show (w.set j _).length = _
        rw [List.length_set]; exact a1'
      · show ((w.set j _).getD j []).length = _
        rw [getD_set_self _ _ _ _ hjw, List.length_set]; exact a2'
      · intro j1 hj1
        show (w.set j _).getD j1 [] = _
        rw [getD_set_ne _ _ _ _ _ (fun h => hj1 h.symm)]
        exact a3 j1 hj1
      · show (loadRow read ((w.getD j []).getD k []).length f ((w.getD j []).getD k [])).1 = _
        rw [hrow]
      · show ((w.set j ((w.getD j []).set k
          (loadRow read ((w.getD j []).getD k []).length f
            ((w.getD j []).getD k [])).2)).getD j []).getD k [] = _
        rw [getD_set_self _ _ _ _ hjw, getD_set_self _ _ _ _ hkw, hrow]
      · intro k1 hk1
        show ((w.set j ((w.getD j []).set k
          (loadRow read ((w.getD j []).getD k []).length f
            ((w.getD j []).getD k [])).2)).getD j []).getD k1 [] = _
        rw [getD_set_self _ _ _ _ hjw, getD_set_ne _ _ _ _ _ (fun h => hk1 h.symm)])
  refine ⟨f1, i1, ?_, i3⟩
  refine ext_getD _ _ [] (by rw [i2, List.length_map]) ?_
  intro k hk
  rw [getD_map_nil]
  exact c1 k (i2 ▸ hk)

theorem loadTensors_spec (read : List (FileItem α) → Option α × List (FileItem α))
    (enc : α → FileItem α) (dec : α → α)
    (hread : ∀ w rest, read (enc w :: rest) = (some (dec w), rest))
    (wa wb : List (List (List α))) (rest : List (FileItem α)) (hsh : SameShape3 wa wb) :
    loadTensors read (wa.flatten.flatten.map enc ++ rest) wb =
      (rest, wa.map (fun t => t.map (fun r => r.map dec))) := by
  unfold loadTensors
  rw [← hsh.1]
  obtain ⟨i1, f1, c1, -⟩ := fill_inv
    (fun (st : List (FileItem α) × List (List (List α))) => st.1)
    (fun (st : List (FileItem α) × List (List (List α))) k => st.2.getD k [])
    (fun (st : List (FileItem α) × List (List (List α))) => st.2.length = wb.length)
    (loadTensor read) enc List.flatten (fun t => t.map (fun r => r.map dec))
    (fun (a b : List (List α)) => a.length = b.length ∧
      ∀ k, (a.getD k []).length = (b.getD k []).length)
    wa [] (wa.flatten.flatten.map enc ++ rest, wb) rest
    (by
      have hid : wa.flatMap List.flatten = wa.flatten.flatten := by
        simp [List.flatMap_def, List.flatten_flatten]
      rw [hid])
    rfl (fun k _ => ⟨hsh.2.1 k, hsh.2.2 k⟩)
    (by
      rintro st k rest1 hk a1 hR hf
      have a1' : st.2.length = wb.length := a1
      obtain ⟨t1, t2, t3, t4⟩ := loadTensor_spec read enc dec hread k (wa.getD k []) st rest1
        (by rw [a1', ← hsh.1]; exact hk) hR.1 hR.2 hf
      exact ⟨t2.trans a1', t1, t3, t4⟩)
  refine Prod.ext f1 ?_
  refine ext_getD _ _ [] (by rw [List.length_map]; exact i1.trans hsh.1.symm) ?_
  intro k hk
  have hk1 : k < wa.length := by
    have i1' : ((List.range wa.length).foldl (loadTensor read)
      (wa.flatten.flatten.map enc ++ rest, wb)).2.length = wb.length := i1
    rw [i1', ← hsh.1] at hk
    exact hk
  have h2 : (wa.map (fun t => t.map (fun r => r.map dec))).getD k [] =
      (wa.getD k []).map (fun r => r.map dec) :=
    List.getD_map wa [] (fun t => t.map (fun r => r.map dec))
  rw [h2]
  exact c1 k hk1

theorem sameShape3_of_map_eq (wa wb : List (List (List α)))
    (h : wa.map (fun t => t.map List.length) = wb.map (fun t => t.map List.length)) :
    SameShape3 wa wb := by
  have h1 : wa.length = wb.length := by
    have := congrArg List.length h
    simpa using this
  have h2 : ∀ e, (wa.getD e []).map List.length = (wb.getD e []).map List.length := by
    intro e
    have := congrArg (fun l => l.getD e []) h
    have ha : (wa.map (fun t => t.map List.length)).getD e [] = (wa.getD e []).map List.length :=
      List.getD_map wa [] (fun t => t.map List.length)
    have hb : (wb.map (fun t => t.map List.length)).getD e [] = (wb.getD e []).map List.length :=
      List.getD_map wb [] (fun t => t.map List.length)
    exact ha.symm.trans (this.trans hb)
  refine ⟨h1, fun e => ?_, fun e i => ?_⟩
  · have := congrArg List.length (h2 e)
    simpa using this
  · have := congrArg (fun l => l.getD i 0) (h2 e)
    have ha : ((wa.getD e []).map List.length).getD i 0 = ((wa.getD e []).getD i []).length :=
      List.getD_map (wa.getD e []) [] List.length
    have hb : ((wb.getD e []).map List.length).getD i 0 = ((wb.getD e []).getD i []).length :=
      List.getD_map (wb.getD e []) [] List.length
    exact ha.symm.trans (this.trans hb)

theorem layerShapes_getD (la lb : List (LstmLayer α S)) (h : layerShapes la = layerShapes lb) :
    la.length = lb.length ∧
      ∀ k, SameShape3 ((la.map (fun ly => ly.weights)).getD k [])
        ((lb.map (fun ly => ly.weights)).getD k []) := by
  unfold layerShapes at h
  have h1 : la.length = lb.length := by
    have := congrArg List.length h
    simpa using this
  refine ⟨h1, fun k => sameShape3_of_map_eq _ _ ?_⟩
  have hk := congrArg (fun l => l.getD k []) h
  have conv : ∀ l : List (LstmLayer α S),
      (l.map (fun ly => ly.weights.map (fun t => t.map List.length))).getD k [] =
        ((l.map (fun ly => ly.weights)).getD k []).map (fun t => t.map List.length) := by
    intro l
    have e1 : l.map (fun ly => ly.weights.map (fun t => t.map List.length)) =
        (l.map (fun ly => ly.weights)).map (fun w => w.map (fun t => t.map List.length)) := by
      rw [List.map_map]; rfl
    rw [e1]
    exact List.getD_map (l.map (fun ly => ly.weights)) []
      (fun w => w.map (fun t => t.map List.length))
  exact (conv la).symm.trans (hk.trans (conv lb))

theorem loadLayers_spec (read : List (FileItem α) → Option α × List (FileItem α))
    (enc : α → FileItem α) (dec : α → α)
    (hread : ∀ w rest, read (enc w :: rest) = (some (dec w), rest))
    (la lb : List (LstmLayer α S)) (rest : List (FileItem α))
    (hsh : layerShapes la = layerShapes lb) :
    (loadLayers read ((layerWeightSeq la).map enc ++ rest) lb).1 = rest ∧
    (loadLayers read ((layerWeightSeq la).map enc ++ rest) lb).2.map (fun ly => ly.weights) =
      la.map (fun ly => ly.weights.map (fun t => t.map (fun r => r.map dec))) := by
  obtain ⟨hlen, hshape⟩ := layerShapes_getD la lb hsh
  unfold loadLayers
  have hlen' : lb.length = (la.map (fun ly => ly.weights)).length := by
    rw [List.length_map]; exact hlen.symm
  rw [hlen']
  obtain ⟨i1, f1, c1, -⟩ := fill_inv
    (fun (st : List (FileItem α) × List (LstmLayer α S)) => st.1)
    (fun (st : List (FileItem α) × List (LstmLayer α S)) k =>
      (st.2.map (fun ly => ly.weights)).getD k [])
    (fun (st : List (FileItem α) × List (LstmLayer α S)) => st.2.length = lb.length)
    (loadLayer read) enc (fun w => w.flatten.flatten)
    (fun w => w.map (fun t => t.map (fun r => r.map dec)))
    (fun (a b : List (List (List α))) => SameShape3 a b)
    (la.map (fun ly => ly.weights)) [] ((layerWeightSeq la).map enc ++ rest, lb) rest
    (by
      show _ = List.map enc ((la.map (fun ly => ly.weights)).flatMap
        (fun w => w.flatten.flatten)) ++ rest
      rw [List.flatMap_map]
      rfl)
    rfl (fun k _ => hshape k)
    (by
      rintro ⟨f, ls⟩ k rest1 hk a1 hR hf
      have a1' : ls.length = lb.length := a1
      have hk1 : k < ls.length := by
        rw [a1', hlen']; exact hk
      have hsome : ls[k]? = some ls[k] := List.getElem?_eq_getElem hk1
      have hcomp : (ls.map (fun ly => ly.weights)).getD k [] = ls[k].weights := by
        rw [List.getD_eq_getElem _ _ (by simpa using hk1), List.getElem_map]
      have hR1 : SameShape3 ((la.map (fun ly => ly.weights)).getD k []) ls[k].weights := by
        rw [← hcomp]; exact hR
      have hf1 : f = ((la.map (fun ly => ly.weights)).getD k []).flatten.flatten.map enc ++
          rest1 := hf
      have hT := loadTensors_spec read enc dec hread _ _ rest1 hR1
      rw [← hf1] at hT
      have hbody : loadLayer read (f, ls) k =
          ((loadTensors read f ls[k].weights).1,
            ls.set k { ls[k] with weights := (loadTensors read f ls[k].weights).2 }) := by
        unfold loadLayer
        simp only [hsome]
      rw [hbody, hT]
      refine ⟨?_, rfl, ?_, ?_⟩
      · show (ls.set k _).length = _
        rw [List.length_set]; exact a1'
      · show ((ls.set k _).map (fun ly => ly.weights)).getD k [] = _
        rw [List.map_set, getD_set_self _ _ _ _ (by simpa using hk1)]
      · intro k1 hk1'
        show ((ls.set k _).map (fun ly => ly.weights)).getD k1 [] = _
        rw [List.map_set, getD_set_ne _ _ _ _ _ (fun h => hk1' h.symm)])
  generalize (List.range (la.map (fun ly => ly.weights)).length).foldl (loadLayer read)
    ((layerWeightSeq la).map enc ++ rest, lb) = L at i1 f1 c1 ⊢
  refine ⟨f1, ?_⟩
  have i1' : L.2.length = lb.length := i1
  have hgoal : la.map (fun ly => ly.weights.map (fun t => t.map (fun r => r.map dec))) =
      (la.map (fun ly => ly.weights)).map (fun w => w.map (fun t => t.map (fun r => r.map dec))) := by
    rw [List.map_map]; rfl
  rw [hgoal]
  refine ext_getD _ _ [] (by rw [List.length_map, List.length_map, List.length_map, i1', hlen]) ?_
  intro k hk
  have hk1 : k < (la.map (fun ly => ly.weights)).length := by
    rw [List.length_map] at hk ⊢
    rw [i1', ← hlen] at hk
    exact hk
  have h2 : ((la.map (fun ly => ly.weights)).map
      (fun w => w.map (fun t => t.map (fun r => r.map dec)))).getD k [] =
      ((la.map (fun ly => ly.weights)).getD k []).map (fun t => t.map (fun r => r.map dec)) :=
    List.getD_map (la.map (fun ly => ly.weights)) []
      (fun w => w.map (fun t => t.map (fun r => r.map dec)))
  rw [h2]
  exact c1 k hk1

theorem sameShape3_set_row (m : List (List (List α))) (e i : Nat) (row : List α)
    (hrow : row.length = ((m.getD e []).getD i []).length) :
    SameShape3 (m.set e ((m.getD e []).set i row)) m := by
  refine ⟨List.length_set _ _ _, fun e1 => ?_, fun e1 i1 => ?_⟩
  · exact length_getD_set m e e1 _ (by simp)
  · rw [getD_set]
    by_cases h1 : e = e1 ∧ e < m.length
    · obtain ⟨h1a, h2⟩ := h1
      subst h1a
      rw [if_pos ⟨rfl, h2⟩]
      exact length_getD_set _ i i1 _ hrow
    · rw [if_neg h1]

theorem loadOutputLayer_spec (read : List (FileItem α) → Option α × List (FileItem α))
    (enc : α → FileItem α) (dec : α → α)
    (hread : ∀ w rest, read (enc w :: rest) = (some (dec w), rest))
    (b : Lstm α S) (rows : List (List α)) (rest : List (FileItem α)) (hw : WellSized b)
    (hrows : rows.length = b.output_size)
    (hcols : ∀ i, i < b.output_size →
      (rows.getD i []).length = b.num_cells * b.layers.length + 1) :
    (loadOutputLayer read b (rows.flatten.map enc ++ rest)).1 = rest ∧
    SameShape3 (loadOutputLayer read b (rows.flatten.map enc ++ rest)).2 b.output_layer ∧
    (loadOutputLayer read b (rows.flatten.map enc ++ rest)).2.getD (lastEpoch b) [] =
      rows.map (fun r => r.map dec) ∧
    ∀ e, e ≠ lastEpoch b →
      (loadOutputLayer read b (rows.flatten.map enc ++ rest)).2.getD e [] =
        b.output_layer.getD e [] := by
  have hl := lastEpoch_lt b hw.epoch_lt
  have h0 : 0 < b.horizon := Nat.lt_of_le_of_lt (Nat.zero_le _) hw.epoch_lt
  unfold loadOutputLayer
  rw [← hrows]
  obtain ⟨⟨i1, i2⟩, f1, c1, -⟩ := fill_inv
    (fun (st : List (FileItem α) × List (List (List α))) => st.1)
    (fun (st : List (FileItem α) × List (List (List α))) k =>
      (st.2.getD (lastEpoch b) []).getD k [])
    (fun (st : List (FileItem α) × List (List (List α))) =>
      SameShape3 st.2 b.output_layer ∧
        ∀ e, e ≠ lastEpoch b → st.2.getD e [] = b.output_layer.getD e [])
    (loadOutputRow read (lastEpoch b)) enc (fun r => r) (fun r => r.map dec)
    (fun (x y : List α) => x.length = b.num_cells * b.layers.length + 1 ∧
      y.length = b.num_cells * b.layers.length + 1)
    rows [] (rows.flatten.map enc ++ rest, b.output_layer) rest
    (by
      have hid : rows.flatMap (fun r => r) = rows.flatten := by simp [List.flatMap_def]
      rw [hid])
    ⟨sameShape3_refl _, fun _ _ => rfl⟩
    (fun k hk => ⟨hcols k (hrows ▸ hk), hw.ol_cols _ k hl (hrows ▸ hk)⟩)
    (by
      rintro ⟨f, m⟩ k rest1 hk ⟨a1, a2⟩ hR hf
      have a1' : SameShape3 m b.output_layer := a1
      have hko : k < b.output_size := hrows ▸ hk
      have hf1 : f = (rows.getD k []).map enc ++ rest1 := hf
      have hn : ((m.getD 0 []).getD k []).length = b.num_cells * b.layers.length + 1 := by
        rw [a1'.2.2]; exact hw.ol_cols 0 k h0 hko
      have hR2 : ((m.getD (lastEpoch b) []).getD k []).length =
          b.num_cells * b.layers.length + 1 := hR.2
      have hrow := loadRow_full read enc dec hread (rows.getD k [])
        ((m.getD (lastEpoch b) []).getD k []) ((m.getD 0 []).getD k []).length rest1
        (hR.1.trans hn.symm) (hR2.trans hn.symm)
      rw [← hf1] at hrow
      have hlm : lastEpoch b < m.length := by rw [a1'.1, hw.ol_len]; exact hl
      have hkm : k < (m.getD (lastEpoch b) []).length := by
        rw [a1'.2.1, hw.ol_rows _ hl]; exact hko
      have hbody : loadOutputRow read (lastEpoch b) (f, m) k =
          (rest1, m.set (lastEpoch b)
            ((m.getD (lastEpoch b) []).set k ((rows.getD k []).map dec))) := by
        unfold loadOutputRow
        simp only [hrow]
      rw [hbody]
      refine ⟨⟨?_, ?_⟩, rfl, ?_, ?_⟩
      · exact sameShape3_trans
          (sameShape3_set_row m _ k _ (by rw [List.length_map, hR.1, hR2])) a1'
      · intro e he
        show (m.set (lastEpoch b) _).getD e [] = _
        rw [getD_set_ne _ _ _ _ _ (fun h => he h.symm)]
        exact a2 e he
      · show ((m.set (lastEpoch b) _).getD (lastEpoch b) []).getD k [] = _
        rw [getD_set_self _ _ _ _ hlm, getD_set_self _ _ _ _ hkm]
      · intro k1 hk1
        show ((m.set (lastEpoch b) _).getD (lastEpoch b) []).getD k1 [] = _
        rw [getD_set_self _ _ _ _ hlm, getD_set_ne _ _ _ _ _ (fun h => hk1 h.symm)])
  generalize (List.range rows.length).foldl (loadOutputRow read (lastEpoch b))
    (rows.flatten.map enc ++ rest, b.output_layer) = L at i1 i2 f1 c1 ⊢
  have i1' : SameShape3 L.2 b.output_layer := i1
  refine ⟨f1, i1', ?_, i2⟩
  refine ext_getD _ _ []
    (by rw [i1'.2.1, hw.ol_rows _ hl, List.length_map, hrows]) ?_
  intro k hk
  rw [getD_map_nil]
  exact c1 k (by rw [i1'.2.1, hw.ol_rows _ hl, ← hrows] at hk; exact hk)

theorem loadWith_spec (read : List (FileItem α) → Option α × List (FileItem α))
    (enc : α → FileItem α) (dec : α → α)
    (hread : ∀ w rest, read (enc w :: rest) = (some (dec w), rest))
    (a b : Lstm α S) (rest : List (FileItem α)) (hwa : WellSized a) (hwb : WellSized b)
    (hos : a.output_size = b.output_size) (hnc : a.num_cells = b.num_cells)
    (hsh : layerShapes a.layers = layerShapes b.layers) :
    (loadWith read b ((weightSeq a).map enc ++ rest)).1 = rest ∧
    (loadWith read b ((weightSeq a).map enc ++ rest)).2.output_layer.getD (lastEpoch b) [] =
      (a.output_layer.getD (lastEpoch a) []).map (fun r => r.map dec) ∧
    (loadWith read b ((weightSeq a).map enc ++ rest)).2.layers.map (fun ly => ly.weights) =
      a.layers.map (fun ly => ly.weights.map (fun t => t.map (fun r => r.map dec))) ∧
    (∀ e, e ≠ lastEpoch b →
      (loadWith read b ((weightSeq a).map enc ++ rest)).2.output_layer.getD e [] =
        b.output_layer.getD e []) ∧
    (loadWith read b ((weightSeq a).map enc ++ rest)).2.epoch = b.epoch := by
  have hla := lastEpoch_lt a hwa.epoch_lt
  have hlen : a.layers.length = b.layers.length := (layerShapes_getD _ _ hsh).1
  have hfile : (weightSeq a).map enc ++ rest =
      (a.output_layer.getD (lastEpoch a) []).flatten.map enc ++
        ((layerWeightSeq a.layers).map enc ++ rest) := by
    unfold weightSeq
    rw [List.map_append, List.append_assoc]
  obtain ⟨o1, -, o3, o4⟩ := loadOutputLayer_spec read enc dec hread b
    (a.output_layer.getD (lastEpoch a) []) ((layerWeightSeq a.layers).map enc ++ rest) hwb
    (by rw [hwa.ol_rows _ hla, hos])
    (fun i hi => by rw [hwa.ol_cols _ i hla (hos ▸ hi), hnc, hlen])
  rw [← hfile] at o1 o3 o4
  have l12 := loadLayers_spec read enc dec hread a.layers b.layers rest hsh
  rw [← o1] at l12
  exact ⟨l12.1, o3, l12.2, o4, rfl⟩

/-! ## C7, C9, C10: save and load -/

theorem wellSized_sampleTrained : WellSized sampleTrained :=
  (wellSized_runCalls sampleCollab sampleLstm
    [Call.perceive 1, Call.perceive 0, Call.perceive 1]
    (wellSized_new sampleCollab SIMD.SIMD_NONE 1 2 2 1 3 (1 / 10) 1 (by decide)) rfl).1

theorem SaveToDisk_raw (c : Collab α S) (exp : Int) (s : Lstm α S) (hw : WellSized s) :
    SaveToDisk c 0 exp s = some ((weightSeq s).map FileItem.block) := by
  unfold SaveToDisk
  rw [if_neg (by decide), if_neg (by decide), saveRaw_eq s [] hw, List.nil_append]

theorem saveQuantized_eq (c : Collab α S) (bits exp : Int) (s : Lstm α S)
    (file : List (FileItem α)) (hw : WellSized s) :
    saveQuantized c bits exp s file =
      file ++ FileItem.bits 8 (c.Encode 9 1 (saveScale c bits exp s)) ::
        (weightSeq s).map (fun w =>
          FileItem.bits bits.toNat (c.Encode bits exp (w / saveScale c bits exp s))) := by
  unfold saveQuantized weightSeq
  rw [forEachLayerWeight_eq, forEachOutputWeight_eq s _ _ hw]
  show List.foldl (fun f w => f ++ [FileItem.bits bits.toNat
      (c.Encode bits exp (w / saveScale c bits exp s))])
    (List.foldl (fun f w => f ++ [FileItem.bits bits.toNat
      (c.Encode bits exp (w / saveScale c bits exp s))])
      (file ++ [FileItem.bits 8 (c.Encode 9 1 (saveScale c bits exp s))]) _) _ = _
  rw [foldl_snoc_map, foldl_snoc_map, List.map_append, List.append_assoc, List.append_assoc,
    List.singleton_append]

theorem blockRead_block (w : α) (rest : List (FileItem α)) :
    blockRead (FileItem.block w :: rest) = (some (id w), rest) := rfl

theorem readQuantized_bits (c : Collab α S) (bits exp : Int) (scale : α) (code : Nat)
    (rest : List (FileItem α)) :
    readQuantized c bits exp scale (FileItem.bits bits.toNat code :: rest) =
      (some (c.Decode bits exp code * scale), rest) := by
  unfold readQuantized getBits
  simp

/-- C7: raw round trip.  For every instance `a` with `horizon >= 1`, `epoch < horizon`
and buffers of the constructed sizes, `SaveToDisk<0,0>` on `a` followed by
`LoadFromDisk<0,0>` into a freshly constructed instance `b` with identical construction
parameters (whose layers carry weight tensors of the same dimensions, as the parameters
fix them) makes the output-projection matrix of `b` at slot `horizon - 1` equal entry for
entry to that of `a` at its last completed slot `(epoch == 0 ? horizon : epoch) - 1`, and
makes every weight of every tensor of every layer of `b` equal to the corresponding weight
of `a`; the file is consumed exactly. -/
theorem C7_raw_round_trip (c : Collab α S) (a b : Lstm α S) (simd : SIMD)
    (learning_rate gradient_clip : α)
    (h1 : 1 ≤ a.horizon) (hwa : WellSized a)
    (hb : b = Lstm.new c simd a.input_size a.output_size a.num_cells a.layers.length a.horizon
      learning_rate gradient_clip)
    (hsh : layerShapes a.layers = layerShapes b.layers) :
    ∃ file b1, SaveToDisk c 0 0 a = some file ∧ LoadFromDisk c 0 0 b file = some b1 ∧
      (loadRaw b file).1 = [] ∧
      b1.output_layer.getD (a.horizon - 1) [] =
        a.output_layer.getD ((if a.epoch = 0 then a.horizon else a.epoch) - 1) [] ∧
      (∀ i j, get3 b1.output_layer (a.horizon - 1) i j =
        get3 a.output_layer ((if a.epoch = 0 then a.horizon else a.epoch) - 1) i j) ∧
      b1.layers.map (fun ly => ly.weights) = a.layers.map (fun ly => ly.weights) := by
  have hwb : WellSized b := by
    rw [hb]
    exact wellSized_new c simd _ _ _ _ _ _ _ h1
  have hos : a.output_size = b.output_size := by rw [hb]; rfl
  have hnc : a.num_cells = b.num_cells := by rw [hb]; rfl
  have hlb : lastEpoch b = a.horizon - 1 := by rw [hb]; rfl
  have hla : lastEpoch a = (if a.epoch = 0 then a.horizon else a.epoch) - 1 := by
    unfold lastEpoch
    by_cases h0 : a.epoch = 0
    · rw [if_pos h0, if_neg (by omega)]
    · rw [if_neg h0, if_pos (by omega)]
  obtain ⟨l1, l2, l3, -, -⟩ := loadWith_spec blockRead FileItem.block id blockRead_block a b []
    hwa hwb hos hnc hsh
  rw [List.append_nil] at l1 l2 l3
  have hid2 : ∀ rows : List (List α), rows.map (fun r => r.map id) = rows := by
    intro rows; simp
  have hid3 : ∀ ls : List (LstmLayer α S),
      ls.map (fun ly => ly.weights.map (fun t => t.map (fun r => r.map id))) =
        ls.map (fun ly => ly.weights) := by
    intro ls; simp
  rw [hid2, hlb, hla] at l2
  rw [hid3] at l3
  refine ⟨(weightSeq a).map FileItem.block, (loadRaw b ((weightSeq a).map FileItem.block)).2,
    SaveToDisk_raw c 0 a hwa, ?_, l1, l2, ?_, l3⟩
  · unfold LoadFromDisk
    rw [if_neg (by decide), if_neg (by decide)]
  · intro i j
    unfold get3
    rw [show (loadRaw b ((weightSeq a).map FileItem.block)).2.output_layer.getD
      (a.horizon - 1) [] = _ from l2]

theorem C7_raw_round_trip_witness :
    (1 ≤ sampleTrained.horizon ∧ WellSized sampleTrained ∧
      layerShapes sampleTrained.layers = layerShapes sampleLstm.layers) ∧
    ∃ file b1, SaveToDisk sampleCollab 0 0 sampleTrained = some file ∧
      LoadFromDisk sampleCollab 0 0 sampleLstm file = some b1 ∧
      (loadRaw sampleLstm file).1 = [] ∧
      b1.output_layer.getD (sampleTrained.horizon - 1) [] =
        sampleTrained.output_layer.getD
          ((if sampleTrained.epoch = 0 then sampleTrained.horizon
            else sampleTrained.epoch) - 1) [] ∧
      (∀ i j, get3 b1.output_layer (sampleTrained.horizon - 1) i j =
        get3 sampleTrained.output_layer
          ((if sampleTrained.epoch = 0 then sampleTrained.horizon
            else sampleTrained.epoch) - 1) i j) ∧
      b1.layers.map (fun ly => ly.weights) = sampleTrained.layers.map (fun ly => ly.weights) :=
  ⟨⟨by decide, wellSized_sampleTrained, by decide⟩,
    C7_raw_round_trip sampleCollab sampleTrained sampleLstm SIMD.SIMD_NONE (1 / 10) 1
      (by decide) wellSized_sampleTrained rfl (by decide)⟩

/-- C9, counterexample: the claim lets `bits = 17` select raw mode, but the
`static_assert` of both member templates rejects it, so neither function exists for that
argument and nothing is saved or loaded in raw mode. -/
theorem C9_bits_above_16_rejected :
    (17 : Int) > 16 ∧
    SaveToDisk sampleCollab 17 0 sampleLstm = none ∧
    SaveToDisk sampleCollab 17 0 sampleLstm ≠ some (saveRaw sampleLstm []) ∧
    LoadFromDisk sampleCollab 17 0 sampleLstm (saveRaw sampleLstm []) = none ∧
    LoadFromDisk sampleCollab 17 0 sampleLstm (saveRaw sampleLstm []) ≠
      some (loadRaw sampleLstm (saveRaw sampleLstm [])).2 := by
  have hs : SaveToDisk sampleCollab 17 0 sampleLstm = none := by
    unfold SaveToDisk
    rw [if_pos (by decide)]
  have hl : LoadFromDisk sampleCollab 17 0 sampleLstm (saveRaw sampleLstm []) = none := by
    unfold LoadFromDisk
    rw [if_pos (by decide)]
  refine ⟨by decide, hs, ?_, hl, ?_⟩
  · rw [hs]; exact fun h => Option.noConfusion h
  · rw [hl]; exact fun h => Option.noConfusion h

/-- C9, as amended: the `static_assert` admits only `0 <= bits <= 16`; any other value is
rejected.  For `bits = 0`, `SaveToDisk` and `LoadFromDisk` run their raw branch, which
writes each weight as one 4-byte block and reads each weight with `blockRead`; the
quantized branch is selected exactly when `1 <= bits <= 16`. -/
theorem C9_mode_selection (c : Collab α S) (bits exp : Int) (s : Lstm α S)
    (file : List (FileItem α)) (hw : WellSized s) :
    (bits = 0 →
      SaveToDisk c bits exp s = some (saveRaw s []) ∧
      saveRaw s [] = (weightSeq s).map FileItem.block ∧
      LoadFromDisk c bits exp s file = some (loadWith blockRead s file).2) ∧
    (1 ≤ bits ∧ bits ≤ 16 →
      SaveToDisk c bits exp s = some (saveQuantized c bits exp s []) ∧
      LoadFromDisk c bits exp s file = some (loadQuantized c bits exp s file).2) ∧
    (bits < 0 ∨ 16 < bits →
      SaveToDisk c bits exp s = none ∧ LoadFromDisk c bits exp s file = none) ∧
    ((∃ f, SaveToDisk c bits exp s = some f) ↔ (0 ≤ bits ∧ bits ≤ 16)) := by
  refine ⟨?_, ?_, ?_, ?_⟩
  · intro h0
    subst h0
    refine ⟨?_, ?_, ?_⟩
    · unfold SaveToDisk
      rw [if_neg (by decide), if_neg (by decide)]
    · rw [saveRaw_eq s [] hw, List.nil_append]
    · unfold LoadFromDisk
      rw [if_neg (by decide), if_neg (by decide)]
      rfl
  · intro hb
    constructor
    · unfold SaveToDisk
      rw [if_neg (fun h => h ⟨by omega, by omega⟩), if_pos ⟨by omega, by omega⟩]
    · unfold LoadFromDisk
      rw [if_neg (fun h => h ⟨by omega, by omega⟩), if_pos ⟨by omega, by omega⟩]
  · intro hb
    constructor
    · unfold SaveToDisk
      rw [if_pos (fun h => by omega)]
    · unfold LoadFromDisk
      rw [if_pos (fun h => by omega)]
  · unfold SaveToDisk
    constructor
    · rintro ⟨f, hf⟩
      by_contra hneg
      rw [if_pos hneg] at hf
      exact Option.noConfusion hf
    · intro hb
      rw [if_neg (fun h => h ⟨by omega, by omega⟩)]
      split_ifs
      · exact ⟨_, rfl⟩
      · exact ⟨_, rfl⟩

theorem C9_mode_selection_witness :
    WellSized sampleLstm ∧
    (SaveToDisk sampleCollab 0 3 sampleLstm = some (saveRaw sampleLstm []) ∧
      saveRaw sampleLstm [] = (weightSeq sampleLstm).map FileItem.block ∧
      LoadFromDisk sampleCollab 0 3 sampleLstm [FileItem.block 1] =
        some (loadWith blockRead sampleLstm [FileItem.block 1]).2) ∧
    (SaveToDisk sampleCollab 8 3 sampleLstm = some (saveQuantized sampleCollab 8 3 sampleLstm []) ∧
      LoadFromDisk sampleCollab 8 3 sampleLstm [FileItem.block 1] =
        some (loadQuantized sampleCollab 8 3 sampleLstm [FileItem.block 1]).2) ∧
    (SaveToDisk sampleCollab (-1) 3 sampleLstm = none ∧
      LoadFromDisk sampleCollab (-1) 3 sampleLstm [FileItem.block 1] = none) :=
  ⟨wellSized_new sampleCollab SIMD.SIMD_NONE 1 2 2 1 3 (1 / 10) 1 (by decide),
    (C9_mode_selection sampleCollab 0 3 sampleLstm [FileItem.block 1]
      (wellSized_new sampleCollab SIMD.SIMD_NONE 1 2 2 1 3 (1 / 10) 1 (by decide))).1 rfl,
    (C9_mode_selection sampleCollab 8 3 sampleLstm [FileItem.block 1]
      (wellSized_new sampleCollab SIMD.SIMD_NONE 1 2 2 1 3 (1 / 10) 1 (by decide))).2.1
      ⟨by decide, by decide⟩,
    (C9_mode_selection sampleCollab (-1) 3 sampleLstm [FileItem.block 1]
      (wellSized_new sampleCollab SIMD.SIMD_NONE 1 2 2 1 3 (1 / 10) 1 (by decide))).2.2.1
      (Or.inl (by decide))⟩

/-- C10: quantized mirror.  For `1 <= bits <= 16`, with `Encode`/`Decode` abstract and the
file a sequence of bit fields, `SaveToDisk` writes one 8-bit field holding
`Encode<9,1>(scale)` followed by exactly one `bits`-wide field `Encode<bits,exp>(w / scale)`
per weight `w` in the visiting order (output projection at `lastEpoch`, then each layer's
tensors, rows, elements); `LoadFromDisk` on an instance `b` of identical dimensions
consumes exactly those fields in the same order (nothing is left unread) and sets the
corresponding weight to `Decode<bits,exp>(field) * Decode<9,1>(first field)`. -/
theorem C10_quantized_mirror (c : Collab α S) (bits exp : Int) (a b : Lstm α S)
    (hbits : 1 ≤ bits ∧ bits ≤ 16) (hwa : WellSized a) (hwb : WellSized b)
    (hos : a.output_size = b.output_size) (hnc : a.num_cells = b.num_cells)
    (hsh : layerShapes a.layers = layerShapes b.layers) :
    ∃ file b1,
      SaveToDisk c bits exp a = some file ∧
      file = FileItem.bits 8 (c.Encode 9 1 (saveScale c bits exp a)) ::
        ((a.output_layer.getD (lastEpoch a) []).flatten ++
          a.layers.flatMap (fun ly => ly.weights.flatten.flatten)).map (fun w =>
            FileItem.bits bits.toNat (c.Encode bits exp (w / saveScale c bits exp a))) ∧
      LoadFromDisk c bits exp b file = some b1 ∧
      (loadQuantized c bits exp b file).1 = [] ∧
      b1.output_layer.getD (lastEpoch b) [] =
        (a.output_layer.getD (lastEpoch a) []).map (fun r => r.map (fun w =>
          c.Decode bits exp (c.Encode bits exp (w / saveScale c bits exp a)) *
            c.Decode 9 1 (c.Encode 9 1 (saveScale c bits exp a)))) ∧
      b1.layers.map (fun ly => ly.weights) =
        a.layers.map (fun ly => ly.weights.map (fun t => t.map (fun r => r.map (fun w =>
          c.Decode bits exp (c.Encode bits exp (w / saveScale c bits exp a)) *
            c.Decode 9 1 (c.Encode 9 1 (saveScale c bits exp a)))))) := by
  have hsave : SaveToDisk c bits exp a =
      some (FileItem.bits 8 (c.Encode 9 1 (saveScale c bits exp a)) ::
        (weightSeq a).map (fun w =>
          FileItem.bits bits.toNat (c.Encode bits exp (w / saveScale c bits exp a)))) := by
    unfold SaveToDisk
    rw [if_neg (fun h => h ⟨by omega, by omega⟩), if_pos ⟨by omega, by omega⟩,
      saveQuantized_eq c bits exp a [] hwa, List.nil_append]
  obtain ⟨l1, l2, l3, -, -⟩ := loadWith_spec
    (readQuantized c bits exp (c.Decode 9 1 (c.Encode 9 1 (saveScale c bits exp a))))
    (fun w => FileItem.bits bits.toNat (c.Encode bits exp (w / saveScale c bits exp a)))
    (fun w => c.Decode bits exp (c.Encode bits exp (w / saveScale c bits exp a)) *
      c.Decode 9 1 (c.Encode 9 1 (saveScale c bits exp a)))
    (fun w rest => readQuantized_bits c bits exp _ _ rest)
    a b [] hwa hwb hos hnc hsh
  rw [List.append_nil] at l1 l2 l3
  have hload : loadQuantized c bits exp b
      (FileItem.bits 8 (c.Encode 9 1 (saveScale c bits exp a)) ::
        (weightSeq a).map (fun w =>
          FileItem.bits bits.toNat (c.Encode bits exp (w / saveScale c bits exp a)))) =
      loadWith (readQuantized c bits exp (c.Decode 9 1 (c.Encode 9 1 (saveScale c bits exp a))))
        b ((weightSeq a).map (fun w =>
          FileItem.bits bits.toNat (c.Encode bits exp (w / saveScale c bits exp a)))) := by
    unfold loadQuantized getBits
    simp
  have hL : ∀ file, LoadFromDisk c bits exp b file =
      some (loadQuantized c bits exp b file).2 := by
    intro file
    unfold LoadFromDisk
    rw [if_neg (fun h => h ⟨by omega, by omega⟩), if_pos ⟨by omega, by omega⟩]
  rw [← hload] at l1 l2 l3
  exact ⟨_, _, hsave, rfl, hL _, l1, l2, l3⟩

theorem C10_quantized_mirror_witness :
    ((1 : Int) ≤ 8 ∧ (8 : Int) ≤ 16) ∧ WellSized sampleTrained ∧ WellSized sampleLstm ∧
    sampleTrained.output_size = sampleLstm.output_size ∧
    sampleTrained.num_cells = sampleLstm.num_cells ∧
    layerShapes sampleTrained.layers = layerShapes sampleLstm.layers ∧
    ∃ file b1,
      SaveToDisk sampleCollab 8 0 sampleTrained = some file ∧
      file = FileItem.bits 8 (sampleCollab.Encode 9 1 (saveScale sampleCollab 8 0 sampleTrained)) ::
        ((sampleTrained.output_layer.getD (lastEpoch sampleTrained) []).flatten ++
          sampleTrained.layers.flatMap (fun ly => ly.weights.flatten.flatten)).map (fun w =>
            FileItem.bits (8 : Int).toNat
              (sampleCollab.Encode 8 0 (w / saveScale sampleCollab 8 0 sampleTrained))) ∧
      LoadFromDisk sampleCollab 8 0 sampleLstm file = some b1 ∧
      (loadQuantized sampleCollab 8 0 sampleLstm file).1 = [] ∧
      b1.output_layer.getD (lastEpoch sampleLstm) [] =
        (sampleTrained.output_layer.getD (lastEpoch sampleTrained) []).map
          (fun r => r.map (fun w =>
            sampleCollab.Decode 8 0
                (sampleCollab.Encode 8 0 (w / saveScale sampleCollab 8 0 sampleTrained)) *
              sampleCollab.Decode 9 1
                (sampleCollab.Encode 9 1 (saveScale sampleCollab 8 0 sampleTrained)))) ∧
      b1.layers.map (fun ly => ly.weights) =
        sampleTrained.layers.map (fun ly => ly.weights.map (fun t => t.map (fun r =>
          r.map (fun w =>
            sampleCollab.Decode 8 0
                (sampleCollab.Encode 8 0 (w / saveScale sampleCollab 8 0 sampleTrained)) *
              sampleCollab.Decode 9 1
                (sampleCollab.Encode 9 1 (saveScale sampleCollab 8 0 sampleTrained)))))) :=
  ⟨⟨by decide, by decide⟩, wellSized_sampleTrained,
    wellSized_new sampleCollab SIMD.SIMD_NONE 1 2 2 1 3 (1 / 10) 1 (by decide),
    by decide, by decide, by decide,
    C10_quantized_mirror sampleCollab 8 0 sampleTrained sampleLstm ⟨by decide, by decide⟩
      wellSized_sampleTrained
      (wellSized_new sampleCollab SIMD.SIMD_NONE 1 2 2 1 3 (1 / 10) 1 (by decide))
      (by decide) (by decide) (by decide)⟩

/-! ## C17: the saved time step -/

theorem RestoreTimeStep_layers (s : Lstm α S) :
    (RestoreTimeStep s).layers =
      s.layers.map (fun l => { l with update_steps := s.saved_timestep }) := by
  have key : ∀ L : List (LstmLayer α S),
      (L.length = s.layers.length ∧
        ∀ i, L[i]? = if i < s.layers.length then
            (s.layers[i]?).map (fun l => { l with update_steps := s.saved_timestep })
          else s.layers[i]?) →
      L = s.layers.map (fun l => { l with update_steps := s.saved_timestep }) := by
    rintro L ⟨h1, h2⟩
    refine List.ext_getElem? ?_
    intro i
    rw [h2 i, List.getElem?_map]
    by_cases hi : i < s.layers.length
    · rw [if_pos hi]
    · rw [if_neg hi, List.getElem?_eq_none (by omega)]
      rfl
  unfold RestoreTimeStep
  refine key _ (foldl_range_inv
    (fun k (ls : List (LstmLayer α S)) => ls.length = s.layers.length ∧
      ∀ i, ls[i]? = if i < k then
          (s.layers[i]?).map (fun l => { l with update_steps := s.saved_timestep })
        else s.layers[i]?)
    _ s.layers.length s.layers ⟨rfl, fun i => by simp⟩ ?_)
  rintro k ls hk ⟨h1, h2⟩
  have hk1 : k < ls.length := h1 ▸ hk
  have hsome : ls[k]? = some ls[k] := List.getElem?_eq_getElem hk1
  have hk2 := h2 k
  rw [if_neg (Nat.lt_irrefl _), hsome] at hk2
  simp only [hsome]
  refine ⟨by rw [List.length_set]; exact h1, fun i => ?_⟩
  rw [List.getElem?_set]
  by_cases hik : k = i
  · subst hik
    rw [if_pos rfl, if_pos hk1, if_pos (Nat.lt_succ_self _), ← hk2]
    rfl
  · rw [if_neg hik, h2 i]
    by_cases hlt : i < k
    · rw [if_pos hlt, if_pos (Nat.lt_succ_of_lt hlt)]
    · rw [if_neg hlt, if_neg (by omega)]

theorem runCalls_saved_timestep (c : Collab α S) (s : Lstm α S) (calls : List (Call α)) :
    (runCalls c s calls).saved_timestep = s.saved_timestep ∧
      (runCalls c s calls).layers.length = s.layers.length := by
  unfold runCalls
  refine foldl_inv (fun (t : Lstm α S) => t.saved_timestep = s.saved_timestep ∧
    t.layers.length = s.layers.length) _ _ _ ⟨rfl, rfl⟩ ?_
  rintro t k ⟨h1, h2⟩
  cases k with
  | setInput v =>
    obtain ⟨li, e⟩ := SetInput_frame t v
    show (SetInput t v).saved_timestep = _ ∧ (SetInput t v).layers.length = _
    rw [e]
    exact ⟨h1, h2⟩
  | predict x =>
    obtain ⟨ls, hd, li, out, e, hl, -⟩ := Predict_frame c t x
    show (Predict c t x).1.saved_timestep = _ ∧ (Predict c t x).1.layers.length = _
    rw [e]
    exact ⟨h1, hl.trans h2⟩
  | perceive x =>
    obtain ⟨ls1, he1, bp1, ol1, e1, hl1, -⟩ := perceiveUpdate_frame c t x
    obtain ⟨ls, hd, li, out, e, hl, -⟩ := Predict_frame c (perceiveUpdate c t x) x
    show (Predict c (perceiveUpdate c t x) x).1.saved_timestep = _ ∧
      (Predict c (perceiveUpdate c t x) x).1.layers.length = _
    rw [e]
    refine ⟨?_, hl.trans ?_⟩
    · show (perceiveUpdate c t x).saved_timestep = _
      rw [e1]; exact h1
    · rw [e1]; exact hl1.trans h2

/-- C17: for an instance with at least one layer, `SaveTimeStep` followed, after any
intervening `SetInput`, `Predict` and `Perceive` calls, by `RestoreTimeStep` sets the
`update_steps` counter of every layer to the value the counter of layer 0 had at the
`SaveTimeStep` call; it therefore gives every layer back its own counter exactly when all
counters were equal at save time; and `RestoreTimeStep` on an instance on which
`SaveTimeStep` was never called sets every counter to 0. -/
theorem C17_time_step_round_trip (c : Collab α S) (s : Lstm α S)
    (calls calls0 : List (Call α)) (simd : SIMD)
    (input_size output_size num_cells num_layers horizon : Nat)
    (learning_rate gradient_clip : α)
    (h0 : 0 < s.layers.length) :
    (RestoreTimeStep (runCalls c (SaveTimeStep s) calls)).layers.map (fun l => l.update_steps) =
      List.replicate s.layers.length (s.layers.get ⟨0, h0⟩).update_steps ∧
    ((RestoreTimeStep (runCalls c (SaveTimeStep s) calls)).layers.map (fun l => l.update_steps) =
        s.layers.map (fun l => l.update_steps) ↔
      ∀ l, l ∈ s.layers → l.update_steps = (s.layers.get ⟨0, h0⟩).update_steps) ∧
    (RestoreTimeStep (runCalls c (Lstm.new c simd input_size output_size num_cells num_layers
        horizon learning_rate gradient_clip) calls0)).layers.map (fun l => l.update_steps) =
      List.replicate num_layers 0 := by
  have hrep : ∀ (t : Lstm α S),
      (RestoreTimeStep t).layers.map (fun l => l.update_steps) =
        List.replicate t.layers.length t.saved_timestep := by
    intro t
    rw [RestoreTimeStep_layers, List.map_map]
    exact List.eq_replicate_iff.mpr ⟨by simp, fun b hb => by
      obtain ⟨l, -, rfl⟩ := List.mem_map.mp hb
      rfl⟩
  have hsome : s.layers[0]? = some (s.layers.get ⟨0, h0⟩) := List.getElem?_eq_getElem h0
  have hsave : (SaveTimeStep s).saved_timestep = (s.layers.get ⟨0, h0⟩).update_steps ∧
      (SaveTimeStep s).layers = s.layers := by
    unfold SaveTimeStep
    simp only [hsome]
    exact ⟨trivial, trivial⟩
  obtain ⟨r1, r2⟩ := runCalls_saved_timestep c (SaveTimeStep s) calls
  have hmain : (RestoreTimeStep (runCalls c (SaveTimeStep s) calls)).layers.map
      (fun l => l.update_steps) =
      List.replicate s.layers.length (s.layers.get ⟨0, h0⟩).update_steps := by
    rw [hrep, r1, r2, hsave.1, hsave.2]
  refine ⟨hmain, ?_, ?_⟩
  · rw [hmain]
    constructor
    · intro h l hl
      exact (List.eq_replicate_iff.mp h.symm).2 (l.update_steps)
        (List.mem_map.mpr ⟨l, hl, rfl⟩)
    · intro h
      symm
      exact List.eq_replicate_iff.mpr ⟨by simp, fun b hb => by
        obtain ⟨l, hl, rfl⟩ := List.mem_map.mp hb
        exact h l hl⟩
  · obtain ⟨q1, q2⟩ := runCalls_saved_timestep c (Lstm.new c simd input_size output_size
      num_cells num_layers horizon learning_rate gradient_clip) calls0
    rw [hrep, q1, q2]
    show List.replicate ((List.range num_layers).map _).length 0 = _
    rw [List.length_map, List.length_range]

theorem C17_time_step_round_trip_witness :
    ∃ h0 : 0 < sampleTrained.layers.length,
    ((RestoreTimeStep (runCalls sampleCollab (SaveTimeStep sampleTrained)
        [Call.perceive 1, Call.perceive 0, Call.perceive 0])).layers.map
        (fun l => l.update_steps) =
      List.replicate sampleTrained.layers.length
        (sampleTrained.layers.get ⟨0, h0⟩).update_steps ∧
    ((RestoreTimeStep (runCalls sampleCollab (SaveTimeStep sampleTrained)
        [Call.perceive 1, Call.perceive 0, Call.perceive 0])).layers.map
        (fun l => l.update_steps) =
        sampleTrained.layers.map (fun l => l.update_steps) ↔
      ∀ l, l ∈ sampleTrained.layers → l.update_steps =
        (sampleTrained.layers.get ⟨0, h0⟩).update_steps) ∧
    (RestoreTimeStep (runCalls sampleCollab (Lstm.new sampleCollab SIMD.SIMD_NONE 1 2 2 1 3
        (1 / 10) 1) [Call.perceive 1])).layers.map (fun l => l.update_steps) =
      List.replicate 1 0) :=
  ⟨by decide, C17_time_step_round_trip sampleCollab sampleTrained
    [Call.perceive 1, Call.perceive 0, Call.perceive 0] [Call.perceive 1]
    SIMD.SIMD_NONE 1 2 2 1 3 (1 / 10) 1 (by decide)⟩

/-! ## C18: column sums of the output projection -/

theorem sum_error_eq_zero (out : Nat → α) (n : Nat) (x : Int) (hx : 0 ≤ x ∧ x < (n : Int))
    (hsum : Finset.sum (Finset.range n) out = 1) :
    Finset.sum (Finset.range n) (fun i => if Int.ofNat i = x then out i - 1 else out i) = 0 := by
  obtain ⟨k, rfl⟩ := Int.eq_ofNat_of_zero_le hx.1
  have hk : k < n := by exact_mod_cast hx.2
  have hrew : ∀ i, (if Int.ofNat i = (k : Int) then out i - 1 else out i) =
      out i - (if i = k then 1 else 0) := by
    intro i
    by_cases hik : i = k
    · subst hik
      rw [if_pos (show Int.ofNat i = (i : Int) from rfl), if_pos rfl]
    · have hne : ¬ Int.ofNat i = (k : Int) := fun h => hik (Int.ofNat.inj h)
      rw [if_neg hne, if_neg hik, sub_zero]
  simp only [hrew]
  rw [Finset.sum_sub_distrib, hsum, Finset.sum_ite_eq' (Finset.range n) k (fun _ => (1 : α)),
    if_pos (Finset.mem_range.mpr hk), sub_self]

theorem list_sum_eq_sum_range (l : List α) :
    l.sum = Finset.sum (Finset.range l.length) (fun i => l.getD i 0) := by
  have h := eq_map_range l 0 l.length (fun i => l.getD i 0) rfl (fun _ _ => rfl)
  rw [← sum_map_range, ← h]

/-- After a `Predict` on the scalar path the slot that the next `Perceive` takes its error
from (`lastEpoch`) holds a distribution that sums to 1. -/
theorem Predict_last_slot_sum (c : Collab α S) (s : Lstm α S) (x : Int)
    (hexp : ∀ v, 0 < c.expa v) (hw : WellSized s) (hs : s.simd = SIMD.SIMD_NONE)
    (hos : 1 ≤ s.output_size) :
    Finset.sum (Finset.range (Predict c s x).1.output_size)
      (fun i => get2 (Predict c s x).1.output (lastEpoch (Predict c s x).1) i) = 1 := by
  obtain ⟨p1, p2, -, p4⟩ := Predict_simplex c s x hexp hw hs hos
  obtain ⟨e1, e2⟩ := Predict_epoch c s x
  obtain ⟨ls, hd, li, out, e, -, -⟩ := Predict_frame c s x
  have hsz : (Predict c s x).1.output_size = s.output_size := by rw [e]
  have hlast : lastEpoch (Predict c s x).1 = s.epoch := by
    unfold lastEpoch
    rw [e1, e2]
    have := hw.epoch_lt
    by_cases h : s.epoch + 1 = s.horizon
    · rw [if_pos h, if_neg (by omega)]; omega
    · rw [if_neg h, if_pos (by omega)]; omega
  rw [hsz, hlast]
  unfold get2
  rw [← p1, ← p2, ← list_sum_eq_sum_range]
  exact p4

/-- C18: over exact arithmetic, if `output[lastEpoch]` sums to 1 and the observed symbol
`x` satisfies `0 <= x < output_size`, then the error vector of `Perceive(x)` sums to 0
and, for every column `j`, the sum over `i` of `output_layer[epoch][i][j]` after the
gradient step equals the sum over `i` of `output_layer[lastEpoch][i][j]` before it. -/
theorem C18_column_sums_conserved (c : Collab α S) (s : Lstm α S) (x : Int) (j : Nat)
    (hw : WellSized s) (hh : s.hidden.length = s.num_cells * s.layers.length + 1)
    (hsum : Finset.sum (Finset.range s.output_size)
      (fun i => get2 s.output (lastEpoch s) i) = 1)
    (hx : 0 ≤ x ∧ x < (s.output_size : Int))
    (hj : j < s.num_cells * s.layers.length + 1) :
    Finset.sum (Finset.range s.output_size) (fun i =>
      if Int.ofNat i = x then get2 s.output (lastEpoch s) i - 1
      else get2 s.output (lastEpoch s) i) = 0 ∧
    Finset.sum (Finset.range s.output_size)
        (fun i => get3 (perceiveUpdate c s x).output_layer s.epoch i j) =
      Finset.sum (Finset.range s.output_size)
        (fun i => get3 s.output_layer (lastEpoch s) i j) ∧
    Finset.sum (Finset.range s.output_size)
        (fun i => get3 (Perceive c s x).1.output_layer s.epoch i j) =
      Finset.sum (Finset.range s.output_size)
        (fun i => get3 s.output_layer (lastEpoch s) i j) := by
  have herr := sum_error_eq_zero (fun i => get2 s.output (lastEpoch s) i) s.output_size x hx hsum
  have hcol : Finset.sum (Finset.range s.output_size)
        (fun i => get3 (perceiveUpdate c s x).output_layer s.epoch i j) =
      Finset.sum (Finset.range s.output_size)
        (fun i => get3 s.output_layer (lastEpoch s) i j) := by
    have hstep : ∀ i, i ∈ Finset.range s.output_size →
        get3 (perceiveUpdate c s x).output_layer s.epoch i j =
          get3 s.output_layer (lastEpoch s) i j -
            (if Int.ofNat i = x then get2 s.output (lastEpoch s) i - 1
             else get2 s.output (lastEpoch s) i) * (s.learning_rate * s.hidden.getD j 0) := by
      intro i hi
      rw [perceiveUpdate_output_layer c s x hw hh s.epoch i j,
        if_pos ⟨rfl, Finset.mem_range.mp hi, hh ▸ hj⟩]
      ring
    rw [Finset.sum_congr rfl hstep, Finset.sum_sub_distrib, ← Finset.sum_mul, herr, zero_mul,
      sub_zero]
  refine ⟨herr, hcol, ?_⟩
  rw [Perceive_output_layer]
  exact hcol

theorem sampleTrained_last_slot_sum :
    Finset.sum (Finset.range sampleTrained.output_size)
      (fun i => get2 sampleTrained.output (lastEpoch sampleTrained) i) = 1 := by
  have hw0 : WellSized (runCalls sampleCollab sampleLstm [Call.perceive 1, Call.perceive 0]) ∧
      (runCalls sampleCollab sampleLstm [Call.perceive 1, Call.perceive 0]).simd =
        SIMD.SIMD_NONE ∧ _ :=
    wellSized_runCalls sampleCollab sampleLstm [Call.perceive 1, Call.perceive 0]
      (wellSized_new sampleCollab SIMD.SIMD_NONE 1 2 2 1 3 (1 / 10) 1 (by decide)) rfl
  obtain ⟨hw1, hs1⟩ := wellSized_perceiveUpdate sampleCollab _ 1 hw0.1
  exact Predict_last_slot_sum sampleCollab
    (perceiveUpdate sampleCollab
      (runCalls sampleCollab sampleLstm [Call.perceive 1, Call.perceive 0]) 1) 1
    (fun v => add_pos_of_pos_of_nonneg one_pos (mul_self_nonneg v)) hw1
    (hs1.trans hw0.2.1) (by decide)

theorem C18_column_sums_conserved_witness :
    (WellSized sampleTrained ∧
      sampleTrained.hidden.length = sampleTrained.num_cells * sampleTrained.layers.length + 1 ∧
      Finset.sum (Finset.range sampleTrained.output_size)
        (fun i => get2 sampleTrained.output (lastEpoch sampleTrained) i) = 1 ∧
      ((0 : Int) ≤ 1 ∧ (1 : Int) < (sampleTrained.output_size : Int)) ∧
      2 < sampleTrained.num_cells * sampleTrained.layers.length + 1) ∧
    (Finset.sum (Finset.range sampleTrained.output_size) (fun i =>
      if Int.ofNat i = 1 then get2 sampleTrained.output (lastEpoch sampleTrained) i - 1
      else get2 sampleTrained.output (lastEpoch sampleTrained) i) = 0 ∧
    Finset.sum (Finset.range sampleTrained.output_size)
        (fun i => get3 (perceiveUpdate sampleCollab sampleTrained 1).output_layer
          sampleTrained.epoch i 2) =
      Finset.sum (Finset.range sampleTrained.output_size)
        (fun i => get3 sampleTrained.output_layer (lastEpoch sampleTrained) i 2) ∧
    Finset.sum (Finset.range sampleTrained.output_size)
        (fun i => get3 (Perceive sampleCollab sampleTrained 1).1.output_layer
          sampleTrained.epoch i 2) =
      Finset.sum (Finset.range sampleTrained.output_size)
        (fun i => get3 sampleTrained.output_layer (lastEpoch sampleTrained) i 2)) :=
  ⟨⟨wellSized_sampleTrained, by decide, sampleTrained_last_slot_sum,
      ⟨by decide, by decide⟩, by decide⟩,
    C18_column_sums_conserved sampleCollab sampleTrained 1 2 wellSized_sampleTrained
      (by decide) sampleTrained_last_slot_sum ⟨by decide, by decide⟩ (by decide)⟩
/-! ## C15: ring-slot isolation -/

theorem getD_set2_ne (m : List (List α)) (e i e1 : Nat) (v : α) (h : e ≠ e1) :
    (set2 m e i v).getD e1 [] = m.getD e1 [] := by
  unfold set2
  exact getD_set_ne _ _ _ _ _ h

theorem getD_set3_ne (m : List (List (List α))) (e i j e1 : Nat) (v : α) (h : e ≠ e1) :
    (set3 m e i j v).getD e1 [] = m.getD e1 [] := by
  unfold set3
  exact getD_set_ne _ _ _ _ _ h

theorem forwardLayer_other_slots (c : Collab α S) (x : Int) (s : Lstm α S) (i e1 : Nat)
    (h : s.epoch ≠ e1) :
    (forwardLayer c x s i).layer_input.getD e1 [] = s.layer_input.getD e1 [] ∧
      (forwardLayer c x s i).epoch = s.epoch := by
  unfold forwardLayer
  cases hl : s.layers[i]? with
  | none => exact ⟨getD_set_ne _ _ _ _ _ h, rfl⟩
  | some ly =>
    refine ⟨?_, rfl⟩
    simp only []
    split_ifs
    · rw [getD_set_ne _ _ _ _ _ h, getD_set_ne _ _ _ _ _ h]
    · rw [getD_set_ne _ _ _ _ _ h]

theorem forwardAll_other_slots (c : Collab α S) (x : Int) (s : Lstm α S) (e1 : Nat)
    (h : s.epoch ≠ e1) :
    (forwardAll c x s).layer_input.getD e1 [] = s.layer_input.getD e1 [] := by
  unfold forwardAll
  have hinv := foldl_inv
    (fun (t : Lstm α S) => t.epoch = s.epoch ∧
      t.layer_input.getD e1 [] = s.layer_input.getD e1 [])
    (forwardLayer c x) (List.range s.layers.length) s ⟨rfl, rfl⟩
    (by
      rintro t i ⟨h1, h2⟩
      obtain ⟨a, b⟩ := forwardLayer_other_slots c x t i e1 (h1 ▸ h)
      exact ⟨b.trans h1, a.trans h2⟩)
  exact hinv.2

theorem SoftMaxSimdNone_other_slots (c : Collab α S) (s : Lstm α S) (e1 : Nat)
    (h : s.epoch ≠ e1) :
    (SoftMaxSimdNone c s).output.getD e1 [] = s.output.getD e1 [] := by
  show (softMaxDiv (softMaxExp c s) s.epoch _).getD e1 [] = _
  unfold softMaxDiv
  refine foldl_inv (fun (o : List (List α)) => o.getD e1 [] = s.output.getD e1 []) _ _ _ ?_ ?_
  · unfold softMaxExp
    refine foldl_inv (fun (o : List (List α)) => o.getD e1 [] = s.output.getD e1 []) _ _ _ rfl ?_
    intro o i ho
    exact (getD_set2_ne o _ _ _ _ h).trans ho
  · intro o i ho
    exact (getD_set2_ne o _ _ _ _ h).trans ho

theorem SoftMaxSimdAVX2_other_slots (c : Collab α S) (s : Lstm α S) (e1 : Nat)
    (h : s.epoch ≠ e1) :
    (SoftMaxSimdAVX2 c s).output.getD e1 [] = s.output.getD e1 [] := by
  unfold SoftMaxSimdAVX2
  split
  · rfl
  · show (List.set _ s.epoch _).getD e1 [] = _
    rw [getD_set_ne _ _ _ _ _ h]
    refine foldl_inv (fun (p : List (List α) × α) => p.1.getD e1 [] = s.output.getD e1 [])
      _ _ _ ?_ ?_
    · refine foldl_inv (fun (p : List (List α) × List α) =>
        p.1.getD e1 [] = s.output.getD e1 []) _ _ _ ?_ ?_
      · refine foldl_inv (fun (o : List (List α)) => o.getD e1 [] = s.output.getD e1 [])
          _ _ _ rfl ?_
        intro o i ho
        exact (getD_set2_ne o _ _ _ _ h).trans ho
      · intro p b hp
        refine foldl_inv (fun (o : List (List α)) => o.getD e1 [] = s.output.getD e1 [])
          _ _ _ hp ?_
        intro o k ho
        exact (getD_set2_ne o _ _ _ _ h).trans ho
    · intro p t hp
      exact (getD_set2_ne p.1 _ _ _ _ h).trans hp

theorem Predict_other_slots (c : Collab α S) (s : Lstm α S) (x : Int) (e1 : Nat)
    (h : s.epoch ≠ e1) :
    (Predict c s x).1.output.getD e1 [] = s.output.getD e1 [] ∧
      (Predict c s x).1.layer_input.getD e1 [] = s.layer_input.getD e1 [] ∧
      (Predict c s x).1.output_layer = s.output_layer ∧
      (Predict c s x).1.input_history = s.input_history := by
  obtain ⟨ls, hd, li, e0, -⟩ := forwardAll_frame c x s
  have hli := forwardAll_other_slots c x s e1 h
  have hep : (forwardAll c x s).epoch = s.epoch := by rw [e0]
  have hout : (forwardAll c x s).output = s.output := by rw [e0]
  have hol : (forwardAll c x s).output_layer = s.output_layer := by rw [e0]
  have hih : (forwardAll c x s).input_history = s.input_history := by rw [e0]
  unfold Predict
  by_cases hs : (forwardAll c x s).simd = SIMD.SIMD_AVX2
  · simp only [if_pos hs]
    obtain ⟨out, e2⟩ := SoftMaxSimdAVX2_frame c (forwardAll c x s)
    have h3 := SoftMaxSimdAVX2_other_slots c (forwardAll c x s) e1 (hep ▸ h)
    rw [e2] at h3 ⊢
    exact ⟨h3.trans (by rw [hout]), hli, hol, hih⟩
  · simp only [if_neg hs]
    obtain ⟨out, e2, -⟩ := SoftMaxSimdNone_frame c (forwardAll c x s)
    have h3 := SoftMaxSimdNone_other_slots c (forwardAll c x s) e1 (hep ▸ h)
    rw [e2] at h3 ⊢
    exact ⟨h3.trans (by rw [hout]), hli, hol, hih⟩

theorem gradStep_other_slots (s : Lstm α S) (last : Nat) (x : Int) (e1 : Nat)
    (h : s.epoch ≠ e1) :
    (gradStep s last x).output_layer.getD e1 [] = s.output_layer.getD e1 [] := by
  unfold gradStep
  refine foldl_inv (fun (o : List (List (List α))) => o.getD e1 [] = s.output_layer.getD e1 [])
    _ _ _ rfl ?_
  intro o i ho
  refine foldl_inv (fun (o : List (List (List α))) => o.getD e1 [] = s.output_layer.getD e1 [])
    _ _ _ ho ?_
  intro o1 j ho1
  exact (getD_set3_ne o1 _ _ _ _ _ h).trans ho1

/-- The state in which `Perceive` leaves the sweep section (after `if (epoch == 0) { ... }`):
up to there none of `output_layer`, `output`, `layer_input` has been written. -/
theorem perceive_after_sweep (c : Collab α S) (s : Lstm α S) (x : Int) :
    ∃ s2 : Lstm α S, perceiveUpdate c s x = gradStep s2 (lastEpoch s) x ∧
      s2.output_layer = s.output_layer ∧ s2.output = s.output ∧
      s2.layer_input = s.layer_input ∧ s2.epoch = s.epoch ∧
      s2.input_history = s.input_history.set (lastEpoch s) x := by
  refine ⟨if s.epoch = 0 then
      sweep c (s.input_history.getD (lastEpoch s) 0)
        ({ s with input_history := s.input_history.set (lastEpoch s) x } : Lstm α S)
    else ({ s with input_history := s.input_history.set (lastEpoch s) x } : Lstm α S), rfl, ?_⟩
  by_cases h0 : s.epoch = 0
  · rw [if_pos h0]
    obtain ⟨ls, he, bp, e1, -⟩ := sweep_frame c (s.input_history.getD (lastEpoch s) 0)
      ({ s with input_history := s.input_history.set (lastEpoch s) x } : Lstm α S)
    rw [e1]
    exact ⟨rfl, rfl, rfl, rfl, rfl⟩
  · rw [if_neg h0]
    exact ⟨rfl, rfl, rfl, rfl, rfl⟩

/-- C15: a `Perceive(x)` call entered with `epoch = e` (`horizon >= 1`) writes
`input_history` only at index `(e == 0 ? horizon : e) - 1`, setting it to `x`, and leaves
every slot other than `e` of `output_layer`, `output` and `layer_input` unchanged; the
writes to slot `e` happen after the sweep section, which still sees the three buffers as
they were on entry. -/
theorem C15_ring_slot_isolation (c : Collab α S) (s : Lstm α S) (x : Int) (e1 k : Nat)
    (h1 : 1 ≤ s.horizon) (h2 : s.epoch < s.horizon) (he : e1 ≠ s.epoch)
    (hk : k ≠ (if s.epoch = 0 then s.horizon else s.epoch) - 1) :
    (Perceive c s x).1.input_history =
      s.input_history.set ((if s.epoch = 0 then s.horizon else s.epoch) - 1) x ∧
    (Perceive c s x).1.input_history.getD k 0 = s.input_history.getD k 0 ∧
    (Perceive c s x).1.output_layer.getD e1 [] = s.output_layer.getD e1 [] ∧
    (Perceive c s x).1.output.getD e1 [] = s.output.getD e1 [] ∧
    (Perceive c s x).1.layer_input.getD e1 [] = s.layer_input.getD e1 [] ∧
    ∃ s2 : Lstm α S, perceiveUpdate c s x = gradStep s2 (lastEpoch s) x ∧
      s2.output_layer = s.output_layer ∧ s2.output = s.output ∧
      s2.layer_input = s.layer_input := by
  obtain ⟨s2, q1, q2, q3, q4, q5, q6⟩ := perceive_after_sweep c s x
  obtain ⟨ol, g1, -⟩ := gradStep_frame s2 (lastEpoch s) x
  have hlast : lastEpoch s = (if s.epoch = 0 then s.horizon else s.epoch) - 1 := by
    unfold lastEpoch
    by_cases h0 : s.epoch = 0
    · rw [if_pos h0, if_neg (by omega)]
    · rw [if_neg h0, if_pos (by omega)]
  have hpe : (perceiveUpdate c s x).epoch = s.epoch := by rw [q1, g1]; exact q5
  obtain ⟨p1, p2, p3, p4⟩ := Predict_other_slots c (perceiveUpdate c s x) x e1
    (by rw [hpe]; exact fun h => he h.symm)
  have hg := gradStep_other_slots s2 (lastEpoch s) x e1 (by rw [q5]; exact fun h => he h.symm)
  have hih : (Perceive c s x).1.input_history = s.input_history.set (lastEpoch s) x := by
    show (Predict c (perceiveUpdate c s x) x).1.input_history = _
    rw [p4, q1, g1]
    exact q6
  refine ⟨by rw [hih, hlast], ?_, ?_, ?_, ?_, ⟨s2, q1, q2, q3, q4⟩⟩
  · rw [hih, hlast, getD_set_ne _ _ _ _ _ (fun h => hk h.symm)]
  · show (Predict c (perceiveUpdate c s x) x).1.output_layer.getD e1 [] = _
    rw [p3, q1, hg, q2]
  · show (Predict c (perceiveUpdate c s x) x).1.output.getD e1 [] = _
    rw [p1, q1, g1]
    show s2.output.getD e1 [] = _
    rw [q3]
  · show (Predict c (perceiveUpdate c s x) x).1.layer_input.getD e1 [] = _
    rw [p2, q1, g1]
    show s2.layer_input.getD e1 [] = _
    rw [q4]

theorem C15_ring_slot_isolation_witness :
    (1 ≤ sampleTrained.horizon ∧ sampleTrained.epoch < sampleTrained.horizon ∧
      1 ≠ sampleTrained.epoch ∧
      0 ≠ (if sampleTrained.epoch = 0 then sampleTrained.horizon
        else sampleTrained.epoch) - 1) ∧
    ((Perceive sampleCollab sampleTrained 1).1.input_history =
      sampleTrained.input_history.set
        ((if sampleTrained.epoch = 0 then sampleTrained.horizon
          else sampleTrained.epoch) - 1) 1 ∧
    (Perceive sampleCollab sampleTrained 1).1.input_history.getD 0 0 =
      sampleTrained.input_history.getD 0 0 ∧
    (Perceive sampleCollab sampleTrained 1).1.output_layer.getD 1 [] =
      sampleTrained.output_layer.getD 1 [] ∧
    (Perceive sampleCollab sampleTrained 1).1.output.getD 1 [] =
      sampleTrained.output.getD 1 [] ∧
    (Perceive sampleCollab sampleTrained 1).1.layer_input.getD 1 [] =
      sampleTrained.layer_input.getD 1 [] ∧
    ∃ s2 : Lstm ℚ Unit,
      perceiveUpdate sampleCollab sampleTrained 1 = gradStep s2 (lastEpoch sampleTrained) 1 ∧
      s2.output_layer = sampleTrained.output_layer ∧ s2.output = sampleTrained.output ∧
      s2.layer_input = sampleTrained.layer_input) :=
  ⟨⟨by decide, by decide, by decide, by decide⟩,
    C15_ring_slot_isolation sampleCollab sampleTrained 1 1 0
      (by decide) (by decide) (by decide) (by decide)⟩
/-! ## C19: the slot shared by persistence and learning -/

theorem lastEpoch_eq (s : Lstm α S) :
    lastEpoch s = (if s.epoch = 0 then s.horizon else s.epoch) - 1 := by
  unfold lastEpoch
  by_cases h0 : s.epoch = 0
  · rw [if_pos h0, if_neg (by omega)]
  · rw [if_neg h0, if_pos (by omega)]

/-- What a load that finds the whole file of `a` does to `b`, and the gradient step of the
`Perceive` that follows it. -/
theorem load_then_perceive (c : Collab α S)
    (read : List (FileItem α) → Option α × List (FileItem α))
    (enc : α → FileItem α) (dec : α → α)
    (hread : ∀ w rest, read (enc w :: rest) = (some (dec w), rest))
    (a b : Lstm α S) (x : Int) (hwa : WellSized a) (hwb : WellSized b)
    (hh : b.hidden.length = b.num_cells * b.layers.length + 1)
    (hos : a.output_size = b.output_size) (hnc : a.num_cells = b.num_cells)
    (hsh : layerShapes a.layers = layerShapes b.layers) :
    lastEpoch (loadWith read b ((weightSeq a).map enc)).2 = lastEpoch b ∧
    (loadWith read b ((weightSeq a).map enc)).2.output_layer.getD (lastEpoch b) [] =
      (a.output_layer.getD (lastEpoch a) []).map (fun r => r.map dec) ∧
    (∀ e, e ≠ lastEpoch b →
      (loadWith read b ((weightSeq a).map enc)).2.output_layer.getD e [] =
        b.output_layer.getD e []) ∧
    ∀ i j, i < b.output_size → j < b.num_cells * b.layers.length + 1 →
      get3 (Perceive c (loadWith read b ((weightSeq a).map enc)).2 x).1.output_layer b.epoch i j =
        get3 (loadWith read b ((weightSeq a).map enc)).2.output_layer (lastEpoch b) i j -
          b.learning_rate *
            (if Int.ofNat i = x then get2 b.output (lastEpoch b) i - 1
             else get2 b.output (lastEpoch b) i) *
            b.hidden.getD j 0 := by
  have hla := lastEpoch_lt a hwa.epoch_lt
  have hlen : a.layers.length = b.layers.length := (layerShapes_getD _ _ hsh).1
  obtain ⟨l1, l2, l3, l4, l5⟩ := loadWith_spec read enc dec hread a b [] hwa hwb hos hnc hsh
  rw [List.append_nil] at l1 l2 l3 l4 l5
  have hfile : (weightSeq a).map enc =
      (a.output_layer.getD (lastEpoch a) []).flatten.map enc ++
        ((layerWeightSeq a.layers).map enc ++ []) := by
    unfold weightSeq
    rw [List.map_append, List.append_nil]
  obtain ⟨-, o2, -, -⟩ := loadOutputLayer_spec read enc dec hread b
    (a.output_layer.getD (lastEpoch a) []) ((layerWeightSeq a.layers).map enc ++ []) hwb
    (by rw [hwa.ol_rows _ hla, hos])
    (fun i hi => by rw [hwa.ol_cols _ i hla (hos ▸ hi), hnc, hlen])
  rw [← hfile] at o2
  generalize hB : (loadWith read b ((weightSeq a).map enc)).2 = b1 at l2 l3 l4 l5 ⊢
  have hb1 : b1 = { b with
      output_layer := (loadOutputLayer read b ((weightSeq a).map enc)).2,
      layers := b1.layers } := by
    rw [← hB]; rfl
  have hol : b1.output_layer = (loadOutputLayer read b ((weightSeq a).map enc)).2 := by
    rw [hb1]
  have hll : b1.layers.length = b.layers.length := by
    have := congrArg List.length l3
    rw [List.length_map, List.length_map] at this
    rw [this, hlen]
  have hf : b1.epoch = b.epoch ∧ b1.horizon = b.horizon ∧ b1.output = b.output ∧
      b1.hidden = b.hidden ∧ b1.learning_rate = b.learning_rate ∧
      b1.output_size = b.output_size ∧ b1.num_cells = b.num_cells := by
    rw [hb1]; exact ⟨rfl, rfl, rfl, rfl, rfl, rfl, rfl⟩
  obtain ⟨f1, f2, f3, f4, f5, f6, f7⟩ := hf
  have hlast : lastEpoch b1 = lastEpoch b := by
    unfold lastEpoch; rw [f1, f2]
  have hwb1 : WellSized b1 :=
    hwb.transfer (by rw [f1, f2]; exact hwb.epoch_lt) f2 (by rw [f3]; exact sameShape2_refl _)
      (by rw [hol]; exact o2) f6 f7 hll
  refine ⟨hlast, l2, l4, ?_⟩
  intro i j hi hj
  have h5 := perceiveUpdate_output_layer c b1 x hwb1 (by rw [f4, f7, hll]; exact hh) b1.epoch i j
  rw [if_pos ⟨rfl, by rw [f6]; exact hi, by rw [f4, hh]; exact hj⟩] at h5
  rw [Perceive_output_layer, ← f1, h5, hlast, f3, f4, f5]

/-- C19: for every state `b` with `horizon >= 1` and `epoch < horizon`, the slot of the
output projection that `SaveToDisk` reads, the slot that `LoadFromDisk` writes and the slot
`lastEpoch` from which the next `Perceive` takes the source of its gradient step are the
same index `(epoch == 0 ? horizon : epoch) - 1`; hence after `LoadFromDisk` (of a file
saved from an instance `a` of the same dimensions, in raw or in quantized mode) followed by
`Perceive(x)`, `output_layer[epoch]` equals the loaded matrix minus
`learning_rate * error * hidden`. -/
theorem C19_slot_agreement (c : Collab α S) (a b : Lstm α S) (x : Int) (bits exp : Int)
    (i j : Nat) (h1 : 1 ≤ b.horizon) (hwa : WellSized a) (hwb : WellSized b)
    (hh : b.hidden.length = b.num_cells * b.layers.length + 1)
    (hos : a.output_size = b.output_size) (hnc : a.num_cells = b.num_cells)
    (hsh : layerShapes a.layers = layerShapes b.layers)
    (hi : i < b.output_size) (hj : j < b.num_cells * b.layers.length + 1) :
    lastEpoch b = (if b.epoch = 0 then b.horizon else b.epoch) - 1 ∧
    SaveToDisk c 0 exp b =
      some (((b.output_layer.getD ((if b.epoch = 0 then b.horizon else b.epoch) - 1) []).flatten ++
        layerWeightSeq b.layers).map FileItem.block) ∧
    (∃ file b1, SaveToDisk c 0 exp a = some file ∧ LoadFromDisk c 0 exp b file = some b1 ∧
      b1.output_layer.getD ((if b.epoch = 0 then b.horizon else b.epoch) - 1) [] =
        a.output_layer.getD (lastEpoch a) [] ∧
      (∀ e, e ≠ (if b.epoch = 0 then b.horizon else b.epoch) - 1 →
        b1.output_layer.getD e [] = b.output_layer.getD e []) ∧
      lastEpoch b1 = (if b.epoch = 0 then b.horizon else b.epoch) - 1 ∧
      get3 (Perceive c b1 x).1.output_layer b.epoch i j =
        get3 b1.output_layer ((if b.epoch = 0 then b.horizon else b.epoch) - 1) i j -
          b.learning_rate *
            (if Int.ofNat i = x then
              get2 b.output ((if b.epoch = 0 then b.horizon else b.epoch) - 1) i - 1
             else get2 b.output ((if b.epoch = 0 then b.horizon else b.epoch) - 1) i) *
            b.hidden.getD j 0) ∧
    (1 ≤ bits ∧ bits ≤ 16 →
      ∃ file b1, SaveToDisk c bits exp a = some file ∧
        LoadFromDisk c bits exp b file = some b1 ∧
        b1.output_layer.getD ((if b.epoch = 0 then b.horizon else b.epoch) - 1) [] =
          (a.output_layer.getD (lastEpoch a) []).map (fun r => r.map (fun w =>
            c.Decode bits exp (c.Encode bits exp (w / saveScale c bits exp a)) *
              c.Decode 9 1 (c.Encode 9 1 (saveScale c bits exp a)))) ∧
        (∀ e, e ≠ (if b.epoch = 0 then b.horizon else b.epoch) - 1 →
          b1.output_layer.getD e [] = b.output_layer.getD e []) ∧
        lastEpoch b1 = (if b.epoch = 0 then b.horizon else b.epoch) - 1 ∧
        get3 (Perceive c b1 x).1.output_layer b.epoch i j =
          get3 b1.output_layer ((if b.epoch = 0 then b.horizon else b.epoch) - 1) i j -
            b.learning_rate *
              (if Int.ofNat i = x then
                get2 b.output ((if b.epoch = 0 then b.horizon else b.epoch) - 1) i - 1
               else get2 b.output ((if b.epoch = 0 then b.horizon else b.epoch) - 1) i) *
              b.hidden.getD j 0) := by
  have hL := lastEpoch_eq b
  rw [← hL]
  refine ⟨rfl, SaveToDisk_raw c exp b hwb, ?_, ?_⟩
  · obtain ⟨r1, r2, r3, r4⟩ := load_then_perceive c blockRead FileItem.block id blockRead_block
      a b x hwa hwb hh hos hnc hsh
    have hid2 : ∀ rows : List (List α), rows.map (fun r => r.map id) = rows := by
      intro rows; simp
    rw [hid2] at r2
    refine ⟨_, (loadRaw b ((weightSeq a).map FileItem.block)).2, SaveToDisk_raw c exp a hwa,
      ?_, r2, r3, r1, r4 i j hi hj⟩
    unfold LoadFromDisk
    rw [if_neg (by decide), if_neg (by decide)]
  · intro hbits
    have hsave : SaveToDisk c bits exp a =
        some (FileItem.bits 8 (c.Encode 9 1 (saveScale c bits exp a)) ::
          (weightSeq a).map (fun w =>
            FileItem.bits bits.toNat (c.Encode bits exp (w / saveScale c bits exp a)))) := by
      unfold SaveToDisk
      rw [if_neg (fun h => h ⟨by omega, by omega⟩), if_pos ⟨by omega, by omega⟩,
        saveQuantized_eq c bits exp a [] hwa, List.nil_append]
    obtain ⟨r1, r2, r3, r4⟩ := load_then_perceive c
      (readQuantized c bits exp (c.Decode 9 1 (c.Encode 9 1 (saveScale c bits exp a))))
      (fun w => FileItem.bits bits.toNat (c.Encode bits exp (w / saveScale c bits exp a)))
      (fun w => c.Decode bits exp (c.Encode bits exp (w / saveScale c bits exp a)) *
        c.Decode 9 1 (c.Encode 9 1 (saveScale c bits exp a)))
      (fun w rest => readQuantized_bits c bits exp _ _ rest)
      a b x hwa hwb hh hos hnc hsh
    have hload : loadQuantized c bits exp b
        (FileItem.bits 8 (c.Encode 9 1 (saveScale c bits exp a)) ::
          (weightSeq a).map (fun w =>
            FileItem.bits bits.toNat (c.Encode bits exp (w / saveScale c bits exp a)))) =
        loadWith (readQuantized c bits exp (c.Decode 9 1 (c.Encode 9 1 (saveScale c bits exp a))))
          b ((weightSeq a).map (fun w =>
            FileItem.bits bits.toNat (c.Encode bits exp (w / saveScale c bits exp a)))) := by
      unfold loadQuantized getBits
      simp
    have hL2 : ∀ file, LoadFromDisk c bits exp b file =
        some (loadQuantized c bits exp b file).2 := by
      intro file
      unfold LoadFromDisk
      rw [if_neg (fun h => h ⟨by omega, by omega⟩), if_pos ⟨by omega, by omega⟩]
    have r4' := r4 i j hi hj
    rw [← hload] at r1 r2 r3 r4'
    exact ⟨_, _, hsave, hL2 _, r2, r3, r1, r4'⟩

theorem C19_slot_agreement_witness :
    (1 ≤ sampleLstm.horizon ∧ WellSized sampleTrained ∧ WellSized sampleLstm ∧
      sampleLstm.hidden.length = sampleLstm.num_cells * sampleLstm.layers.length + 1 ∧
      sampleTrained.output_size = sampleLstm.output_size ∧
      sampleTrained.num_cells = sampleLstm.num_cells ∧
      layerShapes sampleTrained.layers = layerShapes sampleLstm.layers ∧
      1 < sampleLstm.output_size ∧ 2 < sampleLstm.num_cells * sampleLstm.layers.length + 1) ∧
    ∃ file b1, SaveToDisk sampleCollab 0 0 sampleTrained = some file ∧
      LoadFromDisk sampleCollab 0 0 sampleLstm file = some b1 ∧
      b1.output_layer.getD
          ((if sampleLstm.epoch = 0 then sampleLstm.horizon else sampleLstm.epoch) - 1) [] =
        sampleTrained.output_layer.getD (lastEpoch sampleTrained) [] ∧
      (∀ e, e ≠ (if sampleLstm.epoch = 0 then sampleLstm.horizon else sampleLstm.epoch) - 1 →
        b1.output_layer.getD e [] = sampleLstm.output_layer.getD e []) ∧
      lastEpoch b1 =
        (if sampleLstm.epoch = 0 then sampleLstm.horizon else sampleLstm.epoch) - 1 ∧
      get3 (Perceive sampleCollab b1 1).1.output_layer sampleLstm.epoch 1 2 =
        get3 b1.output_layer
            ((if sampleLstm.epoch = 0 then sampleLstm.horizon else sampleLstm.epoch) - 1) 1 2 -
          sampleLstm.learning_rate *
            (if Int.ofNat 1 = 1 then
              get2 sampleLstm.output
                ((if sampleLstm.epoch = 0 then sampleLstm.horizon else sampleLstm.epoch) - 1) 1 - 1
             else get2 sampleLstm.output
                ((if sampleLstm.epoch = 0 then sampleLstm.horizon else sampleLstm.epoch) - 1) 1) *
            sampleLstm.hidden.getD 2 0 :=
  ⟨⟨by decide, wellSized_sampleTrained,
      wellSized_new sampleCollab SIMD.SIMD_NONE 1 2 2 1 3 (1 / 10) 1 (by decide),
      by decide, by decide, by decide, by decide, by decide, by decide⟩,
    (C19_slot_agreement sampleCollab sampleTrained sampleLstm 1 8 0 1 2 (by decide)
      wellSized_sampleTrained
      (wellSized_new sampleCollab SIMD.SIMD_NONE 1 2 2 1 3 (1 / 10) 1 (by decide))
      (by decide) (by decide) (by decide) (by decide) (by decide) (by decide)).2.2.1⟩
/-! ## C16: accumulation of `hidden_error` during the sweep -/

theorem foldl_set_add (f : Nat → α) (he : List α) (n : Nat) :
    ((List.range n).foldl (fun he1 j => he1.set j (he1.getD j 0 + f j)) he).length = he.length ∧
    ∀ j, ((List.range n).foldl (fun he1 j => he1.set j (he1.getD j 0 + f j)) he).getD j 0 =
      if j < n ∧ j < he.length then he.getD j 0 + f j else he.getD j 0 := by
  refine foldl_range_inv (fun k r => r.length = he.length ∧
    ∀ j, r.getD j 0 = if j < k ∧ j < he.length then he.getD j 0 + f j else he.getD j 0)
    _ n he ⟨rfl, fun j => by simp⟩ ?_
  rintro k r hk ⟨hl, hv⟩
  refine ⟨by rw [List.length_set, hl], fun j => ?_⟩
  rw [getD_set, hv j, hv k, hl]
  by_cases hjk : k = j
  · subst hjk
    by_cases hkl : k < he.length
    · rw [if_pos ⟨rfl, hkl⟩, if_neg (by omega), if_pos ⟨by omega, hkl⟩]
    · rw [if_neg (by omega), if_neg (by omega), if_neg (by omega)]
  · rw [if_neg (fun h => hjk h.1)]
    by_cases hj : j < k ∧ j < he.length
    · rw [if_pos hj, if_pos ⟨by omega, hj.2⟩]
    · rw [if_neg hj, if_neg (by omega)]

theorem accumulateError_spec (s : Lstm α S) (e l : Nat) :
    (accumulateError s e l).length = s.hidden_error.length ∧
    ∀ j, j < s.hidden_error.length →
      (accumulateError s e l).getD j 0 =
        s.hidden_error.getD j 0 +
          Finset.sum (Finset.range s.output_size) (fun i =>
            get3 s.output_layer e i (j + l * s.num_cells) *
              (if Int.ofNat i = s.input_history.getD e 0 then get2 s.output e i - 1
               else get2 s.output e i)) := by
  unfold accumulateError
  refine foldl_range_inv (fun k r => r.length = s.hidden_error.length ∧
    ∀ j, j < s.hidden_error.length → r.getD j 0 = s.hidden_error.getD j 0 +
      Finset.sum (Finset.range k) (fun i =>
        get3 s.output_layer e i (j + l * s.num_cells) *
          (if Int.ofNat i = s.input_history.getD e 0 then get2 s.output e i - 1
           else get2 s.output e i)))
    _ s.output_size s.hidden_error ⟨rfl, fun j hj => by simp⟩ ?_
  rintro k r hk ⟨hl, hv⟩
  obtain ⟨q1, q2⟩ := foldl_set_add (fun j => get3 s.output_layer e k (j + l * s.num_cells) *
    (if Int.ofNat k = s.input_history.getD e 0 then get2 s.output e k - 1
     else get2 s.output e k)) r r.length
  refine ⟨q1.trans hl, fun j hj => ?_⟩
  rw [q2 j, if_pos ⟨by omega, by omega⟩, hv j hj, Finset.sum_range_succ, add_assoc]

theorem sweepLayer_step (c : Collab α S) (old : Int) (e : Nat) (t : Lstm α S) (l : Nat)
    (ly : LstmLayer α S) (hl : t.layers[l]? = some ly) :
    sweepLayer c old e t l =
      { t with
        layers := t.layers.set l (c.BackwardPass ly ((t.layer_input.getD e []).getD l []) e l
          (if e > 0 then t.input_history.getD ((if e > 0 then e else t.horizon) - 1) 0 else old)
          (accumulateError t e l)).1
        hidden_error := (c.BackwardPass ly ((t.layer_input.getD e []).getD l []) e l
          (if e > 0 then t.input_history.getD ((if e > 0 then e else t.horizon) - 1) 0 else old)
          (accumulateError t e l)).2
        bp_calls := t.bp_calls ++ [BackwardCall.mk e l ((t.layer_input.getD e []).getD l [])
          (if e > 0 then t.input_history.getD ((if e > 0 then e else t.horizon) - 1) 0 else old)
          (accumulateError t e l)] } := by
  unfold sweepLayer
  simp only [hl]

theorem sweepSteps_frame (c : Collab α S) (old : Int) (s : Lstm α S)
    (hbp : ∀ ly inp e l sym he, (c.BackwardPass ly inp e l sym he).2.length = he.length)
    (ps : List (Nat × Nat)) :
    ∃ ls he bp, sweepSteps c old s ps =
        { s with layers := ls, hidden_error := he, bp_calls := bp } ∧
      ls.length = s.layers.length ∧ he.length = s.hidden_error.length := by
  unfold sweepSteps
  refine foldl_inv (fun t => ∃ ls he bp,
    t = { s with layers := ls, hidden_error := he, bp_calls := bp } ∧
      ls.length = s.layers.length ∧ he.length = s.hidden_error.length) _ _ _ ?_ ?_
  · exact ⟨s.layers, s.hidden_error, s.bp_calls, rfl, rfl, rfl⟩
  · rintro t p ⟨ls, he, bp, rfl, hl, hh⟩
    cases hly : ls[p.2]? with
    | none =>
      have key : ∀ t : Lstm α S, t.layers[p.2]? = none →
          sweepLayer c old p.1 t p.2 = { t with hidden_error := accumulateError t p.1 p.2 } := by
        intro t ht
        unfold sweepLayer
        simp only [ht]
      rw [key _ hly]
      exact ⟨ls, _, bp, rfl, hl, (accumulateError_spec _ p.1 p.2).1.trans hh⟩
    | some ly =>
      rw [sweepLayer_step c old p.1 _ p.2 ly hly]
      refine ⟨_, _, _, rfl, ?_, ?_⟩
      · simp only [List.length_set]
        exact hl
      · rw [hbp]
        exact (accumulateError_spec _ p.1 p.2).1.trans hh

theorem sweepEpoch_eq_steps (c : Collab α S) (old : Int) (t : Lstm α S) (e : Nat) :
    sweepEpoch c old t e =
      sweepSteps c old t ((List.range t.layers.length).reverse.map (fun l => (e, l))) := by
  unfold sweepEpoch sweepSteps
  rw [List.foldl_map]

theorem sweepEpochs_eq_steps (c : Collab α S) (old : Int) (n : Nat) (es : List Nat) :
    ∀ t : Lstm α S, t.layers.length = n →
      es.foldl (sweepEpoch c old) t =
        sweepSteps c old t (es.flatMap (fun e => (List.range n).reverse.map (fun l => (e, l)))) := by
  induction es with
  | nil => intro t _; rfl
  | cons e es ih =>
    intro t ht
    rw [List.foldl_cons, List.flatMap_cons]
    have hlen : (sweepEpoch c old t e).layers.length = n := by
      obtain ⟨ls, he, bp, e1, hl⟩ := sweepEpoch_frame c old t e
      rw [e1]
      exact hl.trans ht
    rw [ih _ hlen, sweepEpoch_eq_steps, ht]
    unfold sweepSteps
    rw [List.foldl_append]

theorem sweep_eq_steps (c : Collab α S) (old : Int) (s : Lstm α S) :
    sweep c old s =
      sweepSteps c old { s with sweeps := s.sweeps + 1 } (sweepPairs s.horizon s.layers.length) := by
  unfold sweep sweepPairs
  exact sweepEpochs_eq_steps c old s.layers.length _ _ rfl

theorem mem_sweepPairs (h n e l : Nat) (hm : (e, l) ∈ sweepPairs h n) : e < h ∧ l < n := by
  unfold sweepPairs at hm
  simp only [List.mem_flatMap, List.mem_reverse, List.mem_range, List.mem_map, Prod.mk.injEq] at hm
  obtain ⟨e1, he1, l1, hl1, rfl, rfl⟩ := hm
  exact ⟨he1, hl1⟩


/-- C16: when `Perceive(x)` runs the sweep (`epoch == 0` on entry), the sweep is the loop
body run once per `(epoch e, layer l)` pair in visiting order, and nothing in it resets
`hidden_error`: before the first pair `hidden_error` is the vector held on entry to
`Perceive`, and for the `k`-th pair the vector handed to `BackwardPass` equals, for every
`j < num_cells`, the value `hidden_error[j]` had after the previous pair (which is what the
previous `BackwardPass` returned) plus the sum over `i < output_size` of
`output_layer[e][i][j + l*num_cells] * err_e[i]`, where `err_e[i] = output[e][i] - 1` if
`i == input_history[e]` (read after slot `lastEpoch` was overwritten with `x`) and
`output[e][i]` otherwise; `hidden_error` then becomes what that `BackwardPass` returns.
Assumes `hidden_error` has `num_cells` entries and `BackwardPass` keeps its length. -/
theorem C16_hidden_error_accumulation (c : Collab α S) (s : Lstm α S) (x : Int)
    (h0 : s.epoch = 0) (hlen : s.hidden_error.length = s.num_cells)
    (hbp : ∀ ly inp e l sym he, (c.BackwardPass ly inp e l sym he).2.length = he.length) :
    perceiveUpdate c s x =
      gradStep (sweepSteps c (s.input_history.getD (lastEpoch s) 0) (sweepEntry s x)
        (sweepPairs s.horizon s.layers.length)) (lastEpoch s) x ∧
    (sweepSteps c (s.input_history.getD (lastEpoch s) 0) (sweepEntry s x)
      ((sweepPairs s.horizon s.layers.length).take 0)).hidden_error = s.hidden_error ∧
    ∀ k e l, (sweepPairs s.horizon s.layers.length)[k]? = some (e, l) →
      ∃ ly call,
        (sweepSteps c (s.input_history.getD (lastEpoch s) 0) (sweepEntry s x)
          ((sweepPairs s.horizon s.layers.length).take k)).layers[l]? = some ly ∧
        (sweepSteps c (s.input_history.getD (lastEpoch s) 0) (sweepEntry s x)
          ((sweepPairs s.horizon s.layers.length).take (k + 1))).bp_calls =
          (sweepSteps c (s.input_history.getD (lastEpoch s) 0) (sweepEntry s x)
            ((sweepPairs s.horizon s.layers.length).take k)).bp_calls ++ [call] ∧
        call.epoch = e ∧ call.layer = l ∧
        (sweepSteps c (s.input_history.getD (lastEpoch s) 0) (sweepEntry s x)
          ((sweepPairs s.horizon s.layers.length).take (k + 1))).hidden_error =
          (c.BackwardPass ly call.input e l call.input_symbol call.hidden_error).2 ∧
        call.hidden_error.length = s.num_cells ∧
        ∀ j, j < s.num_cells →
          call.hidden_error.getD j 0 =
            (sweepSteps c (s.input_history.getD (lastEpoch s) 0) (sweepEntry s x)
              ((sweepPairs s.horizon s.layers.length).take k)).hidden_error.getD j 0 +
            Finset.sum (Finset.range s.output_size) (fun i =>
              get3 s.output_layer e i (j + l * s.num_cells) *
                (if Int.ofNat i = (s.input_history.set (lastEpoch s) x).getD e 0
                 then get2 s.output e i - 1 else get2 s.output e i)) := by
  refine ⟨?_, rfl, ?_⟩
  · unfold perceiveUpdate
    simp only [if_pos h0]
    rw [sweep_eq_steps]
    rfl
  · intro k e l hk
    have hmem : (e, l) ∈ sweepPairs s.horizon s.layers.length := List.getElem?_mem hk
    obtain ⟨he1, hl1⟩ := mem_sweepPairs _ _ _ _ hmem
    have htake : (sweepPairs s.horizon s.layers.length).take (k + 1) =
        (sweepPairs s.horizon s.layers.length).take k ++ [(e, l)] := by
      rw [List.take_succ, hk]
      rfl
    obtain ⟨ls, he, bp, ht, hls, hhe⟩ := sweepSteps_frame c
      (s.input_history.getD (lastEpoch s) 0) (sweepEntry s x) hbp
      ((sweepPairs s.horizon s.layers.length).take k)
    have hstep : sweepSteps c (s.input_history.getD (lastEpoch s) 0) (sweepEntry s x)
        ((sweepPairs s.horizon s.layers.length).take (k + 1)) =
        sweepLayer c (s.input_history.getD (lastEpoch s) 0) e
          (sweepSteps c (s.input_history.getD (lastEpoch s) 0) (sweepEntry s x)
            ((sweepPairs s.horizon s.layers.length).take k)) l := by
      rw [htake]
      unfold sweepSteps
      rw [List.foldl_append]
      rfl
    have hll : l < ls.length := by
      rw [hls]
      exact hl1
    have hsome : (sweepSteps c (s.input_history.getD (lastEpoch s) 0) (sweepEntry s x)
        ((sweepPairs s.horizon s.layers.length).take k)).layers[l]? = some (ls.get ⟨l, hll⟩) := by
      rw [ht]
      exact List.getElem?_eq_getElem hll
    rw [hstep, sweepLayer_step c _ e _ l _ hsome]
    obtain ⟨a1, a2⟩ := accumulateError_spec
      (sweepSteps c (s.input_history.getD (lastEpoch s) 0) (sweepEntry s x)
        ((sweepPairs s.horizon s.layers.length).take k)) e l
    have hlen2 : (sweepSteps c (s.input_history.getD (lastEpoch s) 0) (sweepEntry s x)
        ((sweepPairs s.horizon s.layers.length).take k)).hidden_error.length = s.num_cells := by
      rw [ht]
      exact hhe.trans hlen
    refine ⟨ls.get ⟨l, hll⟩, _, hsome, rfl, rfl, rfl, rfl, a1.trans hlen2, fun j hj => ?_⟩
    have a3 := a2 j (by rw [hlen2]; exact hj)
    rw [ht] at a3 ⊢
    exact a3

theorem C16_hidden_error_accumulation_witness :
    (sampleLstm.epoch = 0 ∧ sampleLstm.hidden_error.length = sampleLstm.num_cells ∧
      ∀ ly inp e l sym he,
        (sampleCollab.BackwardPass ly inp e l sym he).2.length = he.length) ∧
    (perceiveUpdate sampleCollab sampleLstm 1 =
      gradStep (sweepSteps sampleCollab (sampleLstm.input_history.getD (lastEpoch sampleLstm) 0) (sweepEntry sampleLstm 1)
        (sweepPairs sampleLstm.horizon sampleLstm.layers.length)) (lastEpoch sampleLstm) 1 ∧
    (sweepSteps sampleCollab (sampleLstm.input_history.getD (lastEpoch sampleLstm) 0) (sweepEntry sampleLstm 1)
      ((sweepPairs sampleLstm.horizon sampleLstm.layers.length).take 0)).hidden_error = sampleLstm.hidden_error ∧
    ∀ k e l, (sweepPairs sampleLstm.horizon sampleLstm.layers.length)[k]? = some (e, l) →
      ∃ ly call,
        (sweepSteps sampleCollab (sampleLstm.input_history.getD (lastEpoch sampleLstm) 0) (sweepEntry sampleLstm 1)
          ((sweepPairs sampleLstm.horizon sampleLstm.layers.length).take k)).layers[l]? = some ly ∧
        (sweepSteps sampleCollab (sampleLstm.input_history.getD (lastEpoch sampleLstm) 0) (sweepEntry sampleLstm 1)
          ((sweepPairs sampleLstm.horizon sampleLstm.layers.length).take (k + 1))).bp_calls =
          (sweepSteps sampleCollab (sampleLstm.input_history.getD (lastEpoch sampleLstm) 0) (sweepEntry sampleLstm 1)
            ((sweepPairs sampleLstm.horizon sampleLstm.layers.length).take k)).bp_calls ++ [call] ∧
        call.epoch = e ∧ call.layer = l ∧
        (sweepSteps sampleCollab (sampleLstm.input_history.getD (lastEpoch sampleLstm) 0) (sweepEntry sampleLstm 1)
          ((sweepPairs sampleLstm.horizon sampleLstm.layers.length).take (k + 1))).hidden_error =
          (sampleCollab.BackwardPass ly call.input e l call.input_symbol call.hidden_error).2 ∧
        call.hidden_error.length = sampleLstm.num_cells ∧
        ∀ j, j < sampleLstm.num_cells →
          call.hidden_error.getD j 0 =
            (sweepSteps sampleCollab (sampleLstm.input_history.getD (lastEpoch sampleLstm) 0) (sweepEntry sampleLstm 1)
              ((sweepPairs sampleLstm.horizon sampleLstm.layers.length).take k)).hidden_error.getD j 0 +
            Finset.sum (Finset.range sampleLstm.output_size) (fun i =>
              get3 sampleLstm.output_layer e i (j + l * sampleLstm.num_cells) *
                (if Int.ofNat i = (sampleLstm.input_history.set (lastEpoch sampleLstm) 1).getD e 0
                 then get2 sampleLstm.output e i - 1 else get2 sampleLstm.output e i))) :=
  ⟨⟨by decide, by decide, fun ly inp e l sym he => List.length_map _ _⟩,
    C16_hidden_error_accumulation sampleCollab sampleLstm 1 (by decide) (by decide)
      (fun ly inp e l sym he => List.length_map _ _)⟩

/-! ## C13: the vectorized softmax against the scalar one -/

theorem sum_zipWith_add (a : List α) :
    ∀ b : List α, a.length = b.length →
      (List.zipWith (fun x y => x + y) a b).length = a.length ∧
      (List.zipWith (fun x y => x + y) a b).sum = a.sum + b.sum := by
  induction a with
  | nil =>
    intro b hb
    cases b with
    | nil => simp
    | cons y ys => simp at hb
  | cons x xs ih =>
    intro b hb
    cases b with
    | nil => simp at hb
    | cons y ys =>
      have hxy : xs.length = ys.length := by simpa using hb
      have h := ih ys hxy
      refine ⟨by simp [hxy], ?_⟩
      rw [List.zipWith_cons_cons, List.sum_cons, List.sum_cons, List.sum_cons, h.2]
      ring

theorem foldl_set2_offset (h : Nat → α) (m : List (List α)) (e off n : Nat)
    (he : e < m.length) (hn : off + n ≤ (m.getD e []).length) :
    SameShape2 ((List.range n).foldl (fun o k => set2 o e (off + k) (h k)) m) m ∧
    ∀ i1, get2 ((List.range n).foldl (fun o k => set2 o e (off + k) (h k)) m) e i1 =
      if off ≤ i1 ∧ i1 < off + n then h (i1 - off) else get2 m e i1 := by
  refine foldl_range_inv (fun k r => SameShape2 r m ∧ ∀ i1, get2 r e i1 =
      if off ≤ i1 ∧ i1 < off + k then h (i1 - off) else get2 m e i1) _ n m ?_ ?_
  · exact ⟨sameShape2_refl m, fun i1 => by rw [if_neg (by omega)]⟩
  · rintro k r hk ⟨hsh, hg⟩
    refine ⟨sameShape2_trans (sameShape2_set2 r _ _ _) hsh, fun i1 => ?_⟩
    have hb1 : e < r.length := hsh.1 ▸ he
    have hb2 : off + k < (r.getD e []).length := by rw [hsh.2]; omega
    rw [get2_set2, hg]
    by_cases h2 : off + k = i1
    · subst h2
      rw [if_pos ⟨rfl, rfl, hb1, hb2⟩, if_pos ⟨by omega, by omega⟩, Nat.add_sub_cancel_left]
    · rw [if_neg (fun hh => h2 hh.2.1)]
      by_cases h4 : off ≤ i1 ∧ i1 < off + k
      · rw [if_pos h4, if_pos ⟨h4.1, by omega⟩]
      · rw [if_neg h4, if_neg (by omega)]

theorem SoftMaxSimdAVX2_spec (c : Collab α S) (s : Lstm α S) (hx : c.x86 = true)
    (hdot : ∀ a b n, c.dot256_ps_fma3 a b n 0 = SumOfProducts a b n)
    (hexp : ∀ v, c.exp256_ps_fma3 v = v.map c.expa)
    (hsum : ∀ v, v.length = 8 → c.hsum256_ps_avx v = v.sum)
    (he : s.epoch < s.output.length)
    (hn : (s.output.getD s.epoch []).length = s.output_size) :
    (SoftMaxSimdAVX2 c s).output.getD s.epoch [] =
      softmaxOf c s.hidden s.output_layer s.epoch s.output_size := by
  have hlim : s.output_size - s.output_size % 8 + s.output_size % 8 = s.output_size :=
    Nat.sub_add_cancel (Nat.mod_le _ _)
  have hblk : (s.output_size - s.output_size % 8) / 8 * 8 = s.output_size - s.output_size % 8 := by
    omega
  -- what the remainder loop establishes is enough for the final division
  have key3 : ∀ r : List (List α) × α,
      (SameShape2 r.1 s.output ∧
        (∀ i, i < s.output_size - s.output_size % 8 + s.output_size % 8 →
          get2 r.1 s.epoch i = expDot c s.hidden s.output_layer s.epoch i) ∧
        r.2 = Finset.sum (Finset.range (s.output_size - s.output_size % 8 + s.output_size % 8))
          (fun k => expDot c s.hidden s.output_layer s.epoch k)) →
      (r.1.set s.epoch ((r.1.getD s.epoch []).map (fun x => x / r.2))).getD s.epoch [] =
        softmaxOf c s.hidden s.output_layer s.epoch s.output_size := by
    rintro r ⟨hsh, hg, hs⟩
    rw [hlim] at hg hs
    rw [getD_set_self _ _ _ _ (hsh.1 ▸ he)]
    unfold softmaxOf
    refine eq_map_range _ 0 _ _ ?_ ?_
    · rw [List.length_map, hsh.2, hn]
    · intro i hi
      have hi2 : i < (r.1.getD s.epoch []).length := by rw [hsh.2, hn]; exact hi
      rw [List.getD_eq_getElem _ _ (by rw [List.length_map]; exact hi2), List.getElem_map,
        ← List.getD_eq_getElem _ (0 : α) hi2, ← hs]
      exact congrArg (fun v => v / r.2) (hg i hi)
  -- what the block loop establishes is enough to enter the remainder loop
  have key2 : ∀ r : List (List α) × List α,
      (SameShape2 r.1 s.output ∧
        (∀ i, i < s.output_size - s.output_size % 8 →
          get2 r.1 s.epoch i =
            if i < (s.output_size - s.output_size % 8) / 8 * 8 then
              expDot c s.hidden s.output_layer s.epoch i
            else SumOfProducts s.hidden ((s.output_layer.getD s.epoch []).getD i [])
              s.hidden.length) ∧
        r.2.length = 8 ∧
        r.2.sum = Finset.sum (Finset.range ((s.output_size - s.output_size % 8) / 8 * 8))
          (fun k => expDot c s.hidden s.output_layer s.epoch k)) →
      (SameShape2 r.1 s.output ∧
        (∀ i, i < s.output_size - s.output_size % 8 + 0 →
          get2 r.1 s.epoch i = expDot c s.hidden s.output_layer s.epoch i) ∧
        c.hsum256_ps_avx r.2 =
          Finset.sum (Finset.range (s.output_size - s.output_size % 8 + 0))
            (fun k => expDot c s.hidden s.output_layer s.epoch k)) := by
    rintro r ⟨hsh, hg, hl, hs⟩
    rw [hblk] at hg hs
    refine ⟨hsh, fun i hi => ?_, ?_⟩
    · rw [hg i hi, if_pos (show i < s.output_size - s.output_size % 8 from hi)]
    · rw [hsum _ hl, hs]
      rfl
  unfold SoftMaxSimdAVX2
  rw [if_neg (by rw [hx]; decide)]
  dsimp only
  simp only [hdot, hexp]
  refine key3 _ (foldl_range_inv
    (fun t (r : List (List α) × α) => SameShape2 r.1 s.output ∧
      (∀ i, i < s.output_size - s.output_size % 8 + t →
        get2 r.1 s.epoch i = expDot c s.hidden s.output_layer s.epoch i) ∧
      r.2 = Finset.sum (Finset.range (s.output_size - s.output_size % 8 + t))
        (fun k => expDot c s.hidden s.output_layer s.epoch k)) _ _ _ ?_ ?_)
  · refine key2 _ (foldl_range_inv
      (fun b (r : List (List α) × List α) => SameShape2 r.1 s.output ∧
        (∀ i, i < s.output_size - s.output_size % 8 →
          get2 r.1 s.epoch i =
            if i < b * 8 then expDot c s.hidden s.output_layer s.epoch i
            else SumOfProducts s.hidden ((s.output_layer.getD s.epoch []).getD i [])
              s.hidden.length) ∧
        r.2.length = 8 ∧
        r.2.sum = Finset.sum (Finset.range (b * 8))
          (fun k => expDot c s.hidden s.output_layer s.epoch k)) _ _ _ ?_ ?_)
    · obtain ⟨q1, q2⟩ := foldl_set2_spec
        (fun i _ => SumOfProducts s.hidden ((s.output_layer.getD s.epoch []).getD i [])
          s.hidden.length)
        s.output s.epoch (s.output_size - s.output_size % 8) he (by omega)
      refine ⟨q1, fun i hi => ?_, by simp, by simp⟩
      rw [if_neg (by omega)]
      have q3 := q2 s.epoch i
      rw [if_pos ⟨rfl, hi⟩] at q3
      exact q3
    · rintro b r hb ⟨hsh, hg, hl, hs⟩
      have hb8 : b * 8 + 8 ≤ s.output_size - s.output_size % 8 := by omega
      have hv : (List.range 8).map (fun k => get2 r.1 s.epoch (b * 8 + k)) =
          (List.range 8).map (fun k =>
            SumOfProducts s.hidden ((s.output_layer.getD s.epoch []).getD (b * 8 + k) [])
              s.hidden.length) := by
        refine List.map_congr_left (fun k hk => ?_)
        have hk8 : k < 8 := List.mem_range.mp hk
        rw [hg _ (by omega), if_neg (by omega)]
      obtain ⟨q1, q2⟩ := foldl_set2_offset
        (fun k => (((List.range 8).map (fun k => get2 r.1 s.epoch (b * 8 + k))).map c.expa).getD k 0)
        r.1 s.epoch (b * 8) 8 (hsh.1 ▸ he) (by rw [hsh.2, hn]; omega)
      obtain ⟨z1, z2⟩ := sum_zipWith_add r.2
        (((List.range 8).map (fun k => get2 r.1 s.epoch (b * 8 + k))).map c.expa) (by simp [hl])
      refine ⟨sameShape2_trans q1 hsh, fun i hi => ?_, z1.trans hl, ?_⟩
      · have q3 := q2 i
        refine q3.trans ?_
        by_cases hi1 : b * 8 ≤ i ∧ i < b * 8 + 8
        · rw [if_pos hi1, if_pos (by omega), hv, List.map_map,
            getD_map_range _ _ _ _ (by omega)]
          show expDot c s.hidden s.output_layer s.epoch (b * 8 + (i - b * 8)) = _
          rw [Nat.add_sub_cancel' hi1.1]
        · rw [if_neg hi1, hg i hi]
          by_cases hi2 : i < b * 8
          · rw [if_pos hi2, if_pos (by omega)]
          · rw [if_neg hi2, if_neg (by omega)]
      · refine z2.trans ?_
        rw [hs, hv, List.map_map, sum_map_range, Nat.succ_mul, Finset.sum_range_add]
        rfl
  · rintro t r ht ⟨hsh, hg, hs⟩
    have hidx : s.output_size - (s.output_size % 8 - t) =
        s.output_size - s.output_size % 8 + t := by omega
    have hget : get2 (set2 r.1 s.epoch (s.output_size - s.output_size % 8 + t)
        (expDot c s.hidden s.output_layer s.epoch (s.output_size - s.output_size % 8 + t)))
        s.epoch (s.output_size - s.output_size % 8 + t) =
        expDot c s.hidden s.output_layer s.epoch (s.output_size - s.output_size % 8 + t) := by
      rw [get2_set2, if_pos ⟨rfl, rfl, hsh.1 ▸ he, by rw [hsh.2, hn]; omega⟩]
    dsimp only
    rw [hidx]
    refine ⟨sameShape2_trans (sameShape2_set2 _ _ _ _) hsh, fun i hi => ?_, ?_⟩
    · by_cases hit : i = s.output_size - s.output_size % 8 + t
      · rw [hit]
        exact hget
      · rw [get2_set2, if_neg (fun hh => hit hh.2.1.symm)]
        exact hg i (by omega)
    · rw [← add_assoc, Finset.sum_range_succ, ← hs]
      exact congrArg (fun v => r.2 + v) hget


theorem SoftMaxSimdAVX2_output_length (c : Collab α S) (s : Lstm α S) :
    (SoftMaxSimdAVX2 c s).output.length = s.output.length := by
  unfold SoftMaxSimdAVX2
  split
  · rfl
  · show (List.set _ s.epoch _).length = _
    rw [List.length_set]
    refine foldl_inv (fun (p : List (List α) × α) => p.1.length = s.output.length) _ _ _ ?_ ?_
    · refine foldl_inv (fun (p : List (List α) × List α) => p.1.length = s.output.length)
        _ _ _ ?_ ?_
      · refine foldl_inv (fun (o : List (List α)) => o.length = s.output.length) _ _ _ rfl ?_
        intro o i ho
        exact (length_set2 o _ _ _).trans ho
      · intro p b hp
        refine foldl_inv (fun (o : List (List α)) => o.length = s.output.length) _ _ _ hp ?_
        intro o k ho
        exact (length_set2 o _ _ _).trans ho
    · intro p t hp
      exact (length_set2 p.1 _ _ _).trans hp

/-- C13: in exact arithmetic, and assuming the vector kernels agree with their scalar
counterparts (`dot256_ps_fma3` with a zero start value is `SumOfProducts`,
`exp256_ps_fma3` applies `expa` to every lane, `hsum256_ps_avx` adds the eight lanes) on an
x86 build, `SoftMaxSimdAVX2` and `SoftMaxSimdNone` write the same `output[epoch]`, namely
the softmax of the dot products, for every `output_size` (no condition relates it to the
vector width 8); the two members leave the instance in the same state. -/
theorem C13_avx2_matches_scalar (c : Collab α S) (s : Lstm α S) (hx : c.x86 = true)
    (hdot : ∀ a b n, c.dot256_ps_fma3 a b n 0 = SumOfProducts a b n)
    (hexp : ∀ v, c.exp256_ps_fma3 v = v.map c.expa)
    (hsum : ∀ v, v.length = 8 → c.hsum256_ps_avx v = v.sum)
    (hw : WellSized s) :
    (SoftMaxSimdAVX2 c s).output.getD s.epoch [] =
      (SoftMaxSimdNone c s).output.getD s.epoch [] ∧
    (SoftMaxSimdAVX2 c s).output.getD s.epoch [] =
      softmaxOf c s.hidden s.output_layer s.epoch s.output_size ∧
    SoftMaxSimdAVX2 c s = SoftMaxSimdNone c s := by
  have he : s.epoch < s.output.length := by
    rw [hw.output_len]
    exact hw.epoch_lt
  have hn := hw.output_row s.epoch hw.epoch_lt
  have h1 := SoftMaxSimdAVX2_spec c s hx hdot hexp hsum he hn
  have h2 := SoftMaxSimdNone_spec c s he hn
  refine ⟨h1.trans h2.symm, h1, ?_⟩
  obtain ⟨o1, e1⟩ := SoftMaxSimdAVX2_frame c s
  obtain ⟨o2, e2, sh2⟩ := SoftMaxSimdNone_frame c s
  have hl1 := SoftMaxSimdAVX2_output_length c s
  have hslot : ∀ e, (SoftMaxSimdAVX2 c s).output.getD e [] =
      (SoftMaxSimdNone c s).output.getD e [] := by
    intro e
    by_cases hee : s.epoch = e
    · rw [← hee]
      exact h1.trans h2.symm
    · rw [SoftMaxSimdAVX2_other_slots c s e hee, SoftMaxSimdNone_other_slots c s e hee]
  rw [e1] at hl1 hslot
  rw [e2] at hslot
  rw [e1, e2]
  have ho : o1 = o2 := ext_getD o1 o2 [] (hl1.trans sh2.1.symm) (fun j _ => hslot j)
  rw [ho]

theorem C13_avx2_matches_scalar_witness :
    (sampleCollab.x86 = true ∧
      (∀ a b n, sampleCollab.dot256_ps_fma3 a b n 0 = SumOfProducts a b n) ∧
      (∀ v, sampleCollab.exp256_ps_fma3 v = v.map sampleCollab.expa) ∧
      (∀ v, v.length = 8 → sampleCollab.hsum256_ps_avx v = v.sum) ∧
      (Lstm.new sampleCollab SIMD.SIMD_AVX2 1 11 2 1 3 (1 / 10) 1).output_size = 11) ∧
    ((SoftMaxSimdAVX2 sampleCollab
        (Lstm.new sampleCollab SIMD.SIMD_AVX2 1 11 2 1 3 (1 / 10) 1)).output.getD
        (Lstm.new sampleCollab SIMD.SIMD_AVX2 1 11 2 1 3 (1 / 10) 1).epoch [] =
      (SoftMaxSimdNone sampleCollab
        (Lstm.new sampleCollab SIMD.SIMD_AVX2 1 11 2 1 3 (1 / 10) 1)).output.getD
        (Lstm.new sampleCollab SIMD.SIMD_AVX2 1 11 2 1 3 (1 / 10) 1).epoch [] ∧
    (SoftMaxSimdAVX2 sampleCollab
        (Lstm.new sampleCollab SIMD.SIMD_AVX2 1 11 2 1 3 (1 / 10) 1)).output.getD
        (Lstm.new sampleCollab SIMD.SIMD_AVX2 1 11 2 1 3 (1 / 10) 1).epoch [] =
      softmaxOf sampleCollab (Lstm.new sampleCollab SIMD.SIMD_AVX2 1 11 2 1 3 (1 / 10) 1).hidden
        (Lstm.new sampleCollab SIMD.SIMD_AVX2 1 11 2 1 3 (1 / 10) 1).output_layer
        (Lstm.new sampleCollab SIMD.SIMD_AVX2 1 11 2 1 3 (1 / 10) 1).epoch
        (Lstm.new sampleCollab SIMD.SIMD_AVX2 1 11 2 1 3 (1 / 10) 1).output_size ∧
    SoftMaxSimdAVX2 sampleCollab (Lstm.new sampleCollab SIMD.SIMD_AVX2 1 11 2 1 3 (1 / 10) 1) =
      SoftMaxSimdNone sampleCollab (Lstm.new sampleCollab SIMD.SIMD_AVX2 1 11 2 1 3 (1 / 10) 1)) :=
  ⟨⟨rfl, fun a b n => add_zero _, fun v => rfl, fun v _ => rfl, rfl⟩,
    C13_avx2_matches_scalar sampleCollab
      (Lstm.new sampleCollab SIMD.SIMD_AVX2 1 11 2 1 3 (1 / 10) 1) rfl
      (fun a b n => add_zero _) (fun v => rfl) (fun v _ => rfl)
      (wellSized_new sampleCollab SIMD.SIMD_AVX2 1 11 2 1 3 (1 / 10) 1 (by decide))⟩

/-! ## C14: the bias slots -/

theorem memcpy_spec (dst src : List α) (off so n : Nat) :
    (memcpy dst off src so n).length = dst.length ∧
    ∀ j, (j < off ∨ off + n ≤ j) → (memcpy dst off src so n).getD j 0 = dst.getD j 0 := by
  unfold memcpy
  refine foldl_range_inv (fun k r => r.length = dst.length ∧
    ∀ j, (j < off ∨ off + n ≤ j) → r.getD j 0 = dst.getD j 0) _ n dst ⟨rfl, fun _ _ => rfl⟩ ?_
  rintro k r hk ⟨hl, hv⟩
  refine ⟨by rw [List.length_set, hl], fun j hj => ?_⟩
  rw [getD_set_ne _ _ _ _ _ (by omega)]
  exact hv j hj

theorem get3_set_record (m : List (List (List α))) (e i : Nat) (r : List α) (e1 i1 j : Nat) :
    get3 (m.set e ((m.getD e []).set i r)) e1 i1 j =
      if e = e1 ∧ i = i1 ∧ e < m.length ∧ i < (m.getD e []).length then r.getD j 0
      else get3 m e1 i1 j := by
  unfold get3
  rw [getD_set]
  by_cases h1 : e = e1 ∧ e < m.length
  · obtain ⟨rfl, h2⟩ := h1
    rw [if_pos ⟨rfl, h2⟩, getD_set]
    by_cases h3 : i = i1 ∧ i < (m.getD e []).length
    · rw [if_pos h3, if_pos ⟨rfl, h3.1, h2, h3.2⟩]
    · rw [if_neg h3, if_neg (fun h => h3 ⟨h.2.1, h.2.2.2⟩)]
  · rw [if_neg h1, if_neg (fun h => h1 ⟨h.1, h.2.2.1⟩)]

theorem set_memcpy_spec (m : List (List (List α))) (e i off : Nat) (src : List α) (so n : Nat) :
    SameShape3 (m.set e ((m.getD e []).set i
      (memcpy ((m.getD e []).getD i []) off src so n))) m ∧
    ∀ e1 i1 j, (e1 ≠ e ∨ i1 ≠ i ∨ j < off ∨ off + n ≤ j) →
      get3 (m.set e ((m.getD e []).set i
        (memcpy ((m.getD e []).getD i []) off src so n))) e1 i1 j = get3 m e1 i1 j := by
  obtain ⟨q1, q2⟩ := memcpy_spec ((m.getD e []).getD i []) src off so n
  refine ⟨sameShape3_set_row m e i _ q1, fun e1 i1 j hj => ?_⟩
  rw [get3_set_record]
  by_cases h : e = e1 ∧ i = i1 ∧ e < m.length ∧ i < (m.getD e []).length
  · rw [if_pos h]
    obtain ⟨rfl, rfl, -, -⟩ := h
    rcases hj with hj | hj | hj | hj
    · exact absurd rfl hj
    · exact absurd rfl hj
    · exact q2 j (Or.inl hj)
    · exact q2 j (Or.inr hj)
  · rw [if_neg h]

theorem initLayerInput_spec (input_size num_cells num_layers horizon : Nat) :
    (initLayerInput input_size num_cells num_layers horizon : List (List (List α))).length =
      horizon ∧
    ∀ e, e < horizon →
      ((initLayerInput input_size num_cells num_layers horizon : List (List (List α))).getD
        e []).length = num_layers ∧
      ∀ l, l < num_layers →
        (((initLayerInput input_size num_cells num_layers horizon :
          List (List (List α))).getD e []).getD l []).length =
          recordSize input_size num_cells l ∧
        get3 (initLayerInput input_size num_cells num_layers horizon : List (List (List α)))
          e l (recordSize input_size num_cells l - 1) = 1 := by
  unfold initLayerInput
  have key : ∀ li : List (List (List α)),
      (li.length = horizon ∧ ∀ e, e < horizon →
        (e < horizon → (li.getD e []).length = num_layers ∧ ∀ l, l < num_layers →
          ((li.getD e []).getD l []).length = recordSize input_size num_cells l ∧
          get3 li e l (recordSize input_size num_cells l - 1) = 1) ∧
        (horizon ≤ e → li.getD e [] =
          List.replicate num_layers (List.replicate (input_size + 1 + num_cells * 2) 0))) →
      li.length = horizon ∧ ∀ e, e < horizon →
        (li.getD e []).length = num_layers ∧ ∀ l, l < num_layers →
          ((li.getD e []).getD l []).length = recordSize input_size num_cells l ∧
          get3 li e l (recordSize input_size num_cells l - 1) = 1 := by
    rintro li ⟨h1, h2⟩
    exact ⟨h1, fun e he => (h2 e he).1 he⟩
  refine key _ (foldl_range_inv (fun k (li : List (List (List α))) =>
    li.length = horizon ∧ ∀ e, e < horizon →
      (e < k → (li.getD e []).length = num_layers ∧ ∀ l, l < num_layers →
        ((li.getD e []).getD l []).length = recordSize input_size num_cells l ∧
        get3 li e l (recordSize input_size num_cells l - 1) = 1) ∧
      (k ≤ e → li.getD e [] =
        List.replicate num_layers (List.replicate (input_size + 1 + num_cells * 2) 0)))
    _ horizon _ ?_ ?_)
  · refine ⟨List.length_replicate _ _, fun e he => ⟨fun h => absurd h (Nat.not_lt_zero _), fun _ => ?_⟩⟩
    exact getD_replicate_lt _ _ _ _ he
  · rintro k li hk ⟨hlen, hinv⟩
    have hslot := (hinv k hk).2 (le_refl _)
    -- the inner loop over the layers of slot `k`
    have inner : ∀ r : List (List (List α)),
        (r.length = horizon ∧ (∀ e, e ≠ k → r.getD e [] = li.getD e []) ∧
          (r.getD k []).length = num_layers ∧ ∀ l, l < num_layers →
            ((r.getD k []).getD l []).length = recordSize input_size num_cells l ∧
            (l < num_layers → get3 r k l (recordSize input_size num_cells l - 1) = 1)) →
        r.length = horizon ∧ ∀ e, e < horizon →
          (e < k + 1 → (r.getD e []).length = num_layers ∧ ∀ l, l < num_layers →
            ((r.getD e []).getD l []).length = recordSize input_size num_cells l ∧
            get3 r e l (recordSize input_size num_cells l - 1) = 1) ∧
          (k + 1 ≤ e → r.getD e [] =
            List.replicate num_layers (List.replicate (input_size + 1 + num_cells * 2) 0)) := by
      rintro r ⟨r1, r2, r3, r4⟩
      refine ⟨r1, fun e he => ⟨fun hek => ?_, fun hek => ?_⟩⟩
      · by_cases hk2 : e = k
        · subst hk2
          exact ⟨r3, fun l hl => ⟨(r4 l hl).1, (r4 l hl).2 hl⟩⟩
        · have h5 := (hinv e he).1 (by omega)
          unfold get3 at h5 ⊢
          rw [r2 e hk2]
          exact h5
      · rw [r2 e (by omega)]
        exact (hinv e he).2 (by omega)
    refine inner _ (foldl_range_inv (fun i (r : List (List (List α))) =>
      r.length = horizon ∧ (∀ e, e ≠ k → r.getD e [] = li.getD e []) ∧
        (r.getD k []).length = num_layers ∧ ∀ l, l < num_layers →
          ((r.getD k []).getD l []).length = recordSize input_size num_cells l ∧
          (l < i → get3 r k l (recordSize input_size num_cells l - 1) = 1))
      _ num_layers _ ?_ ?_)
    · refine ⟨by rw [List.length_set, hlen], fun e he => getD_set_ne _ _ _ _ _ (Ne.symm he),
        ?_, fun l hl => ⟨?_, fun h => absurd h (Nat.not_lt_zero _)⟩⟩
      · rw [getD_set_self _ _ _ _ (by omega), List.length_set, hslot, List.length_replicate]
      · rw [getD_set_self _ _ _ _ (by omega), hslot, getD_set]
        unfold recordSize
        by_cases hl0 : l = 0
        · subst hl0
          rw [if_pos ⟨rfl, by rw [List.length_replicate]; exact hl⟩, if_pos rfl,
            List.length_replicate]
        · rw [if_neg (fun h => hl0 h.1.symm), if_neg hl0, getD_replicate_lt _ _ _ _ hl,
            List.length_replicate]
    · rintro i r hi ⟨r1, r2, r3, r4⟩
      obtain ⟨s1, s2, s3⟩ := sameShape3_set3 r k i (((r.getD k []).getD i []).length - 1) (1 : α)
      refine ⟨s1.trans r1, fun e he => ?_, (s2 k).trans r3, fun l hl => ⟨?_, fun hli => ?_⟩⟩
      · rw [getD_set3_ne _ _ _ _ _ _ (Ne.symm he)]
        exact r2 e he
      · exact (s3 k l).trans (r4 l hl).1
      · rw [get3_set3]
        by_cases hl2 : l = i
        · subst hl2
          have hpos : 0 < recordSize input_size num_cells l := by
            unfold recordSize
            split_ifs <;> omega
          rw [if_pos ⟨rfl, rfl, by rw [(r4 l hl).1], by omega, by omega,
            by rw [(r4 l hl).1]; omega⟩]
        · rw [if_neg (fun h => hl2 h.2.1.symm)]
          exact (r4 l hl).2 (by omega)


theorem length_new_layers (c : Collab α S) (simd : SIMD)
    (input_size output_size num_cells num_layers horizon : Nat) (learning_rate gradient_clip : α) :
    (Lstm.new c simd input_size output_size num_cells num_layers horizon
      learning_rate gradient_clip).layers.length = num_layers := by
  simp [Lstm.new]

theorem shaped_new (c : Collab α S) (simd : SIMD)
    (input_size output_size num_cells num_layers horizon : Nat) (learning_rate gradient_clip : α) :
    Shaped (Lstm.new c simd input_size output_size num_cells num_layers horizon
      learning_rate gradient_clip) where
  li_len := (initLayerInput_spec input_size num_cells num_layers horizon).1
  li_slot := fun e he => by
    rw [length_new_layers]
    exact ((initLayerInput_spec input_size num_cells num_layers horizon).2 e he).1
  li_rec := fun e l he hl => by
    rw [length_new_layers] at hl
    exact (((initLayerInput_spec input_size num_cells num_layers horizon).2 e he).2 l hl).1
  hidden_len := by
    rw [length_new_layers]
    simp [Lstm.new]
  hist_len := by simp [Lstm.new]

theorem bias_new (c : Collab α S) (simd : SIMD)
    (input_size output_size num_cells num_layers horizon : Nat) (learning_rate gradient_clip : α) :
    (∀ e l, e < horizon → l < num_layers →
      get3 (Lstm.new c simd input_size output_size num_cells num_layers horizon
        learning_rate gradient_clip).layer_input e l
        ((((Lstm.new c simd input_size output_size num_cells num_layers horizon
          learning_rate gradient_clip).layer_input.getD e []).getD l []).length - 1) = 1) ∧
    (Lstm.new c simd input_size output_size num_cells num_layers horizon
      learning_rate gradient_clip).hidden.getD
      ((Lstm.new c simd input_size output_size num_cells num_layers horizon
        learning_rate gradient_clip).hidden.length - 1) 0 = 1 := by
  refine ⟨fun e l he hl => ?_, ?_⟩
  · obtain ⟨q1, q2⟩ :=
      ((@initLayerInput_spec α _ input_size num_cells num_layers horizon).2 e he).2 l hl
    show get3 (initLayerInput input_size num_cells num_layers horizon : List (List (List α))) e l
      ((((initLayerInput input_size num_cells num_layers horizon :
        List (List (List α))).getD e []).getD l []).length - 1) = 1
    rw [q1]
    exact q2
  · show ((List.replicate (num_cells * num_layers + 1) (0 : α)).set
      ((List.replicate (num_cells * num_layers + 1) (0 : α)).length - 1) 1).getD
      (((List.replicate (num_cells * num_layers + 1) (0 : α)).set
        ((List.replicate (num_cells * num_layers + 1) (0 : α)).length - 1) 1).length - 1) 0 = 1
    rw [List.length_set, getD_set_self]
    rw [List.length_replicate]
    omega

theorem biasKept_refl (s : Lstm α S) : BiasKept s s :=
  ⟨rfl, rfl, rfl, rfl, sameShape3_refl _, rfl, rfl, fun _ _ _ _ => rfl, fun _ _ => rfl⟩

theorem biasKept_trans {s t u : Lstm α S} (h1 : BiasKept s t) (h2 : BiasKept t u) :
    BiasKept s u := by
  obtain ⟨a1, a2, a3, a4, a5, a6, a7, a8, a9⟩ := h1
  obtain ⟨b1, b2, b3, b4, b5, b6, b7, b8, b9⟩ := h2
  refine ⟨b1.trans a1, b2.trans a2, b3.trans a3, b4.trans a4, sameShape3_trans b5 a5,
    b6.trans a6, b7.trans a7, fun e l j hj => ?_, fun j hj => ?_⟩
  · rw [b8 e l j (by rw [a3, a2]; exact hj)]
    exact a8 e l j hj
  · rw [b9 j (by rw [a4, a2]; exact hj)]
    exact a9 j hj

theorem Shaped.keep {s t : Lstm α S} (h : Shaped s) (hk : BiasKept s t) :
    Shaped t ∧ SameBias s t := by
  obtain ⟨a1, a2, a3, a4, a5, a6, a7, a8, a9⟩ := hk
  refine ⟨⟨?_, ?_, ?_, ?_, ?_⟩, ?_, ?_⟩
  · rw [a5.1, a1]
    exact h.li_len
  · intro e he
    rw [a5.2.1, a4]
    exact h.li_slot e (a1 ▸ he)
  · intro e l he hl
    rw [a5.2.2, a3, a2]
    exact h.li_rec e l (a1 ▸ he) (a4 ▸ hl)
  · rw [a6, a2, a4]
    exact h.hidden_len
  · rw [a7, a1]
    exact h.hist_len
  · intro e l he hl
    rw [a5.2.2]
    exact a8 e l _ (by rw [h.li_rec e l he hl])
  · rw [a6]
    refine a9 _ ?_
    rw [h.hidden_len, Nat.add_sub_cancel, Nat.mul_comm]

theorem SetInput_keeps (s : Lstm α S) (v : List α) : BiasKept s (SetInput s v) := by
  have key : ∀ t : Lstm α S, (∃ li, t = { s with layer_input := li } ∧
      SameShape3 li s.layer_input ∧
      ∀ e l j, s.input_size ≤ j → get3 li e l j = get3 s.layer_input e l j) → BiasKept s t := by
    rintro t ⟨li, e1, hsh, hv⟩
    rw [e1]
    refine ⟨rfl, rfl, rfl, rfl, hsh, rfl, rfl, fun e l j hj => hv e l j ?_, fun _ _ => rfl⟩
    unfold recordSize at hj
    split_ifs at hj <;> omega
  unfold SetInput
  refine key _ (foldl_inv (fun t => ∃ li, t = { s with layer_input := li } ∧
    SameShape3 li s.layer_input ∧
    ∀ e l j, s.input_size ≤ j → get3 li e l j = get3 s.layer_input e l j) _ _ _ ?_ ?_)
  · exact ⟨s.layer_input, rfl, sameShape3_refl _, fun _ _ _ _ => rfl⟩
  · rintro t i ⟨li, rfl, hsh, hv⟩
    obtain ⟨q1, q2⟩ := set_memcpy_spec li s.epoch i 0 v 0 s.input_size
    refine ⟨_, rfl, sameShape3_trans q1 hsh, fun e l j hj => ?_⟩
    exact (q2 e l j (Or.inr (Or.inr (Or.inr (by omega))))).trans (hv e l j hj)

theorem forwardLayer_keeps (c : Collab α S) (x : Int) (t : Lstm α S) (i : Nat)
    (hi : i < t.layers.length)
    (hfp : ∀ ly inp y hid off, (c.ForwardPass ly inp y hid off).2.length = hid.length ∧
      ∀ j, (j < off ∨ off + t.num_cells ≤ j) →
        (c.ForwardPass ly inp y hid off).2.getD j 0 = hid.getD j 0) :
    BiasKept t (forwardLayer c x t i) ∧ (forwardLayer c x t i).epoch = t.epoch := by
  obtain ⟨q1, q2⟩ := set_memcpy_spec t.layer_input t.epoch i t.input_size t.hidden
    (i * t.num_cells) t.num_cells
  have hrec : ∀ l j, recordSize t.input_size t.num_cells l - 1 ≤ j →
      t.input_size + t.num_cells ≤ j := by
    intro l j hj
    unfold recordSize at hj
    split_ifs at hj <;> omega
  have hrec2 : ∀ l j, l ≠ 0 → recordSize t.input_size t.num_cells l - 1 ≤ j →
      t.num_cells + t.input_size + t.num_cells ≤ j := by
    intro l j hl hj
    unfold recordSize at hj
    rw [if_neg hl] at hj
    omega
  have hhid : ∀ j, t.layers.length * t.num_cells ≤ j → i * t.num_cells + t.num_cells ≤ j := by
    intro j hj
    have : (i + 1) * t.num_cells ≤ t.layers.length * t.num_cells :=
      Nat.mul_le_mul_right _ hi
    rw [Nat.succ_mul] at this
    omega
  unfold forwardLayer
  cases hl : t.layers[i]? with
  | none =>
    exact ⟨⟨rfl, rfl, rfl, rfl, q1, rfl, rfl,
      fun e l j hj => q2 e l j (Or.inr (Or.inr (Or.inr (hrec l j hj)))), fun _ _ => rfl⟩, rfl⟩
  | some ly =>
    refine ⟨?_, rfl⟩
    unfold BiasKept
    dsimp only
    refine ⟨rfl, rfl, rfl, by simp, ?_, (hfp _ _ _ _ _).1, rfl, ?_,
      fun j hj => (hfp _ _ _ _ _).2 j (Or.inr (hhid j hj))⟩
    · split_ifs with hlt
      · exact sameShape3_trans (set_memcpy_spec _ _ _ _ _ _ _).1 q1
      · exact q1
    · intro e l j hj
      split_ifs with hlt
      · by_cases hl0 : l = i + 1
        · rw [(set_memcpy_spec _ _ _ _ _ _ _).2 e l j
            (Or.inr (Or.inr (Or.inr (hrec2 l j (by omega) hj))))]
          exact q2 e l j (Or.inr (Or.inr (Or.inr (hrec l j hj))))
        · rw [(set_memcpy_spec _ _ _ _ _ _ _).2 e l j (Or.inr (Or.inl hl0))]
          exact q2 e l j (Or.inr (Or.inr (Or.inr (hrec l j hj))))
      · exact q2 e l j (Or.inr (Or.inr (Or.inr (hrec l j hj))))

theorem forwardAll_keeps (c : Collab α S) (x : Int) (s : Lstm α S)
    (hfp : ∀ ly inp y hid off, (c.ForwardPass ly inp y hid off).2.length = hid.length ∧
      ∀ j, (j < off ∨ off + s.num_cells ≤ j) →
        (c.ForwardPass ly inp y hid off).2.getD j 0 = hid.getD j 0) :
    BiasKept s (forwardAll c x s) := by
  unfold forwardAll
  refine foldl_range_inv (fun _ t => BiasKept s t) _ _ _ (biasKept_refl s) ?_
  intro k t hk ht
  have hnc : t.num_cells = s.num_cells := ht.2.1
  have hl : t.layers.length = s.layers.length := ht.2.2.2.1
  exact biasKept_trans ht (forwardLayer_keeps c x t k (by rw [hl]; exact hk)
    (by rw [hnc]; exact hfp)).1

theorem Predict_fields (c : Collab α S) (s : Lstm α S) (x : Int) :
    ∃ out ep, (Predict c s x).1 = { forwardAll c x s with output := out, epoch := ep } := by
  unfold Predict
  dsimp only
  by_cases h : (forwardAll c x s).simd = SIMD.SIMD_AVX2
  · simp only [if_pos h]
    obtain ⟨out, e⟩ := SoftMaxSimdAVX2_frame c (forwardAll c x s)
    rw [e]
    exact ⟨_, _, rfl⟩
  · simp only [if_neg h]
    obtain ⟨out, e, -⟩ := SoftMaxSimdNone_frame c (forwardAll c x s)
    rw [e]
    exact ⟨_, _, rfl⟩

theorem Predict_keeps (c : Collab α S) (s : Lstm α S) (x : Int)
    (hfp : ∀ ly inp y hid off, (c.ForwardPass ly inp y hid off).2.length = hid.length ∧
      ∀ j, (j < off ∨ off + s.num_cells ≤ j) →
        (c.ForwardPass ly inp y hid off).2.getD j 0 = hid.getD j 0) :
    BiasKept s (Predict c s x).1 := by
  obtain ⟨out, ep, e⟩ := Predict_fields c s x
  rw [e]
  exact forwardAll_keeps c x s hfp

theorem perceiveUpdate_keeps (c : Collab α S) (s : Lstm α S) (x : Int) :
    BiasKept s (perceiveUpdate c s x) := by
  obtain ⟨ls, he, bp, ol, e, hl, -⟩ := perceiveUpdate_frame c s x
  rw [e]
  exact ⟨rfl, rfl, rfl, hl, sameShape3_refl _, rfl, List.length_set _ _ _,
    fun _ _ _ _ => rfl, fun _ _ => rfl⟩

theorem Perceive_keeps (c : Collab α S) (s : Lstm α S) (x : Int)
    (hfp : ∀ ly inp y hid off, (c.ForwardPass ly inp y hid off).2.length = hid.length ∧
      ∀ j, (j < off ∨ off + s.num_cells ≤ j) →
        (c.ForwardPass ly inp y hid off).2.getD j 0 = hid.getD j 0) :
    BiasKept s (Perceive c s x).1 := by
  have h1 := perceiveUpdate_keeps c s x
  unfold Perceive
  exact biasKept_trans h1 (Predict_keeps c _ x (by rw [h1.2.1]; exact hfp))

theorem runCalls_keeps (c : Collab α S) (s : Lstm α S) (calls : List (Call α))
    (hfp : ∀ ly inp y hid off, (c.ForwardPass ly inp y hid off).2.length = hid.length ∧
      ∀ j, (j < off ∨ off + s.num_cells ≤ j) →
        (c.ForwardPass ly inp y hid off).2.getD j 0 = hid.getD j 0) :
    BiasKept s (runCalls c s calls) := by
  unfold runCalls
  refine foldl_inv (fun t => BiasKept s t) _ _ _ (biasKept_refl s) ?_
  intro t k ht
  have hfp2 : ∀ ly inp y hid off, (c.ForwardPass ly inp y hid off).2.length = hid.length ∧
      ∀ j, (j < off ∨ off + t.num_cells ≤ j) →
        (c.ForwardPass ly inp y hid off).2.getD j 0 = hid.getD j 0 := by
    rw [ht.2.1]
    exact hfp
  cases k with
  | setInput v => exact biasKept_trans ht (SetInput_keeps t v)
  | predict y => exact biasKept_trans ht (Predict_keeps c t y hfp2)
  | perceive y => exact biasKept_trans ht (Perceive_keeps c t y hfp2)

theorem sampleCollab_forward_local (ly : LstmLayer ℚ Unit) (inp : List ℚ) (y : Int)
    (hid : List ℚ) (off : Nat) :
    (sampleCollab.ForwardPass ly inp y hid off).2.length = hid.length ∧
      ∀ j, (j < off ∨ off + 2 ≤ j) →
        (sampleCollab.ForwardPass ly inp y hid off).2.getD j 0 = hid.getD j 0 := by
  have key : (sampleCollab.ForwardPass ly inp y hid off).2 =
      (hid.set (off + 0) (inp.getD 0 0 / 2 + 1 / 3)).set (off + 1) (inp.getD 1 0 / 2 + 1 / 3) :=
    rfl
  rw [key]
  refine ⟨by rw [List.length_set, List.length_set], fun j hj => ?_⟩
  rw [getD_set_ne _ _ _ _ _ (by omega), getD_set_ne _ _ _ _ _ (by omega)]

/-- C14: the bias slots are constant. After construction every record `layer_input[e][l]`
has size `input_size + num_cells + 1` (layer 0) or `input_size + 2*num_cells + 1` (higher
layers) and its last element is 1, and the last element of `hidden` is 1. For every state
`s` with the constructor's sizes, `SetInput`, `Predict` and `Perceive` leave the last
element of every record and of `hidden` as it was and keep all sizes, hence in every state
reached from the constructor by these members the bias slots still hold 1. Assumes every
layer's `ForwardPass` keeps the size of `hidden` and writes only
`hidden[offset .. offset + num_cells)`. -/
theorem C14_bias_slots_constant (c : Collab α S) (simd : SIMD)
    (input_size output_size num_cells num_layers horizon : Nat) (learning_rate gradient_clip : α)
    (s : Lstm α S) (v : List α) (x : Int) (calls : List (Call α))
    (hs : Shaped s) (hnc : s.num_cells = num_cells)
    (hfp : ∀ ly inp y hid off, (c.ForwardPass ly inp y hid off).2.length = hid.length ∧
      ∀ j, (j < off ∨ off + num_cells ≤ j) →
        (c.ForwardPass ly inp y hid off).2.getD j 0 = hid.getD j 0) :
    ((∀ e l, e < horizon → l < num_layers →
        (((Lstm.new c simd input_size output_size num_cells num_layers horizon learning_rate gradient_clip).layer_input.getD e []).getD l []).length =
          (if l = 0 then input_size + num_cells + 1 else input_size + 2 * num_cells + 1) ∧
        get3 (Lstm.new c simd input_size output_size num_cells num_layers horizon learning_rate gradient_clip).layer_input e l ((((Lstm.new c simd input_size output_size num_cells num_layers horizon learning_rate gradient_clip).layer_input.getD e []).getD l []).length - 1) = 1) ∧
      (Lstm.new c simd input_size output_size num_cells num_layers horizon learning_rate gradient_clip).hidden.getD ((Lstm.new c simd input_size output_size num_cells num_layers horizon learning_rate gradient_clip).hidden.length - 1) 0 = 1) ∧
    (SameBias s (SetInput s v) ∧ SameBias s (Predict c s x).1 ∧
      SameBias s (Perceive c s x).1 ∧
      Shaped (SetInput s v) ∧ Shaped (Predict c s x).1 ∧ Shaped (Perceive c s x).1) ∧
    ((∀ e l, e < horizon → l < num_layers →
        get3 (runCalls c (Lstm.new c simd input_size output_size num_cells num_layers horizon learning_rate gradient_clip) calls).layer_input e l
          ((((runCalls c (Lstm.new c simd input_size output_size num_cells num_layers horizon learning_rate gradient_clip) calls).layer_input.getD e []).getD l []).length - 1) = 1) ∧
      (runCalls c (Lstm.new c simd input_size output_size num_cells num_layers horizon learning_rate gradient_clip) calls).hidden.getD ((runCalls c (Lstm.new c simd input_size output_size num_cells num_layers horizon learning_rate gradient_clip) calls).hidden.length - 1) 0 = 1) := by
  have hnew := shaped_new c simd input_size output_size num_cells num_layers horizon
    learning_rate gradient_clip
  obtain ⟨b1, b2⟩ := bias_new c simd input_size output_size num_cells num_layers horizon
    learning_rate gradient_clip
  have hL := length_new_layers c simd input_size output_size num_cells num_layers horizon
    learning_rate gradient_clip
  have hfps : ∀ ly inp y hid off, (c.ForwardPass ly inp y hid off).2.length = hid.length ∧
      ∀ j, (j < off ∨ off + s.num_cells ≤ j) →
        (c.ForwardPass ly inp y hid off).2.getD j 0 = hid.getD j 0 := by
    rw [hnc]
    exact hfp
  refine ⟨⟨fun e l he hl => ⟨?_, b1 e l he hl⟩, b2⟩, ?_, ?_⟩
  · have h3 := hnew.li_rec e l he (by rw [hL]; exact hl)
    rw [h3]
    show recordSize input_size num_cells l = _
    unfold recordSize
    split_ifs <;> omega
  · have k1 := hs.keep (SetInput_keeps s v)
    have k2 := hs.keep (Predict_keeps c s x hfps)
    have k3 := hs.keep (Perceive_keeps c s x hfps)
    exact ⟨k1.2, k2.2, k3.2, k1.1, k2.1, k3.1⟩
  · obtain ⟨-, k2, k3⟩ := hnew.keep (runCalls_keeps c _ calls hfp)
    refine ⟨fun e l he hl => ?_, k3.trans b2⟩
    rw [k2 e l he (by rw [hL]; exact hl)]
    exact b1 e l he hl

theorem C14_bias_slots_constant_witness :
    (Shaped sampleLstm ∧ sampleLstm.num_cells = 2 ∧
      ∀ ly inp y hid off,
        (sampleCollab.ForwardPass ly inp y hid off).2.length = hid.length ∧
        ∀ j, (j < off ∨ off + 2 ≤ j) →
          (sampleCollab.ForwardPass ly inp y hid off).2.getD j 0 = hid.getD j 0) ∧
    (((∀ e l, e < 3 → l < 1 →
        (((Lstm.new sampleCollab SIMD.SIMD_NONE 1 2 2 1 3 (1 / 10) 1).layer_input.getD e []).getD l []).length =
          (if l = 0 then 1 + 2 + 1 else 1 + 2 * 2 + 1) ∧
        get3 (Lstm.new sampleCollab SIMD.SIMD_NONE 1 2 2 1 3 (1 / 10) 1).layer_input e l ((((Lstm.new sampleCollab SIMD.SIMD_NONE 1 2 2 1 3 (1 / 10) 1).layer_input.getD e []).getD l []).length - 1) = 1) ∧
      (Lstm.new sampleCollab SIMD.SIMD_NONE 1 2 2 1 3 (1 / 10) 1).hidden.getD ((Lstm.new sampleCollab SIMD.SIMD_NONE 1 2 2 1 3 (1 / 10) 1).hidden.length - 1) 0 = 1) ∧
    (SameBias sampleLstm (SetInput sampleLstm [1 / 2]) ∧ SameBias sampleLstm (Predict sampleCollab sampleLstm 1).1 ∧
      SameBias sampleLstm (Perceive sampleCollab sampleLstm 1).1 ∧
      Shaped (SetInput sampleLstm [1 / 2]) ∧ Shaped (Predict sampleCollab sampleLstm 1).1 ∧ Shaped (Perceive sampleCollab sampleLstm 1).1) ∧
    ((∀ e l, e < 3 → l < 1 →
        get3 (runCalls sampleCollab (Lstm.new sampleCollab SIMD.SIMD_NONE 1 2 2 1 3 (1 / 10) 1) [Call.setInput [1 / 2], Call.perceive 1, Call.predict 0]).layer_input e l
          ((((runCalls sampleCollab (Lstm.new sampleCollab SIMD.SIMD_NONE 1 2 2 1 3 (1 / 10) 1) [Call.setInput [1 / 2], Call.perceive 1, Call.predict 0]).layer_input.getD e []).getD l []).length - 1) = 1) ∧
      (runCalls sampleCollab (Lstm.new sampleCollab SIMD.SIMD_NONE 1 2 2 1 3 (1 / 10) 1) [Call.setInput [1 / 2], Call.perceive 1, Call.predict 0]).hidden.getD ((runCalls sampleCollab (Lstm.new sampleCollab SIMD.SIMD_NONE 1 2 2 1 3 (1 / 10) 1) [Call.setInput [1 / 2], Call.perceive 1, Call.predict 0]).hidden.length - 1) 0 = 1)) :=
  ⟨⟨shaped_new sampleCollab SIMD.SIMD_NONE 1 2 2 1 3 (1 / 10) 1, rfl,
      sampleCollab_forward_local⟩,
    C14_bias_slots_constant sampleCollab SIMD.SIMD_NONE 1 2 2 1 3 (1 / 10) 1 sampleLstm [1 / 2] 1
      [Call.setInput [1 / 2], Call.perceive 1, Call.predict 0]
      (shaped_new sampleCollab SIMD.SIMD_NONE 1 2 2 1 3 (1 / 10) 1) rfl
      sampleCollab_forward_local⟩

/-! ## The sizes kept by the members -/

theorem length_overlay (vs old : List α) : (overlay vs old).length = old.length := by
  unfold overlay
  rw [List.length_append, List.length_take, List.length_drop]
  omega

theorem getD_overlay (vs old : List α) (j : Nat) :
    (overlay vs old).getD j 0 = if j < vs.length ∧ j < old.length then vs.getD j 0
      else old.getD j 0 := by
  unfold overlay
  simp only [List.getD_eq_getElem?_getD]
  by_cases h : j < vs.length ∧ j < old.length
  · rw [if_pos h, List.getElem?_append_left (by rw [List.length_take]; omega),
      List.getElem?_take_of_lt h.2]
  · rw [if_neg h, List.getElem?_append_right (by rw [List.length_take]; omega),
      List.getElem?_drop, List.length_take]
    by_cases h2 : j < old.length
    · have h3 : vs.length ≤ j := by omega
      have h4 : vs.length + (j - min old.length vs.length) = j := by omega
      rw [h4]
    · rw [List.getElem?_eq_none (by omega), List.getElem?_eq_none (by omega)]

theorem overlay_append (vs a b : List α) :
    overlay vs (a ++ b) = overlay vs a ++ overlay (vs.drop a.length) b := by
  refine ext_getD _ _ 0 ?_ ?_
  · rw [length_overlay, List.length_append, List.length_append, length_overlay, length_overlay]
  · intro j hj
    rw [length_overlay, List.length_append] at hj
    rw [getD_overlay, List.length_append]
    by_cases hja : j < a.length
    · rw [List.getD_append a b _ _ hja,
        List.getD_append (overlay vs a) _ _ _ (by rw [length_overlay]; exact hja), getD_overlay]
      by_cases h : j < vs.length
      · rw [if_pos ⟨h, by omega⟩, if_pos ⟨h, hja⟩]
      · rw [if_neg (fun hh => h hh.1), if_neg (fun hh => h hh.1)]
    · rw [List.getD_append_right a b _ _ (by omega),
        List.getD_append_right (overlay vs a) _ _ _ (by rw [length_overlay]; omega),
        length_overlay, getD_overlay, List.length_drop]
      by_cases h : j < vs.length
      · rw [if_pos ⟨h, by omega⟩, if_pos ⟨by omega, by omega⟩]
        simp only [List.getD_eq_getElem?_getD, List.getElem?_drop]
        rw [show a.length + (j - a.length) = j by omega]
      · rw [if_neg (fun hh => h hh.1), if_neg (fun hh => h (by omega))]

theorem overlay_of_le (vs old : List α) (h : vs.length ≤ old.length) :
    overlay vs old = vs ++ old.drop vs.length := by
  unfold overlay
  rw [List.take_of_length_le h]

theorem loadRow_length (read : List (FileItem α) → Option α × List (FileItem α)) (n : Nat)
    (file : List (FileItem α)) (row : List α) :
    (loadRow read n file row).2.length = row.length := by
  unfold loadRow
  refine foldl_inv (fun (st : Bool × List (FileItem α) × List α) =>
    st.2.2.length = row.length) _ _ _ rfl ?_
  rintro ⟨b, f, r⟩ l h
  have h' : r.length = row.length := h
  cases b with
  | true => exact h'
  | false =>
    simp only [Bool.false_eq_true, if_false]
    cases hread : read f with
    | mk o f1 =>
      cases o with
      | none => exact h'
      | some v =>
        show (r.set l v).length = _
        rw [List.length_set]
        exact h'

theorem blockRead_fail (rest : List (FileItem α)) (h : (blockRead rest).1 = none) :
    blockRead rest = (none, rest) := by
  unfold blockRead at h ⊢
  cases rest with
  | nil => rfl
  | cons x xs =>
    cases x with
    | block v => simp at h
    | bits w v => rfl

/-- The innermost loop of the raw branch on a file that holds the values `vs` and then
only short reads: the row takes the values the file has for it and keeps the rest. -/
theorem loadRow_short_file (rest : List (FileItem α)) (hfail : blockRead rest = (none, rest))
    (vs row : List α) :
    loadRow blockRead row.length (vs.map FileItem.block ++ rest) row =
      ((vs.drop row.length).map FileItem.block ++ rest, overlay vs row) := by
  have key : ∀ st : Bool × List (FileItem α) × List α,
      (st.2.1 = (vs.drop row.length).map FileItem.block ++ rest ∧
        st.2.2.length = row.length ∧ (st.1 = true → vs.length ≤ row.length) ∧
        ∀ j, st.2.2.getD j 0 =
          if j < row.length ∧ j < vs.length then vs.getD j 0 else row.getD j 0) →
      st.2 = ((vs.drop row.length).map FileItem.block ++ rest, overlay vs row) := by
    rintro ⟨b, f, r⟩ ⟨h1, h2, -, h4⟩
    refine Prod.ext h1 (ext_getD _ _ 0 (h2.trans (length_overlay _ _).symm) (fun j _ => ?_))
    rw [h4 j, getD_overlay]
    by_cases h : j < vs.length ∧ j < row.length
    · rw [if_pos h, if_pos ⟨h.2, h.1⟩]
    · rw [if_neg h, if_neg (fun hh => h ⟨hh.2, hh.1⟩)]
  unfold loadRow
  refine key _ (foldl_range_inv
    (fun k (st : Bool × List (FileItem α) × List α) =>
      st.2.1 = (vs.drop k).map FileItem.block ++ rest ∧
        st.2.2.length = row.length ∧ (st.1 = true → vs.length ≤ k) ∧
        ∀ j, st.2.2.getD j 0 = if j < k ∧ j < vs.length then vs.getD j 0 else row.getD j 0)
    _ _ _ ⟨rfl, rfl, fun h => (by cases h), fun j => (by rw [if_neg (by omega)])⟩ ?_)
  rintro k ⟨b, f, r⟩ hk ⟨h1, h2, h3, h4⟩
  simp only at h1 h2 h3 h4
  cases b with
  | true =>
    have hv := h3 rfl
    simp only [if_true]
    refine ⟨?_, h2, fun _ => by omega, fun j => ?_⟩
    · rw [h1, List.drop_of_length_le hv, List.drop_of_length_le (by omega)]
    · rw [h4 j]
      by_cases h : j < k ∧ j < vs.length
      · rw [if_pos h, if_pos ⟨by omega, h.2⟩]
      · rw [if_neg h, if_neg (by omega)]
  | false =>
    simp only [Bool.false_eq_true, if_false]
    by_cases hkv : k < vs.length
    · rw [List.drop_eq_getElem_cons hkv, List.map_cons, List.cons_append] at h1
      subst h1
      simp only [blockRead]
      refine ⟨trivial, (by rw [List.length_set]; exact h2), fun h => (by cases h), fun j => ?_⟩
      rw [getD_set, h4 j]
      by_cases hj : k = j
      · subst hj
        rw [if_pos ⟨rfl, by omega⟩, if_pos ⟨by omega, hkv⟩, List.getD_eq_getElem _ _ hkv]
      · rw [if_neg (fun h => hj h.1)]
        by_cases h : j < k ∧ j < vs.length
        · rw [if_pos h, if_pos ⟨by omega, h.2⟩]
        · rw [if_neg h, if_neg (by omega)]
    · rw [List.drop_of_length_le (by omega), List.map_nil, List.nil_append] at h1
      subst h1
      rw [hfail]
      refine ⟨?_, h2, fun _ => by omega, fun j => ?_⟩
      · show f = _
        rw [List.drop_of_length_le (by omega)]
        rfl
      · show r.getD j 0 = _
        rw [h4 j]
        by_cases h : j < k ∧ j < vs.length
        · rw [if_pos h, if_pos ⟨by omega, h.2⟩]
        · rw [if_neg h, if_neg (by omega)]

theorem fillSeq_length {A : Type} (f : List (FileItem α) → A → List (FileItem α) × A)
    (as : List A) : ∀ file, (fillSeq f file as).2.length = as.length := by
  induction as with
  | nil => intro file; rfl
  | cons a as ih =>
    intro file
    show ((f file a).2 :: (fillSeq f (f file a).1 as).2).length = _
    rw [List.length_cons, ih, List.length_cons]

theorem fillSeq_shape {A B : Type} (f : List (FileItem α) → A → List (FileItem α) × A)
    (sh : A → B) (hsh : ∀ file a, sh (f file a).2 = sh a) (as : List A) :
    ∀ file, (fillSeq f file as).2.map sh = as.map sh := by
  induction as with
  | nil => intro file; rfl
  | cons a as ih =>
    intro file
    show ((f file a).2 :: (fillSeq f (f file a).1 as).2).map sh = _
    rw [List.map_cons, List.map_cons, ih, hsh]

/-- Filling a list component by component from a file that holds the values `vs` and
then only short reads lays `vs` over the flattened list, when each component does so. -/
theorem fillSeq_short_file {A : Type} (F : List α → List (FileItem α))
    (f : List (FileItem α) → A → List (FileItem α) × A) (flat : A → List α)
    (hf : ∀ vs a, (f (F vs) a).1 = F (vs.drop (flat a).length) ∧
      flat (f (F vs) a).2 = overlay vs (flat a))
    (as : List A) :
    ∀ vs, (fillSeq f (F vs) as).1 = F (vs.drop (as.flatMap flat).length) ∧
      (fillSeq f (F vs) as).2.flatMap flat = overlay vs (as.flatMap flat) := by
  induction as with
  | nil =>
    intro vs
    refine ⟨rfl, ?_⟩
    show [] = overlay vs []
    unfold overlay
    simp
  | cons a as ih =>
    intro vs
    obtain ⟨h1, h2⟩ := hf vs a
    show (fillSeq f (f (F vs) a).1 as).1 = _ ∧
      ((f (F vs) a).2 :: (fillSeq f (f (F vs) a).1 as).2).flatMap flat = _
    rw [h1]
    obtain ⟨i1, i2⟩ := ih (vs.drop (flat a).length)
    refine ⟨?_, ?_⟩
    · rw [i1, List.drop_drop, List.flatMap_cons, List.length_append]
    · rw [List.flatMap_cons, List.flatMap_cons, i2, h2, overlay_append]

/-- A loop `for (k = 0; k < n; k++)` whose body replaces component `k` of a list held
inside the state by what `f` makes of it computes `fillSeq f`. -/
theorem foldl_fill {A C : Type} (wrap : List A → C)
    (body : List (FileItem α) × C → Nat → List (FileItem α) × C)
    (f : List (FileItem α) → A → List (FileItem α) × A) (Inv : A → Prop) (n : Nat)
    (hInv : ∀ file a, Inv a → Inv (f file a).2)
    (hbody : ∀ file (l : List A) k a, l.length = n → (∀ a1, a1 ∈ l → Inv a1) → l[k]? = some a →
      body (file, wrap l) k = ((f file a).1, wrap (l.set k (f file a).2)))
    (as : List A) :
    ∀ (pre : List A) file, pre.length + as.length = n → (∀ a1, a1 ∈ pre → Inv a1) →
      (∀ a1, a1 ∈ as → Inv a1) →
      ((List.range as.length).map (fun k => pre.length + k)).foldl body (file, wrap (pre ++ as)) =
        ((fillSeq f file as).1, wrap (pre ++ (fillSeq f file as).2)) := by
  induction as with
  | nil =>
    intro pre file _ _ _
    rfl
  | cons a as ih =>
    intro pre file hn hpre has
    rw [List.length_cons, List.range_succ_eq_map, List.map_cons, List.foldl_cons, List.map_map]
    have hget : (pre ++ a :: as)[pre.length + 0]? = some a := by
      rw [Nat.add_zero, List.getElem?_append_right (le_refl _), Nat.sub_self]
      exact List.getElem?_cons_zero
    have hall : ∀ a1, a1 ∈ pre ++ a :: as → Inv a1 := by
      intro a1 h1
      rcases List.mem_append.mp h1 with h2 | h2
      · exact hpre a1 h2
      · exact has a1 h2
    rw [hbody file (pre ++ a :: as) (pre.length + 0) a
      (by rw [List.length_append, List.length_cons]; exact hn) hall hget]
    have hset : (pre ++ a :: as).set (pre.length + 0) (f file a).2 =
        (pre ++ [(f file a).2]) ++ as := by
      rw [Nat.add_zero, List.set_append_right _ _ (le_refl _), Nat.sub_self, List.set_cons_zero,
        List.append_assoc]
      rfl
    rw [hset]
    have hmap : (List.range as.length).map ((fun k => pre.length + k) ∘ Nat.succ) =
        (List.range as.length).map (fun k => (pre ++ [(f file a).2]).length + k) := by
      refine List.map_congr_left (fun k _ => ?_)
      show pre.length + (k + 1) = (pre ++ [(f file a).2]).length + k
      rw [List.length_append, List.length_singleton]
      omega
    rw [hmap, ih (pre ++ [(f file a).2]) (f file a).1
      (by rw [List.length_append, List.length_singleton]; rw [List.length_cons] at hn; omega)
      (by
        intro a1 h1
        rcases List.mem_append.mp h1 with h2 | h2
        · exact hpre a1 h2
        · rw [List.mem_singleton] at h2
          rw [h2]
          exact hInv file a (has a (List.mem_cons_self _ _)))
      (fun a1 h1 => has a1 (List.mem_cons_of_mem _ h1))]
    show _ = ((fillSeq f (f file a).1 as).1,
      wrap (pre ++ (f file a).2 :: (fillSeq f (f file a).1 as).2))
    rw [List.append_assoc]
    rfl

theorem foldl_fill_all {A C : Type} (wrap : List A → C)
    (body : List (FileItem α) × C → Nat → List (FileItem α) × C)
    (f : List (FileItem α) → A → List (FileItem α) × A) (Inv : A → Prop)
    (hInv : ∀ file a, Inv a → Inv (f file a).2) (as : List A)
    (hbody : ∀ file (l : List A) k a, l.length = as.length → (∀ a1, a1 ∈ l → Inv a1) →
      l[k]? = some a → body (file, wrap l) k = ((f file a).1, wrap (l.set k (f file a).2)))
    (has : ∀ a1, a1 ∈ as → Inv a1) (file : List (FileItem α)) :
    (List.range as.length).foldl body (file, wrap as) =
      ((fillSeq f file as).1, wrap (fillSeq f file as).2) := by
  have h := foldl_fill wrap body f Inv as.length hInv hbody as [] file (by simp)
    (fun a1 h1 => absurd h1 (List.not_mem_nil _)) has
  have hmap : (List.range as.length).map (fun k => ([] : List A).length + k) =
      List.range as.length := by
    have : (fun k => ([] : List A).length + k) = id := by
      funext k
      simp
    rw [this, List.map_id]
  rw [hmap] at h
  exact h

theorem set_getD_self {β : Type} (w : List β) (j : Nat) (d : β) (hj : j < w.length) :
    w.set j (w.getD j d) = w := by
  refine ext_getD _ _ d (List.length_set _ _ _) (fun i _ => ?_)
  rw [getD_set]
  by_cases h : j = i ∧ j < w.length
  · rw [if_pos h, h.1]
  · rw [if_neg h]

theorem getD_of_getElem? {β : Type} (l : List β) (k : Nat) (a d : β) (h : l[k]? = some a) :
    l.getD k d = a ∧ k < l.length := by
  have hk : k < l.length := by
    by_contra hc
    rw [List.getElem?_eq_none (by omega)] at h
    cases h
  refine ⟨?_, hk⟩
  rw [List.getD_eq_getElem?_getD, h]
  rfl

theorem loadTensor_eq_fill (read : List (FileItem α) → Option α × List (FileItem α))
    (file : List (FileItem α)) (w : List (List (List α))) (j : Nat) (hj : j < w.length) :
    loadTensor read (file, w) j =
      ((fillSeq (fun f row => loadRow read row.length f row) file (w.getD j [])).1,
        w.set j (fillSeq (fun f row => loadRow read row.length f row) file (w.getD j [])).2) := by
  have h := foldl_fill_all (fun l => w.set j l)
    (fun (st1 : List (FileItem α) × List (List (List α))) k =>
      let row := (st1.2.getD j []).getD k []
      let r := loadRow read row.length st1.1 row
      (r.1, st1.2.set j ((st1.2.getD j []).set k r.2)))
    (fun f row => loadRow read row.length f row) (fun _ => True) (fun _ _ _ => trivial)
    (w.getD j [])
    (by
      intro f l k a _ _ hk
      obtain ⟨hka, -⟩ := getD_of_getElem? l k a [] hk
      dsimp only
      rw [getD_set_self _ _ _ _ hj, hka, List.set_set])
    (fun _ _ => trivial) file
  dsimp only at h
  rw [set_getD_self w j [] hj] at h
  exact h

theorem loadTensors_eq_fill (read : List (FileItem α) → Option α × List (FileItem α))
    (file : List (FileItem α)) (w : List (List (List α))) :
    loadTensors read file w =
      fillSeq (fun f t => fillSeq (fun f1 row => loadRow read row.length f1 row) f t) file w := by
  have h := foldl_fill_all (fun (l : List (List (List α))) => l) (loadTensor read)
    (fun f t => fillSeq (fun f1 row => loadRow read row.length f1 row) f t)
    (fun _ => True) (fun _ _ _ => trivial) w
    (by
      intro f l k a _ _ hk
      obtain ⟨hka, hkl⟩ := getD_of_getElem? l k a [] hk
      rw [loadTensor_eq_fill read f l k hkl, hka])
    (fun _ _ => trivial) file
  exact h

theorem loadLayers_eq_fill (read : List (FileItem α) → Option α × List (FileItem α))
    (file : List (FileItem α)) (layers : List (LstmLayer α S)) :
    loadLayers read file layers =
      fillSeq (fun f (ly : LstmLayer α S) =>
        ((loadTensors read f ly.weights).1,
          { ly with weights := (loadTensors read f ly.weights).2 })) file layers := by
  have h := foldl_fill_all (fun (l : List (LstmLayer α S)) => l) (loadLayer read)
    (fun f (ly : LstmLayer α S) =>
      ((loadTensors read f ly.weights).1,
        { ly with weights := (loadTensors read f ly.weights).2 }))
    (fun _ => True) (fun _ _ _ => trivial) layers
    (by
      intro f l k a _ _ hk
      unfold loadLayer
      simp only [hk])
    (fun _ _ => trivial) file
  exact h

theorem loadOutputLayer_eq_fill (read : List (FileItem α) → Option α × List (FileItem α))
    (s : Lstm α S) (file : List (FileItem α)) (hw : WellSized s) :
    loadOutputLayer read s file =
      ((fillSeq (fun f row => loadRow read row.length f row) file
          (s.output_layer.getD (lastEpoch s) [])).1,
        s.output_layer.set (lastEpoch s)
          (fillSeq (fun f row => loadRow read row.length f row) file
            (s.output_layer.getD (lastEpoch s) [])).2) := by
  have hlast := lastEpoch_lt s hw.epoch_lt
  have hrows := hw.ol_rows _ hlast
  have hlol : lastEpoch s < s.output_layer.length := by
    rw [hw.ol_len]
    exact hlast
  have h0 : 0 < s.horizon := Nat.lt_of_le_of_lt (Nat.zero_le _) hw.epoch_lt
  have h := foldl_fill_all (fun l => s.output_layer.set (lastEpoch s) l)
    (loadOutputRow read (lastEpoch s))
    (fun f row => loadRow read row.length f row)
    (fun row => row.length = s.num_cells * s.layers.length + 1)
    (fun f a ha => (loadRow_length read _ f a).trans ha)
    (s.output_layer.getD (lastEpoch s) [])
    (by
      intro f l k a hl hinv hk
      obtain ⟨hka, hkl⟩ := getD_of_getElem? l k a [] hk
      have hko : k < s.output_size := by
        rw [← hrows, ← hl]
        exact hkl
      have hn : (((s.output_layer.set (lastEpoch s) l).getD 0 []).getD k []).length =
          a.length := by
        rw [hinv a (List.getElem?_mem hk), getD_set]
        by_cases hz : lastEpoch s = 0 ∧ lastEpoch s < s.output_layer.length
        · rw [if_pos hz, hka]
          exact hinv a (List.getElem?_mem hk)
        · rw [if_neg hz]
          exact hw.ol_cols 0 k h0 hko
      unfold loadOutputRow
      dsimp only
      rw [hn, getD_set_self _ _ _ _ hlol, hka, List.set_set])
    (by
      intro a ha
      obtain ⟨i, hi, rfl⟩ := List.getElem_of_mem ha
      have := hw.ol_cols (lastEpoch s) i hlast (hrows ▸ hi)
      rw [List.getD_eq_getElem _ _ hi] at this
      exact this)
    file
  rw [set_getD_self _ _ [] hlol, hrows] at h
  exact h

theorem flatMap_self_eq_flatten (t : List (List α)) : t.flatMap (fun r => r) = t.flatten := by
  simp [List.flatMap_def]

theorem flatMap_layers_eq (layers : List (LstmLayer α S)) :
    layers.flatMap (fun ly => ly.weights.flatMap (fun t => t.flatMap (fun r => r))) =
      layerWeightSeq layers := by
  unfold layerWeightSeq
  refine congrArg (fun g => layers.flatMap g) (funext (fun ly => ?_))
  simp [List.flatMap_def, List.flatten_flatten]

theorem length_getD_of_map_length (l1 l2 : List (List α))
    (h : l1.map List.length = l2.map List.length) (i : Nat) :
    (l1.getD i []).length = (l2.getD i []).length := by
  have h1 : (l1.map List.length).getD i 0 = (l1.getD i []).length :=
    List.getD_map l1 [] List.length
  have h2 : (l2.map List.length).getD i 0 = (l2.getD i []).length :=
    List.getD_map l2 [] List.length
  rw [← h1, ← h2, h]

/-- The raw branch of `LoadFromDisk` on a file that holds the values `vs` and then only
short reads: the weights, in visiting order, are `vs` laid over the old weights. -/
theorem loadRaw_short_file (b : Lstm α S) (vs : List α) (rest : List (FileItem α))
    (hfail : blockRead rest = (none, rest)) (hw : WellSized b) :
    weightSeq (loadRaw b (vs.map FileItem.block ++ rest)).2 = overlay vs (weightSeq b) ∧
    (loadRaw b (vs.map FileItem.block ++ rest)).1 =
      (vs.drop (weightSeq b).length).map FileItem.block ++ rest ∧
    SameShape3 (loadRaw b (vs.map FileItem.block ++ rest)).2.output_layer b.output_layer ∧
    layerShapes (loadRaw b (vs.map FileItem.block ++ rest)).2.layers = layerShapes b.layers ∧
    ∀ e, e ≠ lastEpoch b →
      (loadRaw b (vs.map FileItem.block ++ rest)).2.output_layer.getD e [] =
        b.output_layer.getD e [] := by
  have hlast := lastEpoch_lt b hw.epoch_lt
  have hlol : lastEpoch b < b.output_layer.length := by
    rw [hw.ol_len]
    exact hlast
  have hRow : ∀ (us : List α) (row : List α),
      (loadRow blockRead row.length (us.map FileItem.block ++ rest) row).1 =
        (us.drop row.length).map FileItem.block ++ rest ∧
      (loadRow blockRead row.length (us.map FileItem.block ++ rest) row).2 = overlay us row := by
    intro us row
    rw [loadRow_short_file rest hfail us row]
    exact ⟨rfl, rfl⟩
  have hT := fun t => fillSeq_short_file (fun us => us.map FileItem.block ++ rest)
    (fun f row => loadRow blockRead row.length f row) (fun r => r) hRow t
  have hW := fun w => fillSeq_short_file (fun us => us.map FileItem.block ++ rest)
    (fun f t => fillSeq (fun f1 row => loadRow blockRead row.length f1 row) f t)
    (fun t => t.flatMap (fun r => r)) (fun us t => hT t us) w
  have hLs := fillSeq_short_file (fun us => us.map FileItem.block ++ rest)
    (fun f (ly : LstmLayer α S) =>
      ((loadTensors blockRead f ly.weights).1,
        { ly with weights := (loadTensors blockRead f ly.weights).2 }))
    (fun ly => ly.weights.flatMap (fun t => t.flatMap (fun r => r)))
    (fun us ly => by
      show (loadTensors blockRead (us.map FileItem.block ++ rest) ly.weights).1 = _ ∧
        (loadTensors blockRead (us.map FileItem.block ++ rest) ly.weights).2.flatMap
          (fun t => t.flatMap (fun r => r)) = _
      rw [loadTensors_eq_fill]
      exact hW ly.weights us)
    b.layers
  obtain ⟨o1, o2⟩ := hT (b.output_layer.getD (lastEpoch b) []) vs
  obtain ⟨l1, l2⟩ := hLs (vs.drop (b.output_layer.getD (lastEpoch b) []).flatten.length)
  rw [flatMap_self_eq_flatten] at o1 o2
  rw [flatMap_layers_eq] at l1 l2
  rw [flatMap_self_eq_flatten] at o2
  rw [flatMap_layers_eq] at l2
  have hrowsh := fillSeq_shape (fun f (row : List α) => loadRow blockRead row.length f row)
    List.length (fun f row => loadRow_length blockRead _ f row)
    (b.output_layer.getD (lastEpoch b) []) (vs.map FileItem.block ++ rest)
  have hlysh := fillSeq_shape
    (fun f (ly : LstmLayer α S) =>
      ((loadTensors blockRead f ly.weights).1,
        { ly with weights := (loadTensors blockRead f ly.weights).2 }))
    (fun ly => ly.weights.map (fun t => t.map List.length))
    (fun f ly => by
      show (loadTensors blockRead f ly.weights).2.map (fun t => t.map List.length) = _
      rw [loadTensors_eq_fill]
      exact fillSeq_shape _ (fun t => t.map List.length)
        (fun f1 t => fillSeq_shape _ List.length
          (fun f2 row => loadRow_length blockRead _ f2 row) t f1) ly.weights f)
    b.layers
  have key : loadRaw b (vs.map FileItem.block ++ rest) =
      ((fillSeq (fun f (ly : LstmLayer α S) =>
          ((loadTensors blockRead f ly.weights).1,
            { ly with weights := (loadTensors blockRead f ly.weights).2 }))
          ((vs.drop (b.output_layer.getD (lastEpoch b) []).flatten.length).map FileItem.block ++
            rest) b.layers).1,
        { b with
          output_layer := b.output_layer.set (lastEpoch b)
            (fillSeq (fun f row => loadRow blockRead row.length f row)
              (vs.map FileItem.block ++ rest) (b.output_layer.getD (lastEpoch b) [])).2
          layers := (fillSeq (fun f (ly : LstmLayer α S) =>
            ((loadTensors blockRead f ly.weights).1,
              { ly with weights := (loadTensors blockRead f ly.weights).2 }))
            ((vs.drop (b.output_layer.getD (lastEpoch b) []).flatten.length).map
              FileItem.block ++ rest) b.layers).2 }) := by
    unfold loadRaw loadWith
    dsimp only
    rw [loadOutputLayer_eq_fill blockRead b _ hw]
    dsimp only
    rw [loadLayers_eq_fill, o1]
  rw [key]
  refine ⟨?_, ?_, ?_, ?_, ?_⟩
  · show ((b.output_layer.set (lastEpoch b) _).getD (lastEpoch b) []).flatten ++
      layerWeightSeq _ = _
    rw [getD_set_self _ _ _ _ hlol, o2, l2]
    unfold weightSeq
    rw [overlay_append]
  · show (fillSeq _ _ b.layers).1 = _
    rw [l1, List.drop_drop]
    unfold weightSeq
    rw [List.length_append]
  · show SameShape3 (b.output_layer.set (lastEpoch b) _) b.output_layer
    have hlen := fillSeq_length (fun f (row : List α) => loadRow blockRead row.length f row)
      (b.output_layer.getD (lastEpoch b) []) (vs.map FileItem.block ++ rest)
    refine ⟨List.length_set _ _ _, fun e => length_getD_set _ _ _ _ hlen, fun e i => ?_⟩
    rw [getD_set]
    by_cases he : lastEpoch b = e ∧ lastEpoch b < b.output_layer.length
    · rw [if_pos he, ← he.1]
      exact length_getD_of_map_length _ _ hrowsh i
    · rw [if_neg he]
  · exact hlysh _
  · intro e he
    show (b.output_layer.set (lastEpoch b) _).getD e [] = _
    exact getD_set_ne _ _ _ _ _ (Ne.symm he)

/-- C12: truncated raw load. In raw mode (`bits == 0`), on a file that holds `k` complete
4-byte floats `vs`, with `k` smaller than the number of weights, followed by content `rest`
on which `blockRead` is short (a short read consumes nothing, so every later read is short
too), `LoadFromDisk` signals no error; the first `k` weights in visiting order take the
file's values and every later weight of the output projection and of every layer tensor
keeps the value it had before the call; no dimension changes and the other slots of
`output_layer` are untouched. -/
theorem C12_truncated_raw_load (c : Collab α S) (exp : Int) (b : Lstm α S) (vs : List α)
    (rest : List (FileItem α)) (hw : WellSized b) (hk : vs.length < (weightSeq b).length)
    (hrest : (blockRead rest).1 = none) :
    ∃ b1, LoadFromDisk c 0 exp b (vs.map FileItem.block ++ rest) = some b1 ∧
      weightSeq b1 = vs ++ (weightSeq b).drop vs.length ∧
      (∀ k, k < vs.length → (weightSeq b1).getD k 0 = vs.getD k 0) ∧
      (∀ k, vs.length ≤ k → (weightSeq b1).getD k 0 = (weightSeq b).getD k 0) ∧
      SameShape3 b1.output_layer b.output_layer ∧
      layerShapes b1.layers = layerShapes b.layers ∧
      ∀ e, e ≠ lastEpoch b → b1.output_layer.getD e [] = b.output_layer.getD e [] := by
  obtain ⟨p1, -, p3, p4, p5⟩ := loadRaw_short_file b vs rest (blockRead_fail rest hrest) hw
  rw [overlay_of_le _ _ (Nat.le_of_lt hk)] at p1
  refine ⟨(loadRaw b (vs.map FileItem.block ++ rest)).2, ?_, p1, fun k hk1 => ?_,
    fun k hk1 => ?_, p3, p4, p5⟩
  · unfold LoadFromDisk
    rw [if_neg (by decide), if_neg (by decide)]
  · rw [p1, List.getD_append _ _ _ _ hk1]
  · rw [p1, List.getD_append_right _ _ _ _ hk1]
    simp only [List.getD_eq_getElem?_getD, List.getElem?_drop]
    rw [Nat.add_sub_cancel' hk1]

theorem C12_truncated_raw_load_witness :
    (WellSized sampleLstm ∧ [(7 : ℚ), 8, 9].length < (weightSeq sampleLstm).length ∧
      (blockRead ([] : List (FileItem ℚ))).1 = none) ∧
    (∃ b1, LoadFromDisk sampleCollab 0 0 sampleLstm ([(7 : ℚ), 8, 9].map FileItem.block ++ []) = some b1 ∧
      weightSeq b1 = [(7 : ℚ), 8, 9] ++ (weightSeq sampleLstm).drop [(7 : ℚ), 8, 9].length ∧
      (∀ k, k < [(7 : ℚ), 8, 9].length → (weightSeq b1).getD k 0 = [(7 : ℚ), 8, 9].getD k 0) ∧
      (∀ k, [(7 : ℚ), 8, 9].length ≤ k → (weightSeq b1).getD k 0 = (weightSeq sampleLstm).getD k 0) ∧
      SameShape3 b1.output_layer sampleLstm.output_layer ∧
      layerShapes b1.layers = layerShapes sampleLstm.layers ∧
      ∀ e, e ≠ lastEpoch sampleLstm → b1.output_layer.getD e [] = sampleLstm.output_layer.getD e []) :=
  ⟨⟨wellSized_new sampleCollab SIMD.SIMD_NONE 1 2 2 1 3 (1 / 10) 1 (by decide), by decide, rfl⟩,
    C12_truncated_raw_load sampleCollab 0 sampleLstm [7, 8, 9] []
      (wellSized_new sampleCollab SIMD.SIMD_NONE 1 2 2 1 3 (1 / 10) 1 (by decide)) (by decide)
      rfl⟩

/-! ## The scale of a quantized save -/

theorem maxStep_ge_left (m x : α) : m ≤ maxStep m x := by
  unfold maxStep
  split_ifs with h
  · exact le_of_lt h
  · exact le_refl _

theorem maxStep_ge_abs (m x : α) : |x| ≤ maxStep m x := by
  unfold maxStep
  split_ifs with h
  · exact le_refl _
  · exact le_of_not_lt h

theorem foldl_maxStep_ge_init (l : List α) : ∀ init : α, init ≤ l.foldl maxStep init := by
  induction l with
  | nil => intro init; exact le_refl _
  | cons x xs ih =>
    intro init
    exact le_trans (maxStep_ge_left init x) (ih _)

theorem foldl_maxStep_ge_mem (l : List α) :
    ∀ (init w : α), w ∈ l → |w| ≤ l.foldl maxStep init := by
  induction l with
  | nil => intro init w hw; cases hw
  | cons x xs ih =>
    intro init w hw
    rcases List.mem_cons.mp hw with h | h
    · rw [h]
      exact le_trans (maxStep_ge_abs init x) (foldl_maxStep_ge_init xs _)
    · exact ih _ w h

theorem foldl_maxStep_attained (l : List α) :
    ∀ init : α, l.foldl maxStep init = init ∨ ∃ w, w ∈ l ∧ |w| = l.foldl maxStep init := by
  induction l with
  | nil => intro init; exact Or.inl rfl
  | cons x xs ih =>
    intro init
    rcases ih (maxStep init x) with h | ⟨w, hw, he⟩
    · rw [List.foldl_cons, h]
      unfold maxStep
      split_ifs with h1
      · exact Or.inr ⟨x, List.mem_cons_self _ _, rfl⟩
      · exact Or.inl rfl
    · exact Or.inr ⟨w, List.mem_cons_of_mem _ hw, he⟩

theorem maxAbsWeight_eq (s : Lstm α S) (hw : WellSized s) :
    maxAbsWeight s = (weightSeq s).foldl maxStep 0 := by
  unfold maxAbsWeight weightSeq
  rw [forEachLayerWeight_eq, forEachOutputWeight_eq s _ _ hw, List.foldl_append]

theorem saveScale_eq (c : Collab α S) (bits exp : Int) (s : Lstm α S) :
    saveScale c bits exp s =
      c.Decode 9 1 (c.Encode 9 1
        (max 1 (maxAbsWeight s / (2 : α) ^ ((2 : Int) ^ exp.toNat * (bits - 2))))) := by
  unfold saveScale
  dsimp only
  by_cases h : 1 < maxAbsWeight s / (2 : α) ^ ((2 : Int) ^ exp.toNat * (bits - 2))
  · rw [if_pos h, max_eq_right (le_of_lt h)]
  · rw [if_neg h, max_eq_left (le_of_not_lt h)]

theorem quotient_le_of_scale_ge (m sc scale w : α) (hsc : 0 < sc) (hw : |w| ≤ m)
    (hs : max 1 (m / sc) ≤ scale) : |w / scale| ≤ sc := by
  have h1 : (1 : α) ≤ scale := le_trans (le_max_left _ _) hs
  have h2 : m / sc ≤ scale := le_trans (le_max_right _ _) hs
  have hpos : 0 < scale := lt_of_lt_of_le one_pos h1
  rw [abs_div, abs_of_pos hpos, div_le_iff₀ hpos]
  have h3 : m ≤ scale * sc := (div_le_iff₀ hsc).mp h2
  calc |w| ≤ m := hw
    _ ≤ scale * sc := h3
    _ = sc * scale := mul_comm _ _

/-- The value `max_w` of `SaveToDisk` is the largest magnitude among the weights it
visits: it bounds every one of them and, unless it is `0`, is the magnitude of one. -/
theorem maxAbsWeight_is_max (s : Lstm α S) (hw : WellSized s) :
    (∀ w, w ∈ weightSeq s → |w| ≤ maxAbsWeight s) ∧
    (maxAbsWeight s = 0 ∨ ∃ w, w ∈ weightSeq s ∧ |w| = maxAbsWeight s) := by
  rw [maxAbsWeight_eq s hw]
  exact ⟨fun w hmem => foldl_maxStep_ge_mem _ 0 w hmem, foldl_maxStep_attained _ 0⟩

/-! ## Checked accesses agree with the total ones inside the bounds -/

/-- The checked members do fail outside the bounds: `Predict` at a slot index equal to
`horizon`, and `Perceive` with a `hidden_error` of four entries over rows of three. -/
theorem checked_members_fail_out_of_bounds :
    PredictChecked sampleCollab ({ sampleLstm with epoch := 3 } : Lstm ℚ Unit) 0 = none ∧
    PerceiveChecked sampleCollab
      ({ sampleLstm with hidden_error := [0, 0, 0, 0] } : Lstm ℚ Unit) 0 = none :=
  ⟨rfl, rfl⟩

/-! ## C20: index safety -/

end Claims

end PAQ8PX
